import Mathlib

/-!
# Request-processing core of the metadata server (mds/Server.cc)

A shallow embedding of `Server.cc`.  The server is single threaded; every
handler runs to completion, so a handler is a function from the server state
to the server state.  The state carries the metadata cache (inodes, dirfrags,
dentries), the client map, the request table and a log of the calls made to
the external collaborators (messenger, journal, locker, balancer, wait
lists), in program order.

Conventions.
* A `CInode*` is the ino of the inode, a `CDir*` is a `dirfrag_t`, a
  `CDentry*` is a `(dirfrag_t, name)` pair; all three are resolved through
  the cache.  A null pointer is `none`.
* A `Context*` handed to a collaborator is a value of `Context`; running it
  later is `Server.finish`.
* `assert(false)` and the dereference of a pointer that does not resolve are
  `Effect.abort`, after which the handler returns.
* Answers of collaborators whose code is not part of `Server.cc` (lock
  grants, path traversal, the clock, capability issue, the frag hash) are
  read from an `Env`.
-/

set_option maxRecDepth 4000

abbrev inodeno_t := Nat
abbrev frag_t := Nat
abbrev version_t := Nat
abbrev time_t := Int
/-- Identity of a request message object (the `MClientRequest*`). -/
abbrev ReqId := Nat

/-! ## Constants of system and repository headers -/

def ENOENT : Int := 2
def EAGAIN : Int := 11
def EEXIST : Int := 17
def EXDEV : Int := 18
def ENOTDIR : Int := 20
def EISDIR : Int := 21
def EINVAL : Int := 22
def ENOTEMPTY : Int := 39
def O_CREAT : Nat := 0o100
def O_EXCL : Nat := 0o200

/-- Modelled from the spec: file type bits of `inode_t.mode` (include/types.h is not part of
the sources at hand); the values are those of the POSIX `S_IFMT` family. -/
def INODE_TYPE_MASK : Nat := 0o170000
/-- Modelled from the spec: type bits of a regular file (`S_IFREG`). -/
def INODE_MODE_FILE : Nat := 0o100000
/-- Modelled from the spec: type bits of a symbolic link (`S_IFLNK`). -/
def INODE_MODE_SYMLINK : Nat := 0o120000
/-- Modelled from the spec: type bits of a directory (`S_IFDIR`). -/
def INODE_MODE_DIR : Nat := 0o040000
/-- Modelled from the spec: open mode "read" of the capability subsystem. -/
def FILE_MODE_R : Int := 1
/-- Modelled from the spec: open mode "lazy" of the capability subsystem. -/
def FILE_MODE_LAZY : Int := 4
/-- Modelled from the spec: the stat mask bits that need file (size, mtime) information. -/
def INODE_MASK_SIZE : Nat := 64
/-- Modelled from the spec: see `INODE_MASK_SIZE`. -/
def INODE_MASK_MTIME : Nat := 128
/-- Modelled from the spec: the object layout given to directories. -/
def g_OSD_MDDirLayout : Nat := 1

/-- Width of the C `int` / `mode_t` words that hold a mode. -/
def WORD : Nat := 2 ^ 32

/-- The C expression `~04777` as a 32-bit word. -/
def NOT_04777 : Nat := WORD - 1 - 0o4777

/-! ## Wire types -/

/-- Client op codes (`MDS_OP_*`).  The codes are distinct `case` labels; `UNKNOWN` stands
for any code that is none of the seventeen ops of the wire interface. -/
inductive ClientOp
  | OPEN | TRUNCATE | RELEASE | FSYNC
  | STAT | LSTAT | UTIME | CHMOD | CHOWN
  | READDIR | MKNOD | MKDIR | SYMLINK | LINK | UNLINK | RMDIR | RENAME
  | UNKNOWN
  deriving DecidableEq, Repr

/-- Modelled from the spec: `filepath` (include/filepath.h), a sequence of path components
(`bits`); the empty sequence is the root. -/
structure filepath where
  bits : List String
  deriving DecidableEq, Repr

namespace filepath

def depth (p : filepath) : Int := p.bits.length

/-- The first `s` components: `for (i = 0; i < s; i++) push_dentry(bits[i])`. -/
def prefixpath (p : filepath) (s : Int) : filepath := ⟨p.bits.take s.toNat⟩

def last_dentry (p : filepath) : String := p.bits.getLast?.getD ""

def push_dentry (p : filepath) (d : String) : filepath := ⟨p.bits ++ [d]⟩

def get_path (p : filepath) : String := "/".intercalate p.bits

/-- Parse of a path string: the non-empty pieces between slashes. -/
def ofString (s : String) : filepath := ⟨(s.splitOn "/").filter (fun b => b != "")⟩

end filepath

/-- The `args` union of `MClientRequest`.  `ino` is the first member of the `truncate`,
`fsync` and `release` alternatives, which overlay each other. -/
structure ReqArgs where
  ino : inodeno_t := 0
  length : Int := 0
  flags : Nat := 0
  open_mode : Int := 0
  mask : Nat := 0
  modtime : time_t := 0
  actime : time_t := 0
  mode : Nat := 0
  uid : Int := 0
  gid : Int := 0
  frag : frag_t := 0
  deriving DecidableEq, Repr

structure MClientRequest where
  id : ReqId
  op : ClientOp
  filepath : filepath
  /-- The request path as a string (`get_path()`). -/
  path : String
  sarg : String
  args : ReqArgs
  caller_uid : Int
  caller_gid : Int
  client : Nat
  deriving DecidableEq, Repr

structure dirfrag_t where
  ino : inodeno_t
  frag : frag_t
  deriving DecidableEq, Repr

/-- A `CDentry*`: the dirfrag that holds the dentry and its name. -/
structure DnPtr where
  dir : dirfrag_t
  name : String
  deriving DecidableEq, Repr

structure MClientReply where
  req : ReqId
  result : Int
  trace : Option inodeno_t := none
  file_caps : Nat := 0
  file_caps_seq : Nat := 0
  file_data_version : version_t := 0
  dir_in : List inodeno_t := []
  dir_dn : List String := []
  num_dir_items : Int := 0
  deriving DecidableEq, Repr

/-- Messages seen by `Server::dispatch` and `Server::dispatch_request`, by `get_type()`. -/
inductive Message
  | client_mount (client : Nat)
  | client_unmount (client : Nat)
  | client_request (req : MClientRequest)
  | mds_lock (dn : DnPtr)
  | other (type : Nat)
  deriving DecidableEq, Repr

/-! ## Cache objects -/

structure inode_t where
  ino : inodeno_t
  mode : Nat := 0
  uid : Int := 0
  gid : Int := 0
  size : Int := 0
  mtime : time_t := 0
  atime : time_t := 0
  ctime : time_t := 0
  nlink : Int := 1
  layout : Nat := 0
  version : version_t := 0
  deriving DecidableEq, Repr

/-- Modelled from the spec: `CInode` (mds/CInode.h), an inode in the cache with its
authority, its primary parent dentry, the leaves of its dirfragtree, a projected version
(the next version to be applied) and the anchor and capability state the handlers read. -/
structure CInode where
  inode : inode_t
  symlink : String := ""
  auth : Bool := true
  authority : Int := 0
  parent : Option DnPtr := none
  dirfragtree : List frag_t := [0]
  projected_version : version_t := 0
  dirty : Bool := false
  anchored : Bool := false
  unanchoring : Bool := false
  caps_wanted : Nat := 0
  frozen_dir : Bool := false
  deriving DecidableEq, Repr

/-- Modelled from the spec: `CDentry` (mds/CDentry.h).  `inode` is the linked `CInode*`
(null for a null dentry and for a remote dentry whose inode is not open), `remote_ino`
is non-zero for a remote link, `xlockedby` is the request holding the xlock. -/
structure CDentry where
  name : String
  inode : Option inodeno_t := none
  remote_ino : inodeno_t := 0
  xlockedby : Option ReqId := none
  version : version_t := 0
  projected_version : version_t := 0
  dirty : Bool := false
  replicas : List Int := []
  deriving DecidableEq, Repr

/-- Modelled from the spec: `CDir` (mds/CDir.h), one dirfrag of a directory with its
dentries, authority, completeness and freeze state. -/
structure CDir where
  dirfrag : dirfrag_t
  items : List CDentry := []
  auth : Bool := true
  authority : Int := 0
  complete : Bool := true
  dirty : Bool := false
  frozen : Bool := false
  auth_pinnable : Bool := true
  version : version_t := 0
  projected_version : version_t := 0
  deriving DecidableEq, Repr

namespace CInode
/-- Modelled from the spec: `CInode::is_dir()`, the inode has directory type bits. -/
def is_dir (i : CInode) : Bool := i.inode.mode &&& INODE_TYPE_MASK == INODE_MODE_DIR
def is_anchored (i : CInode) : Bool := i.anchored
def is_unanchoring (i : CInode) : Bool := i.unanchoring
def get_parent_dir (i : CInode) : Option dirfrag_t := i.parent.map (fun p => p.dir)
end CInode

namespace CDentry
/-- Modelled from the spec: a null dentry reserves a name and has no target. -/
def is_null (d : CDentry) : Bool := d.inode.isNone && d.remote_ino == 0
/-- Modelled from the spec: a primary dentry owns an inode. -/
def is_primary (d : CDentry) : Bool := d.remote_ino == 0 && d.inode.isSome
/-- Modelled from the spec: a remote dentry refers to an ino whose primary lives elsewhere. -/
def is_remote (d : CDentry) : Bool := decide (0 < d.remote_ino)
def is_xlockedbyme (d : CDentry) (req : ReqId) : Bool := d.xlockedby == some req
/-- Modelled from the spec: a dentry is readable unless another request holds its xlock. -/
def can_read (d : CDentry) (req : ReqId) : Bool := d.xlockedby.isNone || d.xlockedby == some req
def is_clean (d : CDentry) : Bool := !d.dirty
def is_sync (d : CDentry) : Bool := d.xlockedby.isNone
end CDentry

namespace CDir
def lookup (d : CDir) (name : String) : Option CDentry := d.items.find? (fun dn => dn.name == name)
def get_size (d : CDir) : Nat := (d.items.filter (fun dn => !dn.is_null)).length
end CDir

/-! ## Journal entries -/

/-- One record of a `MetaBlob`, in the order the handler adds them. -/
inductive MetaBlobItem
  | dir_context (dir : Option dirfrag_t)
  | primary_dentry (dn : Option DnPtr) (dirty : Bool) (pi : inode_t)
  | remote_dentry (dn : DnPtr) (dirty : Bool) (ino : inodeno_t)
  | null_dentry (dn : DnPtr) (dirty : Bool)
  | destroyed_inode (i : inode_t)
  | dir (d : dirfrag_t) (dirty : Bool)
  deriving DecidableEq, Repr

inductive LogEvent
  | EString (label : String)
  | EMount (client : Nat) (mount : Bool) (version : version_t)
  | EUpdate (name : String) (metablob : List MetaBlobItem)
  deriving DecidableEq, Repr

/-! ## Continuations -/

/-- The `Context` subclasses the server hands to its collaborators, with their captured
state. -/
inductive Context
  | C_MDS_RetryMessage (m : Message)
  | C_MDS_RetryRequest (req : MClientRequest) (ref : inodeno_t)
  | C_MDS_mount_finish (m : Message) (mount : Bool) (cmapv : version_t)
  | C_MDS_CommitRequest (req : MClientRequest) (reply : MClientReply)
      (tracei : Option inodeno_t) (event : Option LogEvent)
  | C_MDS_utime_finish (req : MClientRequest) (i : inodeno_t) (pv : version_t)
      (mtime atime : time_t)
  | C_MDS_chmod_finish (req : MClientRequest) (i : inodeno_t) (pv : version_t) (mode : Nat)
  | C_MDS_chown_finish (req : MClientRequest) (i : inodeno_t) (pv : version_t) (uid gid : Int)
  | C_MDS_mknod_finish (req : MClientRequest) (dn : DnPtr) (newi : inodeno_t) (pv : version_t)
  | C_MDS_openc_finish (req : MClientRequest) (dn : DnPtr) (newi : inodeno_t) (pv : version_t)
  | C_MDS_LinkTraverse (req : MClientRequest) (ref : inodeno_t)
  | C_MDS_link_local_finish (req : MClientRequest) (dn : DnPtr) (targeti : inodeno_t)
      (dpv : version_t) (tctime : time_t) (tpv : version_t)
  | C_MDS_unlink_local_finish (req : MClientRequest) (dn : DnPtr) (i : inodeno_t)
      (ipv : version_t) (ictime : time_t) (dpv : version_t)
  | C_MDS_RenameTraverseDst (req : MClientRequest) (ref srcdiri : inodeno_t)
      (srcdir : dirfrag_t) (srcdn : DnPtr) (destpath : filepath)
  deriving DecidableEq, Repr

inductive LockKind
  | inode_file_read | inode_file_write | inode_hard_read | inode_hard_write | dentry_xlock
  deriving DecidableEq, Repr

inductive WaitKind
  | WAIT_UNFREEZE | WAIT_AUTHPINNABLE | WAIT_DNREAD
  deriving DecidableEq, Repr

inductive MetaPop
  | META_POP_IRD | META_POP_IWR | META_POP_DWR
  deriving DecidableEq, Repr

/-- A call to an external collaborator, as it appears in the source. -/
inductive Effect
  /-- Sends `messenger->send_message(MClientReply, client)`. -/
  | send_reply (reply : MClientReply) (client : Nat)
  | send_mount_ack (client : Nat)
  | send_unmount_echo (client : Nat)
  /-- Passes the request itself on: `mds->send_message_mds(req, mds, MDS_PORT_SERVER)`. -/
  | send_message_mds (req : ReqId) (mds : Int)
  | send_dentry_unlink (dir : dirfrag_t) (name : String) (mds : Int)
  | request_forward (req : ReqId) (mds : Int)
  | request_cleanup (req : ReqId)
  | request_finish (req : ReqId)
  | request_start (req : ReqId) (ref : inodeno_t) (trace : List DnPtr) (ok : Bool)
  | request_pin_inode (req : ReqId) (ino : inodeno_t)
  | delete_req (req : ReqId)
  | open_root (c : Context)
  | queue_waitfor_active (c : Context)
  | path_traverse (path : filepath) (follow : Bool) (discover : Bool) (req : ReqId)
      (ondelay : Context) (onfinish : Option Context) (r : Int)
  | submit_entry (le : LogEvent) (c : Option Context)
  | wait_for_sync (c : Context)
  | lock_start (kind : LockKind) (ino : inodeno_t) (dn : Option DnPtr) (req : ReqId)
      (granted : Bool)
  | lock_finish (kind : LockKind) (ino : inodeno_t) (dn : Option DnPtr)
  | dentry_xlock_request (dir : dirfrag_t) (name : String) (dest : Bool) (req : ReqId)
      (c : Context)
  | add_waiter (dir : Option dirfrag_t) (kind : WaitKind) (name : Option String) (c : Context)
  | fetch (dir : dirfrag_t) (c : Context)
  | anchor_create (ino : inodeno_t) (c : Context)
  | open_remote_ino (ino : inodeno_t) (req : ReqId) (c : Context)
  | open_remote_dir (ino : inodeno_t) (frag : frag_t) (c : Context)
  | hit_inode (ino : inodeno_t) (pop : MetaPop)
  | hit_dir (dir : dirfrag_t) (pop : MetaPop)
  | issue_file_data_version (ino : inodeno_t)
  | issue_new_caps (ino : inodeno_t) (mode : Int) (req : ReqId) (ok : Bool)
  | purge_inode (ino : inodeno_t)
  | file_rename (src dst : DnPtr) (c : Context)
  | handle_lock_dn (dn : DnPtr)
  | shutdown_start
  | abort
  deriving DecidableEq, Repr

/-! ## Server state -/

/-- Modelled from the spec: `ClientMap`, the versioned set of mounted clients;
`inc_projected()` reserves the next version, every applied add or remove advances
`version` by one. -/
structure ClientMap where
  version : version_t := 0
  projected : version_t := 0
  mounts : List Nat := []
  deriving DecidableEq, Repr

/-- The state reachable from the `Server` object: node id and cluster size, the cache,
the client map, the request table, and the log of collaborator calls. -/
structure MDS where
  whoami : Int := 0
  num_mds : Int := 1
  active : Bool := true
  root : Option inodeno_t := none
  inode_map : List CInode := []
  dirs : List CDir := []
  clientmap : ClientMap := {}
  active_requests : List ReqId := []
  stat_ops : Nat := 0
  log : List Effect := []
  deriving DecidableEq, Repr

/-! ## Answers of the external collaborators -/

/-- What `MDCache::path_traverse` hands back: the return value `r` (positive: delayed or
forwarded, negative: an errno, zero: done) and the dentry trace it filled in. -/
structure TraverseResult where
  r : Int
  trace : List DnPtr
  deriving DecidableEq, Repr

structure Capability where
  pending : Nat
  last_seq : Nat
  deriving DecidableEq, Repr

/-- Configuration (`g_conf`), the clock, and the decisions of the collaborators whose code
lies outside `Server.cc`.  Every decision may depend on the whole current state, the log of
earlier calls included. -/
structure Env where
  mds_log_before_reply : Bool
  mds_log : Bool
  mds_shutdown_on_last_unmount : Bool
  /-- Reads `g_clock.gettime()`. -/
  gettime : MDS → time_t
  /-- Grants of `Locker::*_start`: true when the lock is held on return. -/
  lock_start : MDS → LockKind → inodeno_t → Option DnPtr → ReqId → Bool
  path_traverse : MDS → filepath → Bool → Bool → ReqId → TraverseResult
  request_start : MDS → ReqId → inodeno_t → List DnPtr → Bool
  /-- The ino `MDCache::create_inode` allocates. -/
  new_ino : MDS → inodeno_t
  /-- The frag that owns a name: `CInode::pick_dirfrag`, a function of fragtree and name. -/
  pick_dirfrag : List frag_t → String → frag_t
  issue_file_data_version : MDS → inodeno_t → version_t
  issue_new_caps : MDS → inodeno_t → Int → ReqId → Option Capability

/-! ## Cache primitives -/

namespace MDS

/-- Appends a collaborator call to the log. -/
def emit (s : MDS) (e : Effect) : MDS := { s with log := s.log ++ [e] }

def get_inode (s : MDS) (ino : inodeno_t) : Option CInode :=
  s.inode_map.find? (fun i => i.inode.ino == ino)

def modify_inode (s : MDS) (ino : inodeno_t) (f : CInode → CInode) : MDS :=
  { s with inode_map := s.inode_map.map (fun i => if i.inode.ino == ino then f i else i) }

def get_dirfrag (s : MDS) (df : dirfrag_t) : Option CDir :=
  s.dirs.find? (fun d => d.dirfrag == df)

def modify_dir (s : MDS) (df : dirfrag_t) (f : CDir → CDir) : MDS :=
  { s with dirs := s.dirs.map (fun d => if d.dirfrag == df then f d else d) }

def get_dentry (s : MDS) (p : DnPtr) : Option CDentry :=
  (s.get_dirfrag p.dir).bind (fun d => d.lookup p.name)

def modify_dentry (s : MDS) (p : DnPtr) (f : CDentry → CDentry) : MDS :=
  s.modify_dir p.dir (fun d =>
    { d with items := d.items.map (fun dn => if dn.name == p.name then f dn else dn) })

/-- Modelled from the spec: `CInode::pre_dirty()`, reserves and returns the next projected
version of the inode. -/
def inode_pre_dirty (s : MDS) (ino : inodeno_t) : MDS × version_t :=
  match s.get_inode ino with
  | some ci =>
    (s.modify_inode ino (fun i => { i with projected_version := i.projected_version + 1 }),
      ci.projected_version + 1)
  | none => (s, 0)

/-- Modelled from the spec: `CInode::mark_dirty(pv)`, marks the inode dirty at the
projected version. -/
def inode_mark_dirty (s : MDS) (ino : inodeno_t) (pv : version_t) : MDS :=
  s.modify_inode ino (fun i => { i with inode := { i.inode with version := pv }, dirty := true })

/-- Modelled from the spec: `CInode::_mark_dirty()`, marks the inode dirty without a version. -/
def inode__mark_dirty (s : MDS) (ino : inodeno_t) : MDS :=
  s.modify_inode ino (fun i => { i with dirty := true })

/-- Modelled from the spec: `CDentry::pre_dirty()`, reserves the next projected version of
the dentry. -/
def dentry_pre_dirty (s : MDS) (p : DnPtr) : MDS :=
  s.modify_dentry p (fun d => { d with projected_version := d.projected_version + 1 })

def dentry_projected_version (s : MDS) (p : DnPtr) : version_t :=
  match s.get_dentry p with
  | some d => d.projected_version
  | none => 0

/-- Modelled from the spec: `CDentry::mark_dirty(pv)`. -/
def dentry_mark_dirty (s : MDS) (p : DnPtr) (pv : version_t) : MDS :=
  s.modify_dentry p (fun d => { d with version := pv, dirty := true })

/-- Modelled from the spec: `CDir::add_dentry(name, 0)`, adds a null dentry for the name. -/
def add_dentry (s : MDS) (df : dirfrag_t) (name : String) : MDS :=
  s.modify_dir df (fun d => { d with items := d.items ++ [{ name := name }] })

/-- Modelled from the spec: `CDir::remove_dentry`. -/
def remove_dentry (s : MDS) (p : DnPtr) : MDS :=
  s.modify_dir p.dir (fun d => { d with items := d.items.filter (fun dn => dn.name != p.name) })

/-- Modelled from the spec: `CDir::link_inode(dn, in)`, the dentry becomes the primary
dentry of the inode. -/
def link_inode (s : MDS) (p : DnPtr) (ino : inodeno_t) : MDS :=
  (s.modify_dentry p (fun d => { d with inode := some ino, remote_ino := 0 })).modify_inode ino
    (fun i => { i with parent := some p })

/-- Modelled from the spec: `CDir::unlink_inode(dn)`, the dentry becomes null; an inode it
was the primary dentry of loses its parent. -/
def unlink_inode (s : MDS) (p : DnPtr) : MDS :=
  let s1 := s.modify_dentry p (fun d => { d with inode := none, remote_ino := 0 })
  { s1 with inode_map := s1.inode_map.map (fun i =>
      if i.parent == some p then { i with parent := none } else i) }

/-- Modelled from the spec: `CInode::get_or_open_dirfrag`, opens an empty, not yet complete
dirfrag of the inode if it is not open. -/
def get_or_open_dirfrag (s : MDS) (ci : CInode) (fg : frag_t) : MDS :=
  match s.get_dirfrag ⟨ci.inode.ino, fg⟩ with
  | some _ => s
  | none => { s with dirs := s.dirs ++
      [{ dirfrag := ⟨ci.inode.ino, fg⟩, auth := ci.auth, authority := ci.authority,
         complete := false }] }

/-- Modelled from the spec: `MDCache::create_inode()`, a fresh authoritative inode in the
cache, not linked to any dentry. -/
def create_inode (s : MDS) (ino : inodeno_t) : MDS :=
  { s with inode_map := s.inode_map ++ [{ inode := { ino := ino }, authority := s.whoami }] }

/-- Modelled from the spec: `MDCache::remove_inode`. -/
def remove_inode (s : MDS) (ino : inodeno_t) : MDS :=
  { s with inode_map := s.inode_map.filter (fun i => i.inode.ino != ino),
           dirs := s.dirs.filter (fun d => d.dirfrag.ino != ino) }

/-- Modelled from the spec: `MDCache::request_finish`, takes the request out of the request
table and releases the locks it holds. -/
def request_finish (s : MDS) (req : ReqId) : MDS :=
  let s1 := s.emit (.request_finish req)
  { s1 with
    active_requests := s1.active_requests.filter (fun r => r != req),
    dirs := s1.dirs.map (fun d => { d with items := d.items.map (fun dn =>
      if dn.xlockedby == some req then { dn with xlockedby := none } else dn) }) }

/-- Modelled from the spec: `MDCache::request_forward`, hands the request to another peer
and gives up local ownership of it. -/
def request_forward (s : MDS) (req : ReqId) (mds : Int) : MDS :=
  let s1 := s.emit (.request_forward req mds)
  { s1 with active_requests := s1.active_requests.filter (fun r => r != req) }

/-- Modelled from the spec: `MDCache::request_cleanup`, drops the local request state
without finishing the request. -/
def request_cleanup (s : MDS) (req : ReqId) : MDS :=
  let s1 := s.emit (.request_cleanup req)
  { s1 with active_requests := s1.active_requests.filter (fun r => r != req) }

/-- An inode lock start (`Locker::inode_*_start`): the grant is read from the environment
and the call is logged. -/
def inode_lock_start (env : Env) (s : MDS) (k : LockKind) (ino : inodeno_t) (req : ReqId) :
    MDS × Bool :=
  (s.emit (.lock_start k ino none req (env.lock_start s k ino none req)),
    env.lock_start s k ino none req)

def inode_lock_finish (s : MDS) (k : LockKind) (ino : inodeno_t) : MDS :=
  s.emit (.lock_finish k ino none)

/-- Modelled from the spec: `Locker::dentry_xlock_start`; a granted xlock records the
request as the holder inside the dentry. -/
def dentry_xlock_start (env : Env) (s : MDS) (p : DnPtr) (req : ReqId) (ref : inodeno_t) :
    MDS × Bool :=
  let g := env.lock_start s .dentry_xlock ref (some p) req
  let s1 := s.emit (.lock_start .dentry_xlock ref (some p) req g)
  (if g then s1.modify_dentry p (fun d => { d with xlockedby := some req }) else s1, g)

/-- Modelled from the spec: `Locker::dentry_xlock_finish`, releases the xlock. -/
def dentry_xlock_finish (s : MDS) (p : DnPtr) : MDS :=
  (s.modify_dentry p (fun d => { d with xlockedby := none })).emit
    (.lock_finish .dentry_xlock 0 (some p))

end MDS

/-! ## Server.cc -/

namespace Server

/-- The reply with the trace to `tracei` included: `if (tracei) reply->set_trace_dist(...)`. -/
def include_trace (reply : MClientReply) (tracei : Option inodeno_t) : MClientReply :=
  match tracei with
  | some t => { reply with trace := some t }
  | none => reply

/-- Embeds `Server::reply_request(req, reply, tracei)`: include the trace, send the reply,
discard the request. -/
def reply_request (s : MDS) (req : MClientRequest) (reply : MClientReply)
    (tracei : Option inodeno_t) : MDS :=
  let s1 := s.emit (.send_reply (include_trace reply tracei) req.client)
  let s2 := s1.request_finish req.id
  { s2 with stat_ops := s2.stat_ops + 1 }

/-- Embeds `Server::reply_request(req, r, tracei)`: the generic response, just an error code. -/
def reply_request_r (s : MDS) (req : MClientRequest) (r : Int)
    (tracei : Option inodeno_t) : MDS :=
  reply_request s req { req := req.id, result := r } tracei

/-- Embeds `Server::submit_update`. -/
def submit_update (s : MDS) (req : MClientRequest) (wrlockedi : inodeno_t) (event : LogEvent)
    (oncommit : Context) : MDS :=
  ((s.emit (.submit_entry event none)).emit (.request_pin_inode req.id wrlockedi)).emit
    (.wait_for_sync oncommit)

/-- Embeds `Server::commit_request`: journal the event(s), then reply after the sync (safe
mode) or at once. -/
def commit_request (env : Env) (s : MDS) (req : MClientRequest) (reply : MClientReply)
    (tracei : Option inodeno_t) (event : Option LogEvent) (event2 : Option LogEvent) : MDS :=
  let s1 := match event with
    | some e => s.emit (.submit_entry e none)
    | none => s
  let s2 := match event2 with
    | some e => s1.emit (.submit_entry e none)
    | none => s1
  if env.mds_log_before_reply && env.mds_log && event.isSome then
    let s3 := match tracei with
      | some t => s2.emit (.request_pin_inode req.id t)
      | none => s2
    s3.emit (.wait_for_sync (.C_MDS_CommitRequest req reply tracei none))
  else
    reply_request s2 req reply tracei

/-- Embeds `C_MDS_CommitRequest::finish`. -/
def C_MDS_CommitRequest_finish (env : Env) (s : MDS) (req : MClientRequest)
    (reply : MClientReply) (tracei : Option inodeno_t) (event : Option LogEvent) (r : Int) :
    MDS :=
  let reply1 : MClientReply := if r != 0 then { reply with result := r } else reply
  match event with
  | some e => commit_request env s req reply1 tracei (some e) none
  | none => reply_request s req reply1 tracei

/-! ### Mount and unmount -/

/-- Embeds `Server::handle_client_mount`. -/
def handle_client_mount (s : MDS) (client : Nat) : MDS :=
  let cmapv := s.clientmap.projected + 1
  let s1 := { s with clientmap := { s.clientmap with projected := cmapv } }
  s1.emit (.submit_entry (.EMount client true cmapv)
    (some (.C_MDS_mount_finish (.client_mount client) true cmapv)))

/-- Embeds `Server::handle_client_unmount`. -/
def handle_client_unmount (s : MDS) (client : Nat) : MDS :=
  let cmapv := s.clientmap.projected + 1
  let s1 := { s with clientmap := { s.clientmap with projected := cmapv } }
  s1.emit (.submit_entry (.EMount client false cmapv)
    (some (.C_MDS_mount_finish (.client_unmount client) false cmapv)))

/-- Embeds `C_MDS_mount_finish::finish`.  The client is the source of the message. -/
def C_MDS_mount_finish_finish (env : Env) (s : MDS) (client : Nat) (mount : Bool)
    (cmapv : version_t) (r : Int) : MDS :=
  if r != 0 then s.emit .abort
  else
    let cm : ClientMap :=
      if mount then
        { s.clientmap with mounts := s.clientmap.mounts ++ [client],
                           version := s.clientmap.version + 1 }
      else
        { s.clientmap with mounts := s.clientmap.mounts.filter (fun c => c != client),
                           version := s.clientmap.version + 1 }
    let s1 := { s with clientmap := cm }
    if cmapv != s1.clientmap.version then s1.emit .abort
    else if mount then s1.emit (.send_mount_ack client)
    else
      let s2 := s1.emit (.send_unmount_echo client)
      if env.mds_shutdown_on_last_unmount && s2.clientmap.mounts.isEmpty then
        s2.emit .shutdown_start
      else s2

/-! ### Stat -/

/-- Embeds `Server::handle_client_stat`. -/
def handle_client_stat (env : Env) (s : MDS) (req : MClientRequest) (ref : inodeno_t) : MDS :=
  let mask := req.args.mask
  let tail := fun (s0 : MDS) =>
    reply_request (s0.emit (.hit_inode ref .META_POP_IRD)) req { req := req.id, result := 0 }
      (some ref)
  if mask &&& (INODE_MASK_SIZE ||| INODE_MASK_MTIME) != 0 then
    let l := s.inode_lock_start env .inode_file_read ref req.id
    if !l.2 then l.1
    else tail (l.1.inode_lock_finish .inode_file_read ref)
  else tail s

/-! ### Inode updates -/

/-- Embeds `C_MDS_utime_finish::finish`. -/
def C_MDS_utime_finish_finish (s : MDS) (req : MClientRequest) (i : inodeno_t)
    (pv : version_t) (mtime atime : time_t) (r : Int) : MDS :=
  if r != 0 then s.emit .abort
  else
    let s1 := s.modify_inode i (fun c =>
      { c with inode := { c.inode with mtime := mtime, atime := atime } })
    let s2 := s1.inode_mark_dirty i pv
    let s3 := s2.inode_lock_finish .inode_file_write i
    reply_request s3 req { req := req.id, result := 0 } (some i)

/-- Embeds `Server::handle_client_utime`. -/
def handle_client_utime (env : Env) (s : MDS) (req : MClientRequest) (cur : inodeno_t) : MDS :=
  let l := s.inode_lock_start env .inode_file_write cur req.id
  if !l.2 then l.1
  else
    let s1 := l.1.emit (.hit_inode cur .META_POP_IWR)
    match s1.get_inode cur with
    | none => s1.emit .abort
    | some ci =>
      let pd := s1.inode_pre_dirty cur
      let pdv := pd.2
      let mtime := req.args.modtime
      let atime := req.args.actime
      let fin := Context.C_MDS_utime_finish req cur pdv mtime atime
      let pi : inode_t :=
        { ci.inode with mtime := mtime, atime := mtime, ctime := env.gettime pd.1,
                        version := pdv }
      let le := LogEvent.EUpdate "utime"
        [.dir_context ci.get_parent_dir, .primary_dentry ci.parent true pi]
      (pd.1.emit (.submit_entry le none)).emit (.wait_for_sync fin)

/-- Embeds `C_MDS_chmod_finish::finish`: `mode &= ~04777; mode |= (mode_arg & 04777)`. -/
def C_MDS_chmod_finish_finish (s : MDS) (req : MClientRequest) (i : inodeno_t)
    (pv : version_t) (mode : Nat) (r : Int) : MDS :=
  if r != 0 then s.emit .abort
  else
    let s1 := s.modify_inode i (fun c =>
      { c with inode := { c.inode with
          mode := (c.inode.mode &&& NOT_04777) ||| (mode &&& 0o4777) } })
    let s2 := s1.inode_mark_dirty i pv
    let s3 := s2.inode_lock_finish .inode_hard_write i
    reply_request s3 req { req := req.id, result := 0 } (some i)

/-- Embeds `Server::handle_client_chmod`. -/
def handle_client_chmod (env : Env) (s : MDS) (req : MClientRequest) (cur : inodeno_t) : MDS :=
  let l := s.inode_lock_start env .inode_hard_write cur req.id
  if !l.2 then l.1
  else
    let s1 := l.1.emit (.hit_inode cur .META_POP_IWR)
    match s1.get_inode cur with
    | none => s1.emit .abort
    | some ci =>
      let pd := s1.inode_pre_dirty cur
      let pdv := pd.2
      let mode := req.args.mode
      let fin := Context.C_MDS_chmod_finish req cur pdv mode
      let pi : inode_t := { ci.inode with mode := mode, version := pdv, ctime := env.gettime pd.1 }
      let le := LogEvent.EUpdate "chmod"
        [.dir_context ci.get_parent_dir, .primary_dentry ci.parent true pi]
      (pd.1.emit (.submit_entry le none)).emit (.wait_for_sync fin)

/-- Embeds `C_MDS_chown_finish::finish`. -/
def C_MDS_chown_finish_finish (s : MDS) (req : MClientRequest) (i : inodeno_t)
    (pv : version_t) (uid gid : Int) (r : Int) : MDS :=
  if r != 0 then s.emit .abort
  else
    let s1 := s.modify_inode i (fun c =>
      { c with inode := { c.inode with
          uid := if uid >= 0 then uid else c.inode.uid,
          gid := if gid >= 0 then gid else c.inode.gid } })
    let s2 := s1.inode_mark_dirty i pv
    let s3 := s2.inode_lock_finish .inode_hard_write i
    reply_request s3 req { req := req.id, result := 0 } (some i)

/-- Embeds `Server::handle_client_chown`. -/
def handle_client_chown (env : Env) (s : MDS) (req : MClientRequest) (cur : inodeno_t) : MDS :=
  let l := s.inode_lock_start env .inode_hard_write cur req.id
  if !l.2 then l.1
  else
    let s1 := l.1.emit (.hit_inode cur .META_POP_IWR)
    match s1.get_inode cur with
    | none => s1.emit .abort
    | some ci =>
      let pd := s1.inode_pre_dirty cur
      let pdv := pd.2
      let uid := req.args.uid
      let gid := req.args.gid
      let fin := Context.C_MDS_chown_finish req cur pdv uid gid
      let pi : inode_t :=
        { ci.inode with
          uid := if uid >= 0 then uid else ci.inode.uid,
          gid := if gid >= 0 then gid else ci.inode.gid,
          version := pdv, ctime := env.gettime pd.1 }
      let le := LogEvent.EUpdate "chown"
        [.dir_context ci.get_parent_dir, .primary_dentry ci.parent true pi]
      (pd.1.emit (.submit_entry le none)).emit (.wait_for_sync fin)

/-! ### Directory and namespace ops -/

/-- The C expression `~INODE_TYPE_MASK` as a 32-bit word. -/
def NOT_INODE_TYPE_MASK : Nat := WORD - 1 - INODE_TYPE_MASK

/-- Embeds `Server::encode_dir_contents`: the inode-stat list, the name list and the count. -/
def encode_dir_contents (dir : CDir) : List inodeno_t × List String × Int :=
  dir.items.foldl (fun acc dn =>
    if dn.is_null then acc
    else match dn.inode with
      | none => acc
      | some i => (acc.1 ++ [i], acc.2.1 ++ [dn.name], acc.2.2 + 1)) ([], [], 0)

/-- Embeds `Server::try_open_dir`. -/
def try_open_dir (s : MDS) (ino : inodeno_t) (fg : frag_t) (req : MClientRequest) :
    MDS × Option dirfrag_t :=
  match s.get_inode ino with
  | none => (s.emit .abort, none)
  | some ci =>
    match s.get_dirfrag ⟨ino, fg⟩ with
    | some _ => (s, some ⟨ino, fg⟩)
    | none =>
      if ci.frozen_dir then
        match ci.get_parent_dir with
        | none => (s.emit .abort, none)
        | some pd =>
          (s.emit (.add_waiter (some pd) .WAIT_UNFREEZE none (.C_MDS_RetryRequest req ino)), none)
      else (s.get_or_open_dirfrag ci fg, some ⟨ino, fg⟩)

/-- Embeds `Server::try_open_auth_dir`. -/
def try_open_auth_dir (s : MDS) (diri : inodeno_t) (fg : frag_t) (req : MClientRequest) :
    MDS × Option dirfrag_t :=
  match s.get_inode diri with
  | none => (s.emit .abort, none)
  | some ci =>
    let dir := s.get_dirfrag ⟨diri, fg⟩
    if dir.isNone && !ci.auth then
      (s.request_forward req.id ci.authority, none)
    else if dir.isNone && ci.frozen_dir then
      match ci.get_parent_dir with
      | none => (s.emit .abort, none)
      | some pd =>
        (s.emit (.add_waiter (some pd) .WAIT_UNFREEZE none (.C_MDS_RetryRequest req diri)), none)
    else
      let s1 := if dir.isNone then s.get_or_open_dirfrag ci fg else s
      match s1.get_dirfrag ⟨diri, fg⟩ with
      | none => (s1.emit .abort, none)
      | some d =>
        if !d.auth then (s1.request_forward req.id d.authority, none)
        else (s1, some ⟨diri, fg⟩)

/-- Embeds `Server::handle_client_readdir`. -/
def handle_client_readdir (env : Env) (s : MDS) (req : MClientRequest) (diri : inodeno_t) :
    MDS :=
  match s.get_inode diri with
  | none => s.emit .abort
  | some ci =>
    if !ci.is_dir then reply_request_r s req (-ENOTDIR) none
    else
      let fg := req.args.frag
      if !ci.dirfragtree.contains fg then reply_request_r s req (-EAGAIN) none
      else
        let t := try_open_auth_dir s diri fg req
        match t.2 with
        | none => t.1
        | some dir =>
          match t.1.get_dirfrag dir with
          | none => t.1.emit .abort
          | some d =>
            if !d.auth then t.1.emit .abort
            else
              let l := t.1.inode_lock_start env .inode_hard_read diri req.id
              if !l.2 then l.1
              else
                let s2 := l.1.inode_lock_finish .inode_hard_read diri
                if !d.complete then s2.emit (.fetch dir (.C_MDS_RetryRequest req diri))
                else
                  let enc := encode_dir_contents d
                  let reply : MClientReply :=
                    { req := req.id, result := (fg : Int),
                      dir_in := enc.1 ++ [diri], dir_dn := enc.2.1 ++ ["."],
                      num_dir_items := enc.2.2 + 1 }
                  reply_request s2 req reply (some diri)

/-- Embeds `C_MDS_mknod_finish::finish`. -/
def C_MDS_mknod_finish_finish (s : MDS) (req : MClientRequest) (dn : DnPtr)
    (newi : inodeno_t) (pv : version_t) (r : Int) : MDS :=
  if r != 0 then s.emit .abort
  else
    let s1 := s.link_inode dn newi
    let s2 := s1.inode_mark_dirty newi pv
    let s3 := s2.dentry_xlock_finish dn
    let s4 := s3.emit (.hit_inode newi .META_POP_IWR)
    reply_request s4 req { req := req.id, result := 0 } (some newi)

/-- Embeds `Server::validate_dentry_dir`: the dir exists, is ours and would own the name. -/
def validate_dentry_dir (env : Env) (s : MDS) (req : MClientRequest) (diri : inodeno_t)
    (name : String) : MDS × Option dirfrag_t :=
  match s.get_inode diri with
  | none => (s.emit .abort, none)
  | some ci =>
    if !ci.is_dir then (reply_request_r s req (-ENOTDIR) none, none)
    else
      let fg := env.pick_dirfrag ci.dirfragtree name
      let t := try_open_auth_dir s diri fg req
      match t.2 with
      | none => (t.1, none)
      | some dir =>
        match t.1.get_dirfrag dir with
        | none => (t.1.emit .abort, none)
        | some d =>
          if !d.auth_pinnable then
            (t.1.emit (.add_waiter (some dir) .WAIT_AUTHPINNABLE none
              (.C_MDS_RetryRequest req diri)), none)
          else if d.frozen then
            (t.1.emit (.add_waiter (some dir) .WAIT_UNFREEZE none
              (.C_MDS_RetryRequest req diri)), none)
          else (t.1, some dir)

/-- The results of `Server::prepare_mknod`: the return value and the three out-parameters. -/
structure MknodPrep where
  s : MDS
  r : Int
  dir : Option dirfrag_t := none
  newi : Option inodeno_t := none
  dn : Option DnPtr := none

/-- The second half of `Server::prepare_mknod`, from `// make sure dir is complete` on: the
name is free (`have_dn` says whether a null dentry for it is already there).  Fetch an
incomplete dir, else add the null dentry, xlock it, create the inode if one is wanted. -/
def prepare_mknod_create (env : Env) (s : MDS) (req : MClientRequest) (diri : inodeno_t)
    (want_inode : Bool) (dir : dirfrag_t) (d : CDir) (name : String) (have_dn : Bool) :
    MknodPrep :=
  if !d.complete then
    { s := s.emit (.fetch dir (.C_MDS_RetryRequest req diri)), r := 0, dir := some dir,
      dn := if have_dn then some ⟨dir, name⟩ else none }
  else
    let s1 := if !have_dn then s.add_dentry dir name else s
    let x := s1.dentry_xlock_start env ⟨dir, name⟩ req.id diri
    if !x.2 then { s := x.1, r := 0, dir := some dir, dn := some ⟨dir, name⟩ }
    else
      let s2 :=
        if want_inode then
          let ino := env.new_ino x.1
          (x.1.create_inode ino).modify_inode ino (fun c =>
            { c with inode := { c.inode with
                uid := req.caller_uid, gid := req.caller_gid,
                ctime := env.gettime x.1, mtime := env.gettime x.1,
                atime := env.gettime x.1 } })
        else x.1
      { s := s2.emit (.hit_dir dir .META_POP_DWR), r := 1, dir := some dir,
        newi := if want_inode then some (env.new_ino x.1) else none,
        dn := some ⟨dir, name⟩ }

/-- Embeds `Server::prepare_mknod`.  `want_inode` says whether `pin` is non-null.  Return
value 0: wait for something, 1: created, 2: already exists (only if `okexist`). -/
def prepare_mknod (env : Env) (s : MDS) (req : MClientRequest) (diri : inodeno_t)
    (want_inode : Bool) (okexist : Bool) : MknodPrep :=
  let name := req.filepath.last_dentry
  let v := validate_dentry_dir env s req diri name
  match v.2 with
  | none => { s := v.1, r := 0 }
  | some dir =>
    match v.1.get_dirfrag dir with
    | none => { s := v.1.emit .abort, r := 0, dir := some dir }
    | some d =>
      match d.lookup name with
      | some dn =>
        if !dn.can_read req.id then
          { s := v.1.emit (.add_waiter (some dir) .WAIT_DNREAD (some name)
                  (.C_MDS_RetryRequest req diri)),
            r := 0, dir := some dir, dn := some ⟨dir, name⟩ }
        else if !dn.is_null then
          if okexist then
            { s := v.1, r := 2, dir := some dir, newi := dn.inode, dn := some ⟨dir, name⟩ }
          else
            { s := reply_request_r v.1 req (-EEXIST) none, r := 0, dir := some dir,
              dn := some ⟨dir, name⟩ }
        else prepare_mknod_create env v.1 req diri want_inode dir d name true
      | none => prepare_mknod_create env v.1 req diri want_inode dir d name false

/-- The common tail of the mknod-type handlers: journal the new primary dentry with the
inode at the dentry's projected version and wait for the sync. -/
def journal_new_inode (s : MDS) (what : String) (dir : dirfrag_t)
    (dn : DnPtr) (newi : inodeno_t) (extra : List MetaBlobItem) (fin : Context) : MDS :=
  match s.get_inode newi with
  | none => s.emit .abort
  | some ni =>
    let pi : inode_t := { ni.inode with version := s.dentry_projected_version dn }
    let le := LogEvent.EUpdate what
      ([.dir_context (some dir), .primary_dentry (some dn) true pi] ++ extra)
    (s.emit (.submit_entry le none)).emit (.wait_for_sync fin)

/-- Embeds `Server::handle_client_mknod`. -/
def handle_client_mknod (env : Env) (s : MDS) (req : MClientRequest) (diri : inodeno_t) : MDS :=
  let p := prepare_mknod env s req diri true false
  if p.r == 0 then p.s
  else
    match p.dir, p.newi, p.dn with
    | some dir, some newi, some dn =>
      let s1 := p.s.dentry_pre_dirty dn
      let s2 := s1.modify_inode newi (fun c =>
        { c with inode := { c.inode with
            mode := (req.args.mode &&& NOT_INODE_TYPE_MASK) ||| INODE_MODE_FILE } })
      journal_new_inode s2 "mknod" dir dn newi []
        (.C_MDS_mknod_finish req dn newi (s2.dentry_projected_version dn))
    | _, _, _ => p.s.emit .abort

/-- Embeds `Server::handle_client_mkdir`. -/
def handle_client_mkdir (env : Env) (s : MDS) (req : MClientRequest) (diri : inodeno_t) : MDS :=
  let p := prepare_mknod env s req diri true false
  if p.r == 0 then p.s
  else
    match p.dir, p.newi, p.dn with
    | some dir, some newi, some dn =>
      let s1 := p.s.dentry_pre_dirty dn
      let s2 := s1.modify_inode newi (fun c =>
        { c with inode := { c.inode with
            mode := (req.args.mode &&& NOT_INODE_TYPE_MASK) ||| INODE_MODE_DIR,
            layout := g_OSD_MDDirLayout } })
      match s2.get_inode newi with
      | none => s2.emit .abort
      | some ni =>
        let s3 := s2.get_or_open_dirfrag ni 0
        let s4 := s3.modify_dir ⟨newi, 0⟩ (fun d =>
          { d with complete := true, projected_version := d.projected_version + 1,
                   version := d.projected_version + 1, dirty := true })
        journal_new_inode s4 "mkdir" dir dn newi [.dir ⟨newi, 0⟩ true]
          (.C_MDS_mknod_finish req dn newi (s4.dentry_projected_version dn))
    | _, _, _ => p.s.emit .abort

/-- Embeds `Server::handle_client_symlink`. -/
def handle_client_symlink (env : Env) (s : MDS) (req : MClientRequest) (diri : inodeno_t) :
    MDS :=
  let p := prepare_mknod env s req diri true false
  if p.r == 0 then p.s
  else
    match p.dir, p.newi, p.dn with
    | some dir, some newi, some dn =>
      let s1 := p.s.dentry_pre_dirty dn
      let s2 := s1.modify_inode newi (fun c =>
        { c with
          symlink := req.sarg,
          inode := { c.inode with
            mode := (c.inode.mode &&& NOT_INODE_TYPE_MASK) ||| INODE_MODE_SYMLINK } })
      journal_new_inode s2 "symlink" dir dn newi []
        (.C_MDS_mknod_finish req dn newi (s2.dentry_projected_version dn))
    | _, _, _ => p.s.emit .abort

/-! ### Link -/

/-- Embeds `Server::handle_client_link`: validate the dir, then discover the link target
without following a trailing symlink; `C_MDS_LinkTraverse` continues in
`handle_client_link_2`. -/
def handle_client_link (env : Env) (s : MDS) (req : MClientRequest) (ref : inodeno_t) : MDS :=
  let dname := req.filepath.last_dentry
  let v := validate_dentry_dir env s req ref dname
  match v.2 with
  | none => v.1
  | some _ =>
    let target := filepath.ofString req.sarg
    v.1.emit (.path_traverse target false true req.id (.C_MDS_RetryRequest req ref)
      (some (.C_MDS_LinkTraverse req ref)) (env.path_traverse v.1 target false true req.id).r)

/-- Embeds `C_MDS_link_local_finish::finish` and `Server::_link_local_finish`. -/
def _link_local_finish (s : MDS) (req : MClientRequest) (dn : DnPtr) (targeti : inodeno_t)
    (dpv : version_t) (tctime : time_t) (tpv : version_t) (r : Int) : MDS :=
  if r != 0 then s.emit .abort
  else
    let s1 := s.modify_dentry dn (fun d => { d with remote_ino := targeti, version := dpv })
    let s2 := s1.dentry_mark_dirty dn dpv
    let s3 := s2.modify_inode targeti (fun c =>
      { c with inode := { c.inode with nlink := c.inode.nlink + 1, ctime := tctime } })
    let s4 := s3.inode_mark_dirty targeti tpv
    let s5 := s4.dentry_xlock_finish dn
    let s6 := s5.inode_lock_finish .inode_hard_write targeti
    let s7 := s6.emit (.hit_inode targeti .META_POP_IWR)
    reply_request s7 req { req := req.id, result := 0 } (some dn.dir.ino)

/-- Embeds `Server::link_local`. -/
def link_local (env : Env) (s : MDS) (req : MClientRequest) (diri : inodeno_t) (dn : DnPtr)
    (targeti : inodeno_t) : MDS :=
  match s.get_inode targeti with
  | none => s.emit .abort
  | some ti =>
    if !(ti.get_parent_dir == some dn.dir) && !(ti.is_anchored && !ti.is_unanchoring) then
      s.emit (.anchor_create targeti (.C_MDS_RetryRequest req diri))
    else
      let l := s.inode_lock_start env .inode_hard_write targeti req.id
      if !l.2 then l.1
      else
        let s1 := l.1.dentry_pre_dirty dn
        let pd := s1.inode_pre_dirty targeti
        let tpdv := pd.2
        let now := env.gettime pd.1
        let pi : inode_t := { ti.inode with nlink := ti.inode.nlink + 1, ctime := now,
                                            version := tpdv }
        let le := LogEvent.EUpdate "link_local"
          [.dir_context (some dn.dir), .remote_dentry dn true ti.inode.ino,
           .dir_context ti.get_parent_dir, .primary_dentry ti.parent true pi]
        match ti.parent with
        | none => pd.1.emit .abort
        | some tparent =>
          let fin := Context.C_MDS_link_local_finish req dn targeti
            (pd.1.dentry_projected_version dn) now (pd.1.dentry_projected_version tparent)
          (pd.1.emit (.submit_entry le none)).emit (.wait_for_sync fin)

/-- Embeds `Server::link_remote`: not implemented, replies EXDEV. -/
def link_remote (s : MDS) (req : MClientRequest) (dn : DnPtr) (targeti : inodeno_t) : MDS :=
  match s.get_inode targeti with
  | none => s.emit .abort
  | some ti =>
    if ti.auth then s.emit .abort
    else
      reply_request (s.emit (.request_pin_inode req.id targeti)) req
        { req := req.id, result := -EXDEV } (some dn.dir.ino)

/-- Embeds `C_MDS_LinkTraverse::finish` and `Server::handle_client_link_2`. -/
def handle_client_link_2 (env : Env) (s : MDS) (r : Int) (req : MClientRequest)
    (diri : inodeno_t) (trace : List DnPtr) : MDS :=
  if r < 0 then reply_request_r s req r none
  else if r != 0 then s.emit .abort
  else
    let targetp : Option inodeno_t :=
      match trace.getLast? with
      | some dn => (s.get_dentry dn).bind (fun d => d.inode)
      | none => s.root
    match targetp.bind s.get_inode with
    | none => s.emit .abort
    | some ti =>
      if ti.is_dir then reply_request_r s req (-EINVAL) none
      else
        let p := prepare_mknod env s req diri false false
        if p.r == 0 then p.s
        else
          match p.dir, p.dn with
          | some _, some dn =>
            match p.s.get_dentry dn with
            | none => p.s.emit .abort
            | some d =>
              if !d.is_xlockedbyme req.id then p.s.emit .abort
              else if ti.auth then link_local env p.s req diri dn ti.inode.ino
              else link_remote p.s req dn ti.inode.ino
          | _, _ => p.s.emit .abort

/-! ### Unlink and rmdir -/

/-- The loop of `Server::_verify_rmdir` over the leaf frags. -/
def _verify_rmdir_frags (s : MDS) (req : MClientRequest) (ref : inodeno_t) (ci : CInode) :
    List frag_t → MDS × Bool
  | [] => (s, true)
  | p :: ps =>
    let s1 := s.get_or_open_dirfrag ci p
    match s1.get_dirfrag ⟨ci.inode.ino, p⟩ with
    | none => (s1.emit .abort, false)
    | some dir =>
      if dir.auth && dir.get_size == 0 && !dir.complete then
        (s1.emit (.fetch dir.dirfrag (.C_MDS_RetryRequest req ref)), false)
      else if dir.get_size != 0 then (reply_request_r s1 req (-ENOTEMPTY) none, false)
      else if !dir.auth then (s1.emit .abort, false)
      else _verify_rmdir_frags s1 req ref ci ps

/-- Embeds `Server::_verify_rmdir`: the directory is empty and local. -/
def _verify_rmdir (s : MDS) (req : MClientRequest) (ref : inodeno_t) (i : inodeno_t) :
    MDS × Bool :=
  match s.get_inode i with
  | none => (s.emit .abort, false)
  | some ci =>
    if !ci.auth then (s.emit .abort, false)
    else _verify_rmdir_frags s req ref ci ci.dirfragtree

/-- Embeds `C_MDS_unlink_local_finish::finish` and `Server::_unlink_local_finish`. -/
def _unlink_local_finish (s : MDS) (req : MClientRequest) (dn : DnPtr) (i : inodeno_t)
    (ipv : version_t) (ictime : time_t) (dpv : version_t) (r : Int) : MDS :=
  if r != 0 then s.emit .abort
  else
    match s.get_dentry dn with
    | none => s.emit .abort
    | some d =>
      if d.is_remote && (ipv == 0 || ictime == 0) then s.emit .abort
      else
        let s1 :=
          if d.is_remote then
            ((s.modify_inode i (fun c =>
              { c with inode := { c.inode with ctime := ictime, nlink := c.inode.nlink - 1 } })
              ).inode_mark_dirty i ipv).inode_lock_finish .inode_hard_write i
          else s
        let s2 := (s1.dentry_mark_dirty dn dpv).unlink_inode dn
        let s3 := d.replicas.foldl (fun st m => st.emit (.send_dentry_unlink dn.dir dn.name m)) s2
        let s4 := s3.dentry_xlock_finish dn
        match s4.get_inode i with
        | none => s4.emit .abort
        | some ci =>
          let s5 :=
            if ci.inode.nlink == 0 then (s4.emit (.purge_inode i)).remove_inode i else s4
          reply_request (s5.emit (.hit_dir dn.dir .META_POP_DWR)) req
            { req := req.id, result := 0 } (some dn.dir.ino)

/-- Embeds `Server::_unlink_local`. -/
def _unlink_local (env : Env) (s : MDS) (req : MClientRequest) (dn : DnPtr) (i : inodeno_t) :
    MDS :=
  match s.get_inode i, s.get_dentry dn with
  | some ci, some d =>
    if decide (ci.inode.nlink > 1) && !d.is_remote then s.emit .abort
    else
      let l :=
        if ci.inode.nlink > 1 then s.inode_lock_start env .inode_hard_write i req.id
        else (s, true)
      if !l.2 then l.1
      else
        let pd := l.1.inode_pre_dirty i
        let ipv := pd.2
        let s1 := if d.is_remote then pd.1.dentry_pre_dirty dn else pd.1
        let now := env.gettime s1
        let pi : inode_t := { ci.inode with nlink := ci.inode.nlink - 1, ctime := now,
                                            version := ipv }
        let le := LogEvent.EUpdate "unlink_local"
          ([.dir_context (some dn.dir), .null_dentry dn true] ++
            (if d.is_remote then
              [.dir_context ci.get_parent_dir, .primary_dentry ci.parent true pi]
            else [.destroyed_inode ci.inode]))
        let fin := Context.C_MDS_unlink_local_finish req dn i ipv
          (if d.is_remote then now else 0) (s1.dentry_projected_version dn)
        (s1.emit (.submit_entry le none)).emit (.wait_for_sync fin)
  | _, _ => s.emit .abort

/-- Embeds `Server::_unlink_remote`: not implemented, replies EXDEV. -/
def _unlink_remote (s : MDS) (req : MClientRequest) (dn : DnPtr) : MDS :=
  reply_request s req { req := req.id, result := -EXDEV } (some dn.dir.ino)

/-- The block `// remote?  if so, open up the inode.` of `Server::handle_client_unlink`:
the inode of the dentry, linked in from the cache if the dentry is remote; `none` after the
remote inode had to be opened. -/
def unlink_open_remote (s : MDS) (req : MClientRequest) (diri : inodeno_t) (p : DnPtr)
    (dn : CDentry) : MDS × Option inodeno_t :=
  match dn.inode with
  | some i => (s, some i)
  | none =>
    match s.get_inode dn.remote_ino with
    | some _ =>
      (s.modify_dentry p (fun d => { d with inode := some dn.remote_ino }), some dn.remote_ino)
    | none =>
      (s.emit (.open_remote_ino dn.remote_ino req.id (.C_MDS_RetryRequest req diri)), none)

/-- The block `// rmdir vs is_dir` of `Server::handle_client_unlink`: false when the handler
returns there. -/
def unlink_check_type (s : MDS) (req : MClientRequest) (diri : inodeno_t) (rmdir : Bool)
    (i : inodeno_t) (ci : CInode) : MDS × Bool :=
  if ci.is_dir then
    if rmdir then _verify_rmdir s req diri i
    else (reply_request_r s req (-EISDIR) none, false)
  else
    if rmdir then (reply_request_r s req (-ENOTDIR) none, false)
    else (s, true)

/-- The end of `Server::handle_client_unlink`, from `// treat this like a rename?` on. -/
def unlink_dentry (env : Env) (s : MDS) (req : MClientRequest) (diri : inodeno_t) (p : DnPtr)
    (dn : CDentry) (i : inodeno_t) (ci : CInode) : MDS :=
  if dn.is_primary && (decide (ci.inode.nlink > 1) || ci.caps_wanted != 0) then
    reply_request s req { req := req.id, result := -EXDEV } (some p.dir.ino)
  else
    let x := s.dentry_xlock_start env p req.id diri
    if !x.2 then x.1
    else
      let s1 := x.1.emit (.hit_dir p.dir .META_POP_DWR)
      if dn.is_remote && !ci.auth then _unlink_remote s1 req p
      else _unlink_local env s1 req p i

/-- The middle of `Server::handle_client_unlink`, once the dentry is found, readable and
not null: open a remote inode, check the type, unlink. -/
def unlink_found (env : Env) (s : MDS) (req : MClientRequest) (diri : inodeno_t) (p : DnPtr)
    (dn : CDentry) : MDS :=
  let o := unlink_open_remote s req diri p dn
  match o.2 with
  | none => o.1
  | some i =>
    match o.1.get_inode i with
    | none => o.1.emit .abort
    | some ci =>
      let c := unlink_check_type o.1 req diri (req.op == .RMDIR) i ci
      if !c.2 then c.1
      else unlink_dentry env c.1 req diri p dn i ci

/-- Embeds `Server::handle_client_unlink`, for both UNLINK and RMDIR. -/
def handle_client_unlink (env : Env) (s : MDS) (req : MClientRequest) (diri : inodeno_t) :
    MDS :=
  if req.filepath.depth == 0 then reply_request_r s req (-EINVAL) none
  else
    let name := req.filepath.last_dentry
    match s.get_inode diri with
    | none => s.emit .abort
    | some di =>
      if !di.is_dir then reply_request_r s req (-ENOTDIR) none
      else
        let v := validate_dentry_dir env s req diri name
        match v.2 with
        | none => v.1
        | some dirp =>
          match v.1.get_dirfrag dirp with
          | none => v.1.emit .abort
          | some dir =>
            match dir.lookup name with
            | none =>
              if !dir.complete then v.1.emit (.fetch dirp (.C_MDS_RetryRequest req diri))
              else reply_request_r v.1 req (-ENOENT) none
            | some dn =>
              if !dn.can_read req.id then
                v.1.emit (.add_waiter (some dirp) .WAIT_DNREAD (some name)
                  (.C_MDS_RetryRequest req diri))
              else if dn.is_null then reply_request_r v.1 req (-ENOENT) none
              else unlink_found env v.1 req diri ⟨dirp, name⟩ dn

/-! ### Rename -/

/-- Conversion of an `int` to `size_t`, as in the comparisons of `trace.size()` with
`destpath.depth() - 1`. -/
def to_size_t (x : Int) : Int := x % 2 ^ 64

/-- The part of `Server::handle_client_rename` after the source dir is open
(`// ok, done passing buck.`): find the source dentry, pin its inode and discover the
destination; `C_MDS_RenameTraverseDst` continues in `handle_client_rename_2`. -/
def handle_client_rename_srcdn (env : Env) (s : MDS) (req : MClientRequest) (ref : inodeno_t)
    (srcdiri : inodeno_t) (srcdirp : dirfrag_t) (srcdir : CDir) (srcname : String) : MDS :=
  let srcdn := srcdir.lookup srcname
  let unreadable := match srcdn with
    | some dn => !dn.can_read req.id
    | none => false
  let srcinode : Option inodeno_t := srcdn.bind (fun dn => dn.inode)
  if unreadable then
    s.emit (.add_waiter (some srcdirp) .WAIT_DNREAD (some srcname)
      (.C_MDS_RetryRequest req srcdiri))
  else if (srcdn.isSome && srcinode.isNone) || (srcdn.isNone && srcdir.complete) then
    reply_request_r s req (-EEXIST) none
  else if srcdn.isNone && !srcdir.complete then
    s.emit (.fetch srcdirp (.C_MDS_RetryRequest req srcdiri))
  else
    match srcinode with
    | none => s.emit .abort
    | some srci =>
      let s2 := s.emit (.request_pin_inode req.id srci)
      let destpath := filepath.ofString req.sarg
      let onfinish := Context.C_MDS_RenameTraverseDst req ref srcdiri srcdirp
        ⟨srcdirp, srcname⟩ destpath
      s2.emit (.path_traverse destpath false true req.id
        (.C_MDS_RetryRequest req ref) (some onfinish)
        (env.path_traverse s2 destpath false true req.id).r)

/-- The part of `Server::handle_client_rename` after a successful traversal to the source
dir: check the dir inode, forward or open its dirfrag. -/
def handle_client_rename_srcdir (env : Env) (s : MDS) (req : MClientRequest) (ref : inodeno_t)
    (srcdiri : CInode) (srcname : String) : MDS :=
  if !srcdiri.is_dir then reply_request_r s req (-EINVAL) none
  else
    let srcfg := env.pick_dirfrag srcdiri.dirfragtree srcname
    if (s.get_dirfrag ⟨srcdiri.inode.ino, srcfg⟩).isNone && !srcdiri.auth then
      s.request_forward req.id srcdiri.authority
    else
      let t := try_open_auth_dir s srcdiri.inode.ino srcfg req
      match t.2 with
      | none => t.1
      | some srcdirp =>
        match t.1.get_dirfrag srcdirp with
        | none => t.1.emit .abort
        | some srcdir =>
          handle_client_rename_srcdn env t.1 req ref srcdiri.inode.ino srcdirp srcdir srcname

/-- Embeds `Server::handle_client_rename`: sanity checks, then re-traverse to the source
dir. -/
def handle_client_rename (env : Env) (s : MDS) (req : MClientRequest) (ref : inodeno_t) : MDS :=
  if req.filepath.depth == 0 then reply_request_r s req (-EINVAL) none
  else if req.path.data.isPrefixOf req.sarg.data
      && req.sarg.data[req.path.data.length]? == some '/' then
    reply_request_r s req (-EINVAL) none
  else if req.sarg == req.path then reply_request_r s req (-EINVAL) none
  else
    let srcname := req.filepath.last_dentry
    let refpath := req.filepath.prefixpath (req.filepath.depth - 1)
    let tr := env.path_traverse s refpath true false req.id
    let s1 := s.emit (.path_traverse refpath true false req.id (.C_MDS_RetryRequest req ref)
      none tr.r)
    if tr.r == 2 then s1.request_cleanup req.id
    else if tr.r > 0 then s1
    else if tr.r < 0 then reply_request_r s1 req tr.r none
    else
      let srcdirp : Option inodeno_t :=
        match tr.trace.getLast? with
        | some dn => (s1.get_dentry dn).bind (fun d => d.inode)
        | none => s1.root
      match srcdirp.bind s1.get_inode with
      | none => s1.emit .abort
      | some srcdiri => handle_client_rename_srcdir env s1 req ref srcdiri srcname

/-- One round of the lock loop of `Server::handle_client_rename_local`, for the side that
`dosrc` selects.  Gives the state, the destination dentry (created here if it was missing)
and whether the loop goes on. -/
def rename_lock_round (env : Env) (s : MDS) (req : MClientRequest) (ref : inodeno_t)
    (dosrc srclocal destlocal : Bool) (srcdn : DnPtr) (destdir : dirfrag_t)
    (destdn : Option DnPtr) (destname : String) : MDS × Option DnPtr × Bool :=
  if dosrc then
    match s.get_dentry srcdn with
    | none => (s.emit .abort, destdn, false)
    | some sd =>
      if srclocal then
        if sd.is_xlockedbyme req.id then (s, destdn, true)
        else
          let x := s.dentry_xlock_start env srcdn req.id ref
          (x.1, destdn, x.2)
      else
        if sd.xlockedby != some req.id then
          (s.emit (.dentry_xlock_request srcdn.dir srcdn.name false req.id
            (.C_MDS_RetryRequest req ref)), destdn, false)
        else (s, destdn, true)
  else
    if destlocal then
      let s1 := if destdn.isNone then s.add_dentry destdir destname else s
      let p : DnPtr := destdn.getD ⟨destdir, destname⟩
      match s1.get_dentry p with
      | none => (s1.emit .abort, some p, false)
      | some dd =>
        if dd.is_xlockedbyme req.id then (s1, some p, true)
        else
          let x := s1.dentry_xlock_start env p req.id ref
          if x.2 then (x.1, some p, true)
          else if dd.is_clean && dd.is_null && dd.is_sync then (x.1.remove_dentry p, some p, false)
          else (x.1, some p, false)
    else
      let held := match destdn.bind s.get_dentry with
        | some dd => dd.xlockedby == some req.id
        | none => false
      if !held then
        (s.emit (.dentry_xlock_request destdir destname true req.id
          (.C_MDS_RetryRequest req ref)), destdn, false)
      else (s, destdn, true)

/-- Embeds `Server::handle_client_rename_local`: xlock source and destination in the order
given by `srcpath < destpath`, then hand over to the renamer. -/
def handle_client_rename_local (env : Env) (s : MDS) (req : MClientRequest) (ref : inodeno_t)
    (srcpath : String) (srcdn : DnPtr) (destpath : String) (destdir : dirfrag_t)
    (destdn : Option DnPtr) (destname : String) : MDS :=
  match s.get_dirfrag srcdn.dir, s.get_dirfrag destdir with
  | some sdir, some ddir =>
    let srclocal := sdir.authority == s.whoami
    let destlocal := ddir.authority == s.whoami
    let dosrc := decide (srcpath < destpath)
    let r1 := rename_lock_round env s req ref dosrc srclocal destlocal srcdn destdir destdn
      destname
    if !r1.2.2 then r1.1
    else
      let r2 := rename_lock_round env r1.1 req ref (!dosrc) srclocal destlocal srcdn destdir
        r1.2.1 destname
      if !r2.2.2 then r2.1
      else
        match r2.2.1, r2.2.1.bind r2.1.get_dentry, r2.1.get_dentry srcdn with
        | some dp, some dd, some sd =>
          let failing : Bool :=
            match dd.inode with
            | some di =>
              match r2.1.get_inode di, sd.inode.bind r2.1.get_inode with
              | some dci, some sci => dci.is_dir || sci.is_dir
              | _, _ => true
            | none => false
          if failing then r2.1.emit .abort
          else
            let s1 := (r2.1.emit (.hit_dir srcdn.dir .META_POP_DWR)).emit
              (.hit_dir dp.dir .META_POP_DWR)
            s1.emit (.file_rename srcdn dp
              (.C_MDS_CommitRequest req { req := req.id, result := 0 } sd.inode
                (some (.EString "file rename fixme"))))
        | _, _, _ => r2.1.emit .abort
  | _, _ => s.emit .abort

/-- The second half of `Server::handle_client_rename_2`, from `string srcpath = ...` on,
once the destination dir and name are settled. -/
def handle_client_rename_2_dest (env : Env) (s : MDS) (req : MClientRequest) (ref : inodeno_t)
    (srcdn : DnPtr) (srci : CInode) (destpath : filepath) (destdir : dirfrag_t)
    (destname : String) : MDS :=
  let srcpath := req.path
  if srcdn.dir == destdir && srcdn.name == destname then reply_request_r s req (-EINVAL) none
  else
    match s.get_dirfrag destdir with
    | none => s.emit .abort
    | some dd =>
      let destdn := dd.lookup destname
      let oldin : Option CInode := (destdn.bind (fun d => d.inode)).bind s.get_inode
      let isdir_clash : Bool :=
        match oldin with
        | some o => o.is_dir || (srci.is_dir && !o.is_dir)
        | none => false
      if isdir_clash then reply_request_r s req (-EISDIR) none
      else
        handle_client_rename_local env s req ref srcpath srcdn destpath.get_path destdir
          (destdn.map (fun _ => ⟨destdir, destname⟩)) destname

/-- Embeds `C_MDS_RenameTraverseDst::finish` and `Server::handle_client_rename_2`. -/
def handle_client_rename_2 (env : Env) (s : MDS) (req : MClientRequest) (ref : inodeno_t)
    (srcdn : DnPtr) (destpath : filepath) (trace0 : List DnPtr) (r : Int) : MDS :=
  match (s.get_dentry srcdn).bind (fun d => d.inode.bind s.get_inode) with
  | none => s.emit .abort
  | some srci =>
    let trace : List DnPtr :=
      match trace0.getLast? with
      | some dn =>
        if ((s.get_dentry dn).bind (fun d => d.inode)).isNone then trace0.dropLast else trace0
      | none => trace0
    let dp : Option inodeno_t :=
      match trace.getLast? with
      | some dn => (s.get_dentry dn).bind (fun d => d.inode)
      | none => s.root
    match dp.bind s.get_inode with
    | none => s.emit .abort
    | some d =>
      if d.is_dir && !d.auth && (s.get_dirfrag ⟨d.inode.ino, 0⟩).isNone then
        s.emit (.open_remote_dir d.inode.ino 0 (.C_MDS_RetryRequest req ref))
      else
        let dfg := env.pick_dirfrag d.dirfragtree ""
        if (trace.length : Int) == to_size_t destpath.depth then
          if d.is_dir then
            let t := try_open_dir s d.inode.ino dfg req
            match t.2 with
            | none => t.1
            | some destdir =>
              let destname := req.filepath.last_dentry
              handle_client_rename_2_dest env t.1 req ref srcdn srci
                (destpath.push_dentry destname) destdir destname
          else
            match trace.getLast? with
            | none => s.emit .abort
            | some last =>
              handle_client_rename_2_dest env s req ref srcdn srci destpath last.dir
                destpath.last_dentry
        else if (trace.length : Int) == to_size_t (destpath.depth - 1) then
          if d.is_dir then
            let t := try_open_dir s d.inode.ino dfg req
            match t.2 with
            | none => t.1
            | some destdir =>
              handle_client_rename_2_dest env t.1 req ref srcdn srci destpath destdir
                destpath.last_dentry
          else reply_request_r s req (-EINVAL) none
        else
          if !((trace.length : Int) < to_size_t (destpath.depth - 1)) then s.emit .abort
          else if r > 0 then s
          else if !(r < 0 || trace.length == 0) then s.emit .abort
          else reply_request_r s req (-EINVAL) none

/-! ### Truncate, open, open-create -/

/-- Embeds `Server::handle_client_truncate`. -/
def handle_client_truncate (env : Env) (s : MDS) (req : MClientRequest) (cur : inodeno_t) :
    MDS :=
  let l := s.inode_lock_start env .inode_file_write cur req.id
  if !l.2 then l.1
  else
    let s1 := l.1.modify_inode cur (fun c =>
      { c with inode := { c.inode with size := req.args.length } })
    let s2 := s1.inode__mark_dirty cur
    let s3 := s2.inode_lock_finish .inode_file_write cur
    let s4 := s3.emit (.hit_inode cur .META_POP_IWR)
    commit_request env s4 req { req := req.id, result := 0 } (some cur)
      (some (.EString "truncate fixme")) none

/-- Embeds `Server::handle_client_open`. -/
def handle_client_open (env : Env) (s : MDS) (req : MClientRequest) (cur : inodeno_t) : MDS :=
  match s.get_inode cur with
  | none => s.emit .abort
  | some ci =>
    let mode := req.args.open_mode
    if ci.inode.mode &&& INODE_MODE_FILE == 0 then reply_request_r s req (-EINVAL) none
    else if mode != FILE_MODE_R && mode != FILE_MODE_LAZY && !ci.auth then
      if ci.authority == s.whoami then s.emit .abort
      else s.request_forward req.id ci.authority
    else
      let fdv := env.issue_file_data_version s cur
      let s1 := s.emit (.issue_file_data_version cur)
      let cap := env.issue_new_caps s1 cur mode req.id
      let s2 := s1.emit (.issue_new_caps cur mode req.id cap.isSome)
      match cap with
      | none => s2
      | some c =>
        let s3 := s2.emit (.hit_inode cur .META_POP_IRD)
        reply_request s3 req
          { req := req.id, result := 0, file_caps := c.pending, file_caps_seq := c.last_seq,
            file_data_version := fdv } (some cur)

/-- Embeds `C_MDS_openc_finish::finish`. -/
def C_MDS_openc_finish_finish (env : Env) (s : MDS) (req : MClientRequest) (dn : DnPtr)
    (newi : inodeno_t) (pv : version_t) (r : Int) : MDS :=
  if r != 0 then s.emit .abort
  else
    let s1 := s.link_inode dn newi
    let s2 := s1.inode_mark_dirty newi pv
    let s3 := s2.dentry_xlock_finish dn
    let s4 := s3.emit (.hit_inode newi .META_POP_IWR)
    handle_client_open env s4 req newi

/-- Embeds `Server::handle_client_openc`. -/
def handle_client_openc (env : Env) (s : MDS) (req : MClientRequest) (diri : inodeno_t) : MDS :=
  let excl := req.args.flags &&& O_EXCL != 0
  let p := prepare_mknod env s req diri true (!excl)
  if p.r <= 0 then p.s
  else
    match p.dir, p.newi, p.dn with
    | some dir, some i, some dn =>
      if p.r == 1 then
        let s1 := p.s.dentry_pre_dirty dn
        let s2 := s1.modify_inode i (fun c =>
          { c with inode := { c.inode with mode := 0o644 ||| INODE_MODE_FILE } })
        journal_new_inode s2 "openc" dir dn i []
          (.C_MDS_openc_finish req dn i (s2.dentry_projected_version dn))
      else if req.args.flags &&& O_EXCL != 0 then reply_request_r p.s req (-EEXIST) (some i)
      else handle_client_open env p.s req i
    | _, _, _ => p.s.emit .abort

/-! ### Dispatch -/

/-- Embeds `Server::dispatch_request`.  The `case` labels for FSYNC and RELEASE are commented
out in the source, so these two ops reach `default:` like an unknown op. -/
def dispatch_request (env : Env) (s : MDS) (m : Message) (ref : inodeno_t) : MDS :=
  match m with
  | .client_request req =>
    match req.op with
    | .OPEN =>
      if req.args.flags &&& O_CREAT != 0 then handle_client_openc env s req ref
      else handle_client_open env s req ref
    | .TRUNCATE => handle_client_truncate env s req ref
    | .STAT => handle_client_stat env s req ref
    | .LSTAT => handle_client_stat env s req ref
    | .UTIME => handle_client_utime env s req ref
    | .CHMOD => handle_client_chmod env s req ref
    | .CHOWN => handle_client_chown env s req ref
    | .READDIR => handle_client_readdir env s req ref
    | .MKNOD => handle_client_mknod env s req ref
    | .LINK => handle_client_link env s req ref
    | .UNLINK => handle_client_unlink env s req ref
    | .RENAME => handle_client_rename env s req ref
    | .RMDIR => handle_client_unlink env s req ref
    | .MKDIR => handle_client_mkdir env s req ref
    | .SYMLINK => handle_client_symlink env s req ref
    | .RELEASE => s.emit .abort
    | .FSYNC => s.emit .abort
    | .UNKNOWN => s.emit .abort
  | .mds_lock dn => s.emit (.handle_lock_dn dn)
  | _ => s.emit .abort

/-- The first `switch` of `Server::handle_client_request`: the op works on a file handle,
so the inode is looked up by `args.fsync.ino` (TRUNCATE only with a non-zero ino, from where
it falls through into RELEASE and FSYNC). -/
def is_fh_op (req : MClientRequest) : Bool :=
  match req.op with
  | .TRUNCATE => req.args.ino != 0
  | .RELEASE => true
  | .FSYNC => true
  | _ => false

/-- The second `switch` of `Server::handle_client_request`: the path to traverse, the
request filepath or, for ops on names that may not exist, the filepath without its last
bit. -/
def refpath (req : MClientRequest) : filepath :=
  match req.op with
  | .OPEN =>
    if req.args.flags &&& O_CREAT == 0 then req.filepath
    else req.filepath.prefixpath (req.filepath.depth - 1)
  | .MKNOD | .MKDIR | .SYMLINK | .LINK | .UNLINK | .RMDIR | .RENAME =>
    req.filepath.prefixpath (req.filepath.depth - 1)
  | _ => req.filepath

/-- The flag `handle_client_request` passes to `path_traverse`: declared
`bool follow_trailing_symlink = false;` and assigned once more, to `false`, for LSTAT. -/
def follow_trailing_symlink (req : MClientRequest) : Bool :=
  let follow := false
  if req.op == .LSTAT then false else follow

/-- Modelled from the spec: `MDCache::request_start`, pins the reference inode and the trace
and installs the request in the request table; whether it succeeds is the cache's answer. -/
def request_start (env : Env) (s : MDS) (req : MClientRequest) (ref : inodeno_t)
    (trace : List DnPtr) : MDS × Bool :=
  let ok := env.request_start s req.id ref trace
  let s1 := s.emit (.request_start req.id ref trace ok)
  (if ok then { s1 with active_requests := s1.active_requests ++ [req.id] } else s1, ok)

/-- The end of `Server::handle_client_request`, from `// register` on. -/
def register_and_process (env : Env) (s : MDS) (req : MClientRequest) (ref : inodeno_t)
    (trace : List DnPtr) : MDS :=
  let trace1 := if req.op == .RENAME then [] else trace
  let st := request_start env s req ref trace1
  if !st.2 then st.1
  else dispatch_request env st.1 (.client_request req) ref

/-- Embeds `Server::handle_client_request`.  An op on a file handle has its inode looked
up by ino (and is passed on to the next peer if the inode is not cached); for any other op
`ref` is still null after the first `switch` and the path is traversed. -/
def handle_client_request (env : Env) (s : MDS) (req : MClientRequest) : MDS :=
  if !s.active then s.emit (.delete_req req.id)
  else if s.root.isNone then s.emit (.open_root (.C_MDS_RetryMessage (.client_request req)))
  else if is_fh_op req then
    match s.get_inode req.args.ino with
    | none =>
      let next := if s.whoami + 1 >= s.num_mds then 0 else s.whoami + 1
      s.emit (.send_message_mds req.id next)
    | some c => register_and_process env s req c.inode.ino []
  else
    let tr := env.path_traverse s (refpath req) (follow_trailing_symlink req) false req.id
    let s1 := s.emit (.path_traverse (refpath req) (follow_trailing_symlink req) false req.id
      (.C_MDS_RetryMessage (.client_request req)) none tr.r)
    if tr.r > 0 then s1
    else if tr.r == -ENOENT || tr.r == -ENOTDIR || tr.r == -EISDIR then
      (s1.emit (.send_reply { req := req.id, result := tr.r } req.client)).emit
        (.delete_req req.id)
    else
      let refp : Option inodeno_t :=
        match tr.trace.getLast? with
        | some dn => (s1.get_dentry dn).bind (fun d => d.inode)
        | none => s1.root
      match refp with
      | none => s1.emit .abort
      | some i => register_and_process env s1 req i tr.trace

/-- Embeds `Server::dispatch`. -/
def dispatch (env : Env) (s : MDS) (m : Message) : MDS :=
  if !s.active then s.emit (.queue_waitfor_active (.C_MDS_RetryMessage m))
  else
    match m with
    | .client_mount c => handle_client_mount s c
    | .client_unmount c => handle_client_unmount s c
    | .client_request req => handle_client_request env s req
    | _ => s.emit .abort

/-- Runs a continuation: `Context::finish(r)` for each `Context` subclass.  `trace` is the
trace member that `path_traverse` fills for the two traversal continuations.  The retry
contexts re-deliver the message or re-dispatch the request. -/
def finish (env : Env) (s : MDS) (c : Context) (r : Int) (trace : List DnPtr) : MDS :=
  match c with
  | .C_MDS_RetryMessage m => dispatch env s m
  | .C_MDS_RetryRequest req ref => dispatch_request env s (.client_request req) ref
  | .C_MDS_mount_finish m mount cmapv =>
    match m with
    | .client_mount cl => C_MDS_mount_finish_finish env s cl mount cmapv r
    | .client_unmount cl => C_MDS_mount_finish_finish env s cl mount cmapv r
    | _ => s.emit .abort
  | .C_MDS_CommitRequest req reply tracei event =>
    C_MDS_CommitRequest_finish env s req reply tracei event r
  | .C_MDS_utime_finish req i pv mtime atime => C_MDS_utime_finish_finish s req i pv mtime atime r
  | .C_MDS_chmod_finish req i pv mode => C_MDS_chmod_finish_finish s req i pv mode r
  | .C_MDS_chown_finish req i pv uid gid => C_MDS_chown_finish_finish s req i pv uid gid r
  | .C_MDS_mknod_finish req dn newi pv => C_MDS_mknod_finish_finish s req dn newi pv r
  | .C_MDS_openc_finish req dn newi pv => C_MDS_openc_finish_finish env s req dn newi pv r
  | .C_MDS_LinkTraverse req ref => handle_client_link_2 env s r req ref trace
  | .C_MDS_link_local_finish req dn targeti dpv tctime tpv =>
    _link_local_finish s req dn targeti dpv tctime tpv r
  | .C_MDS_unlink_local_finish req dn i ipv ictime dpv =>
    _unlink_local_finish s req dn i ipv ictime dpv r
  | .C_MDS_RenameTraverseDst req ref _ _ srcdn destpath =>
    handle_client_rename_2 env s req ref srcdn destpath trace r

end Server

/-! ## Observations on the log -/

namespace Effect

/-- A client reply leaves the server. -/
def is_reply : Effect → Bool
  | .send_reply _ _ => true
  | _ => false

/-- The request is handed to another peer: the round-robin pass, `request_forward`, or a
forwarding traversal (`path_traverse` in forward mode returning 2, which is how
`handle_client_rename` recognises "path traverse forwarded"). -/
def is_forward : Effect → Bool
  | .send_message_mds _ _ => true
  | .request_forward _ _ => true
  | .path_traverse _ _ discover _ _ _ r => !discover && r == 2
  | _ => false

/-- A journal entry is handed to the journal. -/
def is_submit : Effect → Bool
  | .submit_entry _ _ => true
  | _ => false

end Effect

namespace MDS

/-- Number of client replies sent so far. -/
def nreplies (s : MDS) : Nat := s.log.countP Effect.is_reply

/-- Number of times a request was handed to another peer so far. -/
def nforwards (s : MDS) : Nat := s.log.countP Effect.is_forward

/-- The in-memory attributes of the cached inode `ino`. -/
def inode_attrs (s : MDS) (ino : inodeno_t) : Option inode_t :=
  (s.get_inode ino).map (fun c => c.inode)

/-- The attribute records of all cached inodes, in cache order. -/
def attrs (s : MDS) : List inode_t := s.inode_map.map (fun c => c.inode)

/-- The names of the dentries an open dirfrag holds, in dirfrag order. -/
def dentry_names (s : MDS) (df : dirfrag_t) : Option (List String) :=
  (s.get_dirfrag df).map (fun d => d.items.map (fun dn => dn.name))

end MDS

namespace Server

/-- Between `s` and `t` the log only grew in replies and forwards, by at most one reply or
forward in total. -/
def Tick (s t : MDS) : Prop :=
  s.nreplies ≤ t.nreplies ∧ s.nforwards ≤ t.nforwards ∧
    t.nreplies + t.nforwards ≤ s.nreplies + s.nforwards + 1

/-- Between `s` and `t` no reply and no forward was added. -/
def Same (s t : MDS) : Prop := t.nreplies = s.nreplies ∧ t.nforwards = s.nforwards

/-- The ways the event loop enters the server: a message arrives, a request is admitted, a
request is (re)dispatched, a continuation fires. -/
inductive Entry
  | dispatch (m : Message)
  | handle_client_request (req : MClientRequest)
  | dispatch_request (m : Message) (ref : inodeno_t)
  | finish (c : Context) (r : Int) (trace : List DnPtr)

/-- One invocation of an entry point. -/
def Entry.run (env : Env) (s : MDS) : Entry → MDS
  | .dispatch m => Server.dispatch env s m
  | .handle_client_request req => Server.handle_client_request env s req
  | .dispatch_request m ref => Server.dispatch_request env s m ref
  | .finish c r trace => Server.finish env s c r trace

/-- The index at which the `mv a/b a/b/c` test of `Server::handle_client_rename` reads
`get_sarg().c_str()`.  The read is the right operand of `&&`, evaluated only when the
`compare` on the left found the source path at the front of the destination; `none` when
the character is not read. -/
def rename_prefix_read (req : MClientRequest) : Option Nat :=
  if req.path.data.isPrefixOf req.sarg.data then some req.path.data.length else none

/-- Mode `md` is the requested mode `m` with the type bits replaced by `kind`: the type bits
of `md` are `kind`, and outside the type mask `md` and `m` agree as 32-bit words. -/
def mode_matches (md m kind : Nat) : Bool :=
  (md &&& INODE_TYPE_MASK == kind) &&
    (md &&& NOT_INODE_TYPE_MASK == m &&& NOT_INODE_TYPE_MASK)

/-- The outcome of a successful create in state `t`, the state the handler returned: the
last call it logged registers the finisher `fin dn newi pv` with the journal, and once that
finisher has run (sync result 0) the cache holds the inode `newi` linked under the dentry
`dn`, with a mode accepted by `mode` and the owner `uid`, `gid`. -/
def Created (env : Env) (t : MDS) (fin : DnPtr → inodeno_t → version_t → Context)
    (mode : Nat → Bool) (uid gid : Int) : Prop :=
  ∃ (dn : DnPtr) (newi : inodeno_t) (pv : version_t) (c : CInode),
    t.log.getLast? = some (.wait_for_sync (fin dn newi pv)) ∧
    (finish env t (fin dn newi pv) 0 []).get_inode newi = some c ∧
    c.parent = some dn ∧ mode c.inode.mode = true ∧
    c.inode.uid = uid ∧ c.inode.gid = gid

end Server

/-! ## Journal, lock attempts and xlock holders -/

/-- The link counts a journal entry records: the `nlink` of each primary-dentry record of
its metablob. -/
def LogEvent.nlinks : LogEvent → List Int
  | .EUpdate _ blob => blob.filterMap (fun item =>
      match item with
      | .primary_dentry _ _ pi => some pi.nlink
      | _ => none)
  | _ => []

/-- The journal entries submitted so far, in order. -/
def MDS.journal (s : MDS) : List LogEvent :=
  s.log.filterMap (fun e =>
    match e with
    | .submit_entry le _ => some le
    | _ => none)

/-- The continuation registered last with the journal: the argument of the `wait_for_sync`
that ends the log, if the log ends with one. -/
def MDS.last_sync (s : MDS) : Option Context :=
  match s.log.getLast? with
  | some (.wait_for_sync c) => some c
  | _ => none

/-- Modelled from the spec: the journal sync completes (`MDLog::wait_for_sync`), so the
continuation registered last is finished with result 0. -/
def Server.sync (env : Env) (s : MDS) : MDS :=
  match s.last_sync with
  | some c => Server.finish env s c 0 []
  | none => s

/-- The dentry a logged call tries to xlock: a local `dentry_xlock_start`, or a
`dentry_xlock_request` sent to the dentry's authority. -/
def Effect.xlock_target : Effect → Option DnPtr
  | .lock_start .dentry_xlock _ (some dn) _ _ => some dn
  | .dentry_xlock_request dir name _ _ _ => some ⟨dir, name⟩
  | _ => none

/-- The dentries the server tried to xlock so far, in order. -/
def MDS.xlock_attempts (s : MDS) : List DnPtr := s.log.filterMap Effect.xlock_target

/-- Source and destination dentry of a logged call of the rename executor. -/
def Effect.rename_pair : Effect → Option (DnPtr × DnPtr)
  | .file_rename src dst _ => some (src, dst)
  | _ => none

/-- The calls of the rename executor so far: source and destination dentry of each
`file_rename`, in order. -/
def MDS.file_renames (s : MDS) : List (DnPtr × DnPtr) := s.log.filterMap Effect.rename_pair

/-- The request that holds the xlock of the dentry `p` points to; `none` also when there
is no such dentry. -/
def MDS.xlocked_by (s : MDS) (p : DnPtr) : Option ReqId :=
  (s.get_dentry p).bind (fun d => d.xlockedby)

namespace Server

/-- The lock order the functional description asks of a rename, following its words: the
dentry of the lexicographically smaller path string first.  `srcdn` and `destdn` are the
dentries of `srcpath` and `destpath`. -/
def spec_rename_lock_order (srcpath : String) (srcdn : DnPtr) (destpath : String)
    (destdn : DnPtr) : List DnPtr :=
  if srcpath < destpath then [srcdn, destdn] else [destdn, srcdn]

end Server

/-! ## Journal payloads, dentry links, the mount controller and the rename destination -/

/-- The inode payloads a journal entry records: the inode of each primary-dentry record of
its metablob. -/
def LogEvent.inodes : LogEvent → List inode_t
  | .EUpdate _ blob => blob.filterMap (fun item =>
      match item with
      | .primary_dentry _ _ pi => some pi
      | _ => none)
  | _ => []

/-- The inode a dentry links to; `none` for a null or remote dentry and when there is no
such dentry. -/
def MDS.dentry_link (s : MDS) (p : DnPtr) : Option inodeno_t :=
  (s.get_dentry p).bind (fun d => d.inode)

/-- Number of failed assertions (and dereferences of dangling pointers) so far. -/
def MDS.naborts (s : MDS) : Nat := s.log.count .abort

/-- The finishers handed to the journal together with an entry, in submit order. -/
def MDS.submitted (s : MDS) : List Context :=
  s.log.filterMap (fun e =>
    match e with
    | .submit_entry _ (some c) => some c
    | _ => none)

/-- An event at the mount controller: a mount or an unmount message arrives, or the journal
syncs its oldest outstanding entry. -/
inductive MountEvent
  | mount (client : Nat)
  | unmount (client : Nat)
  | sync
  deriving DecidableEq, Repr

namespace Server

/-- Modelled from the spec: the journal invokes the finishers of the submitted entries in
submit order, one per sync, with result 0.  The second component counts the finishers
invoked so far; a message runs its handler at once. -/
def mount_step (env : Env) (st : MDS × Nat) : MountEvent → MDS × Nat
  | .mount c => (handle_client_mount st.1 c, st.2)
  | .unmount c => (handle_client_unmount st.1 c, st.2)
  | .sync =>
    match st.1.submitted[st.2]? with
    | some c => (finish env st.1 c 0 [], st.2 + 1)
    | none => st

/-- The destination trace as `handle_client_rename_2` uses it: the trace of the traversal
without a null dentry at its tail. -/
def rename_2_trace (s : MDS) (trace0 : List DnPtr) : List DnPtr :=
  match trace0.getLast? with
  | some dn =>
    if ((s.get_dentry dn).bind (fun d => d.inode)).isNone then trace0.dropLast else trace0
  | none => trace0

/-- The inode `d` of `handle_client_rename_2`: the inode of the last dentry of the trace,
the root for an empty trace. -/
def rename_2_tail (s : MDS) (trace : List DnPtr) : Option CInode :=
  (match trace.getLast? with
    | some dn => (s.get_dentry dn).bind (fun d => d.inode)
    | none => s.root).bind s.get_inode

/-- Runs a sequence of mount-controller events. -/
def mount_run (env : Env) (st : MDS × Nat) (evs : List MountEvent) : MDS × Nat :=
  evs.foldl (mount_step env) st

end Server

/-! ## Sample data -/

namespace Sample

/-- An environment in which every lock is granted, traversals resolve to the root at once
and capabilities are issued. -/
def env : Env :=
  { mds_log_before_reply := true, mds_log := true, mds_shutdown_on_last_unmount := false,
    gettime := fun _ => 1000,
    lock_start := fun _ _ _ _ _ => true,
    path_traverse := fun _ _ _ _ _ => ⟨0, []⟩,
    request_start := fun _ _ _ _ => true,
    new_ino := fun s => 100 + s.inode_map.length,
    pick_dirfrag := fun _ _ => 0,
    issue_file_data_version := fun _ _ => 1,
    issue_new_caps := fun _ _ _ _ => some ⟨1, 1⟩ }

/-- The environment `env` with a traversal that returns `r` and an empty trace. -/
def env_traverse (r : Int) : Env := { env with path_traverse := fun _ _ _ _ _ => ⟨r, []⟩ }

def root_inode : CInode := { inode := { ino := 1, mode := 0o040755 } }

def file_inode : CInode :=
  { inode := { ino := 42, mode := 0o100644, size := 10 }, parent := some ⟨⟨1, 0⟩, "a"⟩ }

/-- MDS0 of a two-node cluster: the root directory with one file `a`, ino 42. -/
def mds0 : MDS :=
  { whoami := 0, num_mds := 2, root := some 1,
    inode_map := [root_inode, file_inode],
    dirs := [{ dirfrag := ⟨1, 0⟩, items := [{ name := "a", inode := some 42 }] }] }

/-- A request with id 7 from client 3. -/
def req (op : ClientOp) (bits : List String) (a : ReqArgs) : MClientRequest :=
  { id := 7, op := op, filepath := ⟨bits⟩, path := "/".intercalate bits, sarg := "", args := a,
    caller_uid := 500, caller_gid := 500, client := 3 }

/-- The state `mds0` with a second name `b` for the file, a remote link to ino 42 whose
inode pointer is not set, and a null dentry `c`. -/
def mds_links : MDS :=
  { mds0 with
    inode_map := [root_inode, { file_inode with inode := { file_inode.inode with nlink := 2 } }],
    dirs := [{ dirfrag := ⟨1, 0⟩,
               items := [{ name := "a", inode := some 42 }, { name := "b", remote_ino := 42 },
                         { name := "c" }] }] }

/-- The state `mds0` with a directory `d`, ino 50, whose only dirfrag holds the file `x`,
ino 51. -/
def mds_tree : MDS :=
  { mds0 with
    inode_map := [root_inode, file_inode,
      { inode := { ino := 50, mode := 0o040755 }, parent := some ⟨⟨1, 0⟩, "d"⟩ },
      { inode := { ino := 51, mode := 0o100644 }, parent := some ⟨⟨50, 0⟩, "x"⟩ }],
    dirs := [{ dirfrag := ⟨1, 0⟩,
               items := [{ name := "a", inode := some 42 }, { name := "d", inode := some 50 }] },
             { dirfrag := ⟨50, 0⟩, items := [{ name := "x", inode := some 51 }] }] }

/-- The state `mds0` after a LINK request 7 prepared the new name `b`: a null dentry,
xlocked by the request. -/
def mds_newdn : MDS :=
  { mds0 with
    dirs := [{ dirfrag := ⟨1, 0⟩,
               items := [{ name := "a", inode := some 42 },
                         { name := "b", xlockedby := some 7 }] }] }

/-- The state `mds0` with a symbolic link `l`, ino 43, to `a`. -/
def mds_symlink : MDS :=
  { mds0 with
    inode_map := [root_inode, file_inode,
      { inode := { ino := 43, mode := 0o120777 }, symlink := "a",
        parent := some ⟨⟨1, 0⟩, "l"⟩ }],
    dirs := [{ dirfrag := ⟨1, 0⟩,
               items := [{ name := "a", inode := some 42 }, { name := "l", inode := some 43 }] }] }

/-- The state `mds_tree` with the file `x` of the directory `d` anchored, the anchor being
removed at the moment. -/
def mds_unanchoring : MDS :=
  { mds_tree with
    inode_map := [root_inode, file_inode,
      { inode := { ino := 50, mode := 0o040755 }, parent := some ⟨⟨1, 0⟩, "d"⟩ },
      { inode := { ino := 51, mode := 0o100644 }, parent := some ⟨⟨50, 0⟩, "x"⟩,
        anchored := true, unanchoring := true }] }

/-- The state `mds0` with an empty directory `d`, ino 50, whose only dirfrag is open and
complete. -/
def mds_emptydir : MDS :=
  { mds0 with
    inode_map := [root_inode, file_inode,
      { inode := { ino := 50, mode := 0o040755 }, parent := some ⟨⟨1, 0⟩, "d"⟩ }],
    dirs := [{ dirfrag := ⟨1, 0⟩,
               items := [{ name := "a", inode := some 42 }, { name := "d", inode := some 50 }] },
             { dirfrag := ⟨50, 0⟩, items := [] }] }

/-- The environment `env` with a frag hash that depends on the name: the leaf is chosen by
the length of the name. -/
def env_frags : Env :=
  { env with pick_dirfrag := fun tree name => tree.getD (name.length % tree.length) 0 }

/-- The state `mds0` with a directory `d`, ino 50, split in the two frags 0 and 1.  Its one
entry is the directory `a`, ino 52, in frag 1, the frag that owns the name `a` under
`env_frags`. -/
def mds_frags : MDS :=
  { mds0 with
    inode_map := [root_inode, file_inode,
      { inode := { ino := 50, mode := 0o040755 }, parent := some ⟨⟨1, 0⟩, "d"⟩,
        dirfragtree := [0, 1] },
      { inode := { ino := 52, mode := 0o040755 }, parent := some ⟨⟨50, 1⟩, "a"⟩ }],
    dirs := [{ dirfrag := ⟨1, 0⟩,
               items := [{ name := "a", inode := some 42 }, { name := "d", inode := some 50 }] },
             { dirfrag := ⟨50, 0⟩, items := [] },
             { dirfrag := ⟨50, 1⟩, items := [{ name := "a", inode := some 52 }] },
             { dirfrag := ⟨52, 0⟩, items := [] }] }

/-- The state `mds0` with a second file `b`, ino 43, in the root. -/
def mds_two_files : MDS :=
  { mds0 with
    inode_map := [root_inode, file_inode,
      { inode := { ino := 43, mode := 0o100644 }, parent := some ⟨⟨1, 0⟩, "b"⟩ }],
    dirs := [{ dirfrag := ⟨1, 0⟩,
               items := [{ name := "a", inode := some 42 }, { name := "b", inode := some 43 }] }] }

end Sample

/-! ## The log of the cache primitives -/

set_option linter.unusedTactic false
set_option linter.unreachableTactic false

namespace MDS
@[simp] theorem log_emit (s : MDS) (e : Effect) : (s.emit e).log = s.log ++ [e] := rfl
@[simp] theorem log_modify_inode (s : MDS) (i : inodeno_t) (f : CInode → CInode) :
    (s.modify_inode i f).log = s.log := rfl
@[simp] theorem log_modify_dir (s : MDS) (d : dirfrag_t) (f : CDir → CDir) :
    (s.modify_dir d f).log = s.log := rfl
@[simp] theorem log_modify_dentry (s : MDS) (p : DnPtr) (f : CDentry → CDentry) :
    (s.modify_dentry p f).log = s.log := rfl
@[simp] theorem log_inode_pre_dirty (s : MDS) (i : inodeno_t) :
    (s.inode_pre_dirty i).1.log = s.log := by
  unfold inode_pre_dirty; cases s.get_inode i <;> rfl
@[simp] theorem log_inode_mark_dirty (s : MDS) (i : inodeno_t) (pv : version_t) :
    (s.inode_mark_dirty i pv).log = s.log := rfl
@[simp] theorem log_inode__mark_dirty (s : MDS) (i : inodeno_t) :
    (s.inode__mark_dirty i).log = s.log := rfl
@[simp] theorem log_dentry_pre_dirty (s : MDS) (p : DnPtr) :
    (s.dentry_pre_dirty p).log = s.log := rfl
@[simp] theorem log_dentry_mark_dirty (s : MDS) (p : DnPtr) (pv : version_t) :
    (s.dentry_mark_dirty p pv).log = s.log := rfl
@[simp] theorem log_add_dentry (s : MDS) (d : dirfrag_t) (n : String) :
    (s.add_dentry d n).log = s.log := rfl
@[simp] theorem log_remove_dentry (s : MDS) (p : DnPtr) : (s.remove_dentry p).log = s.log := rfl
@[simp] theorem log_link_inode (s : MDS) (p : DnPtr) (i : inodeno_t) :
    (s.link_inode p i).log = s.log := rfl
@[simp] theorem log_unlink_inode (s : MDS) (p : DnPtr) : (s.unlink_inode p).log = s.log := rfl
@[simp] theorem log_get_or_open_dirfrag (s : MDS) (c : CInode) (fg : frag_t) :
    (s.get_or_open_dirfrag c fg).log = s.log := by
  unfold get_or_open_dirfrag; cases s.get_dirfrag ⟨c.inode.ino, fg⟩ <;> rfl
@[simp] theorem log_create_inode (s : MDS) (i : inodeno_t) : (s.create_inode i).log = s.log := rfl
@[simp] theorem log_remove_inode (s : MDS) (i : inodeno_t) : (s.remove_inode i).log = s.log := rfl
@[simp] theorem log_request_finish (s : MDS) (r : ReqId) :
    (s.request_finish r).log = s.log ++ [.request_finish r] := rfl
@[simp] theorem log_request_forward (s : MDS) (r : ReqId) (m : Int) :
    (s.request_forward r m).log = s.log ++ [.request_forward r m] := rfl
@[simp] theorem log_request_cleanup (s : MDS) (r : ReqId) :
    (s.request_cleanup r).log = s.log ++ [.request_cleanup r] := rfl
@[simp] theorem log_inode_lock_start (env : Env) (s : MDS) (k : LockKind) (i : inodeno_t)
    (r : ReqId) : (s.inode_lock_start env k i r).1.log =
      s.log ++ [.lock_start k i none r (env.lock_start s k i none r)] := rfl
@[simp] theorem log_inode_lock_finish (s : MDS) (k : LockKind) (i : inodeno_t) :
    (s.inode_lock_finish k i).log = s.log ++ [.lock_finish k i none] := rfl
@[simp] theorem log_dentry_xlock_start (env : Env) (s : MDS) (p : DnPtr) (r : ReqId)
    (ref : inodeno_t) : (s.dentry_xlock_start env p r ref).1.log =
      s.log ++ [.lock_start .dentry_xlock ref (some p) r
        (env.lock_start s .dentry_xlock ref (some p) r)] := by
  unfold dentry_xlock_start
  simp only
  split <;> rfl
@[simp] theorem log_dentry_xlock_finish (s : MDS) (p : DnPtr) :
    (s.dentry_xlock_finish p).log = s.log ++ [.lock_finish .dentry_xlock 0 (some p)] := rfl
end MDS

namespace Server

@[simp] theorem log_reply_request (s : MDS) (req : MClientRequest) (reply : MClientReply)
    (t : Option inodeno_t) :
    (reply_request s req reply t).log = s.log ++
      [.send_reply (include_trace reply t) req.client, .request_finish req.id] := by
  unfold reply_request
  simp [MDS.request_finish, MDS.emit]

@[simp] theorem log_reply_request_r (s : MDS) (req : MClientRequest) (r : Int)
    (t : Option inodeno_t) :
    (reply_request_r s req r t).log = s.log ++
      [.send_reply (include_trace { req := req.id, result := r } t) req.client,
        .request_finish req.id] := by
  unfold reply_request_r
  rw [log_reply_request]

/-! ## At most one reply or forward per invocation -/

theorem handle_client_stat_tick (env : Env) (s : MDS) (req : MClientRequest) (ref : inodeno_t) :
    Tick s (handle_client_stat env s req ref) := by
  unfold handle_client_stat Tick MDS.nreplies MDS.nforwards
  simp only
  split_ifs <;> (simp [Effect.is_reply, Effect.is_forward]; try omega)

theorem handle_client_utime_tick (env : Env) (s : MDS) (req : MClientRequest) (ref : inodeno_t) :
    Tick s (handle_client_utime env s req ref) := by
  unfold handle_client_utime Tick MDS.nreplies MDS.nforwards
  simp only
  split_ifs
  · simp [Effect.is_reply, Effect.is_forward]
  · split <;> simp [Effect.is_reply, Effect.is_forward]

theorem Same.tick {s t : MDS} (h : Same s t) : Tick s t := by
  unfold Same at h; unfold Tick; omega

theorem commit_request_tick (env : Env) (s : MDS) (req : MClientRequest) (reply : MClientReply)
    (t : Option inodeno_t) (e e2 : Option LogEvent) :
    Tick s (commit_request env s req reply t e e2) := by
  unfold commit_request Tick MDS.nreplies MDS.nforwards
  try simp only []
  repeat' split
  all_goals (try simp [Effect.is_reply, Effect.is_forward] at *)
  all_goals (try omega)

theorem C_MDS_CommitRequest_finish_tick (env : Env) (s : MDS) (req : MClientRequest)
    (reply : MClientReply) (t : Option inodeno_t) (e : Option LogEvent) (r : Int) :
    Tick s (C_MDS_CommitRequest_finish env s req reply t e r) := by
  unfold C_MDS_CommitRequest_finish
  simp only
  split
  · exact commit_request_tick _ _ _ _ _ _ _
  · unfold Tick MDS.nreplies MDS.nforwards
    simp [Effect.is_reply, Effect.is_forward]; try omega

theorem handle_client_mount_tick (s : MDS) (c : Nat) : Tick s (handle_client_mount s c) := by
  unfold handle_client_mount Tick MDS.nreplies MDS.nforwards
  simp [Effect.is_reply, Effect.is_forward]

theorem handle_client_unmount_tick (s : MDS) (c : Nat) : Tick s (handle_client_unmount s c) := by
  unfold handle_client_unmount Tick MDS.nreplies MDS.nforwards
  simp [Effect.is_reply, Effect.is_forward]

theorem C_MDS_mount_finish_finish_tick (env : Env) (s : MDS) (c : Nat) (m : Bool)
    (v : version_t) (r : Int) : Tick s (C_MDS_mount_finish_finish env s c m v r) := by
  unfold C_MDS_mount_finish_finish Tick MDS.nreplies MDS.nforwards
  try simp only []
  repeat' split
  all_goals (try simp [Effect.is_reply, Effect.is_forward] at *)
  all_goals (try omega)

theorem C_MDS_utime_finish_finish_tick (s : MDS) (req : MClientRequest) (i : inodeno_t)
    (pv : version_t) (mt at_ : time_t) (r : Int) :
    Tick s (C_MDS_utime_finish_finish s req i pv mt at_ r) := by
  unfold C_MDS_utime_finish_finish Tick MDS.nreplies MDS.nforwards
  try simp only []
  repeat' split
  all_goals (try simp [Effect.is_reply, Effect.is_forward] at *)
  all_goals (try omega)

theorem C_MDS_chmod_finish_finish_tick (s : MDS) (req : MClientRequest) (i : inodeno_t)
    (pv : version_t) (m : Nat) (r : Int) :
    Tick s (C_MDS_chmod_finish_finish s req i pv m r) := by
  unfold C_MDS_chmod_finish_finish Tick MDS.nreplies MDS.nforwards
  try simp only []
  repeat' split
  all_goals (try simp [Effect.is_reply, Effect.is_forward] at *)
  all_goals (try omega)

theorem C_MDS_chown_finish_finish_tick (s : MDS) (req : MClientRequest) (i : inodeno_t)
    (pv : version_t) (u g : Int) (r : Int) :
    Tick s (C_MDS_chown_finish_finish s req i pv u g r) := by
  unfold C_MDS_chown_finish_finish Tick MDS.nreplies MDS.nforwards
  try simp only []
  repeat' split
  all_goals (try simp [Effect.is_reply, Effect.is_forward] at *)
  all_goals (try omega)

theorem handle_client_chmod_tick (env : Env) (s : MDS) (req : MClientRequest) (ref : inodeno_t) :
    Tick s (handle_client_chmod env s req ref) := by
  unfold handle_client_chmod Tick MDS.nreplies MDS.nforwards
  try simp only []
  repeat' split
  all_goals (try simp [Effect.is_reply, Effect.is_forward] at *)
  all_goals (try omega)

theorem handle_client_chown_tick (env : Env) (s : MDS) (req : MClientRequest) (ref : inodeno_t) :
    Tick s (handle_client_chown env s req ref) := by
  unfold handle_client_chown Tick MDS.nreplies MDS.nforwards
  try simp only []
  repeat' split
  all_goals (try simp [Effect.is_reply, Effect.is_forward] at *)
  all_goals (try omega)

theorem try_open_dir_same (s : MDS) (i : inodeno_t) (fg : frag_t) (req : MClientRequest) :
    Same s (try_open_dir s i fg req).1 := by
  unfold try_open_dir Same MDS.nreplies MDS.nforwards
  try simp only []
  repeat' split
  all_goals (try simp [Effect.is_reply, Effect.is_forward] at *)
  all_goals (try omega)

theorem try_open_auth_dir_tick (s : MDS) (i : inodeno_t) (fg : frag_t) (req : MClientRequest) :
    Tick s (try_open_auth_dir s i fg req).1 ∧
      ((try_open_auth_dir s i fg req).2.isSome → Same s (try_open_auth_dir s i fg req).1) := by
  unfold try_open_auth_dir Same Tick MDS.nreplies MDS.nforwards
  try simp only []
  repeat' split
  all_goals (try simp [Effect.is_reply, Effect.is_forward] at *)
  all_goals (try omega)

theorem handle_client_readdir_tick (env : Env) (s : MDS) (req : MClientRequest)
    (i : inodeno_t) : Tick s (handle_client_readdir env s req i) := by
  have h := try_open_auth_dir_tick s i req.args.frag req
  unfold handle_client_readdir
  unfold Same Tick MDS.nreplies MDS.nforwards at *
  try simp only []
  repeat' split
  all_goals (try simp_all [Effect.is_reply, Effect.is_forward])
  all_goals (try omega)

theorem C_MDS_mknod_finish_finish_tick (s : MDS) (req : MClientRequest) (dn : DnPtr)
    (i : inodeno_t) (pv : version_t) (r : Int) :
    Tick s (C_MDS_mknod_finish_finish s req dn i pv r) := by
  unfold C_MDS_mknod_finish_finish Tick MDS.nreplies MDS.nforwards
  try simp only []
  repeat' split
  all_goals (try simp_all [Effect.is_reply, Effect.is_forward])
  all_goals (try omega)

theorem validate_dentry_dir_tick (env : Env) (s : MDS) (req : MClientRequest) (i : inodeno_t)
    (name : String) :
    Tick s (validate_dentry_dir env s req i name).1 ∧
      ((validate_dentry_dir env s req i name).2.isSome →
        Same s (validate_dentry_dir env s req i name).1) := by
  unfold validate_dentry_dir
  try simp only []
  split
  · unfold Same Tick MDS.nreplies MDS.nforwards
    simp [Effect.is_reply, Effect.is_forward]
  · rename_i ci _
    have h := try_open_auth_dir_tick s i (env.pick_dirfrag ci.dirfragtree name) req
    unfold Same Tick MDS.nreplies MDS.nforwards at *
    repeat' split
    all_goals (try simp_all [Effect.is_reply, Effect.is_forward])
    all_goals (try omega)

theorem prepare_mknod_create_tick (env : Env) (s : MDS) (req : MClientRequest) (i : inodeno_t)
    (w : Bool) (dir : dirfrag_t) (d : CDir) (name : String) (hv : Bool) :
    Tick s (prepare_mknod_create env s req i w dir d name hv).s ∧
      ((prepare_mknod_create env s req i w dir d name hv).r ≠ 0 →
        Same s (prepare_mknod_create env s req i w dir d name hv).s) := by
  unfold prepare_mknod_create
  unfold Same Tick MDS.nreplies MDS.nforwards at *
  try simp only []
  repeat' split
  all_goals (try simp_all [Effect.is_reply, Effect.is_forward])
  all_goals (try omega)

theorem prepare_mknod_tick (env : Env) (s : MDS) (req : MClientRequest) (i : inodeno_t)
    (w ok : Bool) :
    Tick s (prepare_mknod env s req i w ok).s ∧
      ((prepare_mknod env s req i w ok).r ≠ 0 → Same s (prepare_mknod env s req i w ok).s) := by
  have h := validate_dentry_dir_tick env s req i req.filepath.last_dentry
  unfold prepare_mknod
  try simp only []
  split
  · unfold Same Tick MDS.nreplies MDS.nforwards at *
    simp_all
  · split
    · unfold Same Tick MDS.nreplies MDS.nforwards at *
      simp_all [Effect.is_reply, Effect.is_forward]
    · rename_i dir _ _ d _
      have h1 := prepare_mknod_create_tick env
        (validate_dentry_dir env s req i req.filepath.last_dentry).1 req i w dir d
        req.filepath.last_dentry true
      have h2 := prepare_mknod_create_tick env
        (validate_dentry_dir env s req i req.filepath.last_dentry).1 req i w dir d
        req.filepath.last_dentry false
      unfold Same Tick MDS.nreplies MDS.nforwards at *
      repeat' split
      all_goals (try simp_all [Effect.is_reply, Effect.is_forward])
      all_goals (try omega)

@[simp] theorem journal_new_inode_same (s : MDS) (what : String) (dir : dirfrag_t) (dn : DnPtr)
    (i : inodeno_t) (extra : List MetaBlobItem) (fin : Context) :
    List.countP Effect.is_reply (journal_new_inode s what dir dn i extra fin).log =
        List.countP Effect.is_reply s.log ∧
      List.countP Effect.is_forward (journal_new_inode s what dir dn i extra fin).log =
        List.countP Effect.is_forward s.log := by
  unfold journal_new_inode
  try simp only []
  repeat' split
  all_goals (try simp_all [Effect.is_reply, Effect.is_forward])

theorem handle_client_mknod_tick (env : Env) (s : MDS) (req : MClientRequest) (i : inodeno_t) :
    Tick s (handle_client_mknod env s req i) := by
  have h := prepare_mknod_tick env s req i true false
  unfold handle_client_mknod
  unfold Same Tick MDS.nreplies MDS.nforwards at *
  try simp only []
  repeat' split
  all_goals (try simp_all [Effect.is_reply, Effect.is_forward])
  all_goals (try omega)

theorem handle_client_mkdir_tick (env : Env) (s : MDS) (req : MClientRequest) (i : inodeno_t) :
    Tick s (handle_client_mkdir env s req i) := by
  have h := prepare_mknod_tick env s req i true false
  unfold handle_client_mkdir
  unfold Same Tick MDS.nreplies MDS.nforwards at *
  try simp only []
  repeat' split
  all_goals (try simp_all [Effect.is_reply, Effect.is_forward])
  all_goals (try omega)

theorem handle_client_symlink_tick (env : Env) (s : MDS) (req : MClientRequest)
    (i : inodeno_t) : Tick s (handle_client_symlink env s req i) := by
  have h := prepare_mknod_tick env s req i true false
  unfold handle_client_symlink
  unfold Same Tick MDS.nreplies MDS.nforwards at *
  try simp only []
  repeat' split
  all_goals (try simp_all [Effect.is_reply, Effect.is_forward])
  all_goals (try omega)

theorem handle_client_link_tick (env : Env) (s : MDS) (req : MClientRequest) (i : inodeno_t) :
    Tick s (handle_client_link env s req i) := by
  have h := validate_dentry_dir_tick env s req i req.filepath.last_dentry
  unfold handle_client_link
  unfold Same Tick MDS.nreplies MDS.nforwards at *
  try simp only []
  repeat' split
  all_goals (try simp_all [Effect.is_reply, Effect.is_forward])
  all_goals (try omega)

theorem _link_local_finish_tick (s : MDS) (req : MClientRequest) (dn : DnPtr) (ti : inodeno_t)
    (dpv : version_t) (tc : time_t) (tpv : version_t) (r : Int) :
    Tick s (_link_local_finish s req dn ti dpv tc tpv r) := by
  unfold _link_local_finish Tick MDS.nreplies MDS.nforwards
  try simp only []
  repeat' split
  all_goals (try simp_all [Effect.is_reply, Effect.is_forward])
  all_goals (try omega)

@[simp] theorem link_local_same (env : Env) (s : MDS) (req : MClientRequest) (diri : inodeno_t)
    (dn : DnPtr) (ti : inodeno_t) :
    List.countP Effect.is_reply (link_local env s req diri dn ti).log =
        List.countP Effect.is_reply s.log ∧
      List.countP Effect.is_forward (link_local env s req diri dn ti).log =
        List.countP Effect.is_forward s.log := by
  unfold link_local
  try simp only []
  repeat' split
  all_goals (try simp_all [Effect.is_reply, Effect.is_forward])

theorem link_remote_tick (s : MDS) (req : MClientRequest) (dn : DnPtr) (ti : inodeno_t) :
    Tick s (link_remote s req dn ti) := by
  unfold link_remote Tick MDS.nreplies MDS.nforwards
  try simp only []
  repeat' split
  all_goals (try simp_all [Effect.is_reply, Effect.is_forward])
  all_goals (try omega)

theorem handle_client_link_2_tick (env : Env) (s : MDS) (r : Int) (req : MClientRequest)
    (i : inodeno_t) (trace : List DnPtr) :
    Tick s (handle_client_link_2 env s r req i trace) := by
  have h := prepare_mknod_tick env s req i false false
  unfold handle_client_link_2 link_remote
  unfold Same Tick MDS.nreplies MDS.nforwards at *
  try simp only []
  repeat' split
  all_goals (try simp_all [Effect.is_reply, Effect.is_forward])
  all_goals (try omega)

theorem Tick.same_left {s t u : MDS} (h1 : Same s t) (h2 : Tick t u) : Tick s u := by
  unfold Same Tick at *; omega

theorem Tick.same_right {s t u : MDS} (h1 : Tick s t) (h2 : Same t u) : Tick s u := by
  unfold Same Tick at *; omega

@[simp] theorem countP_foldl_send_dentry_unlink (p : Effect → Bool) (dn : DnPtr)
    (hp : ∀ m, p (.send_dentry_unlink dn.dir dn.name m) = false) (l : List Int) (s : MDS) :
    List.countP p (l.foldl (fun st m => st.emit (.send_dentry_unlink dn.dir dn.name m)) s).log =
      List.countP p s.log := by
  induction l generalizing s with
  | nil => rfl
  | cons a l ih => simp [List.foldl_cons, ih, hp]

theorem _verify_rmdir_frags_tick (s : MDS) (req : MClientRequest) (ref : inodeno_t)
    (ci : CInode) (l : List frag_t) :
    Tick s (_verify_rmdir_frags s req ref ci l).1 ∧
      ((_verify_rmdir_frags s req ref ci l).2 = true →
        Same s (_verify_rmdir_frags s req ref ci l).1) := by
  induction l generalizing s with
  | nil =>
    unfold _verify_rmdir_frags Same Tick
    simp
  | cons p ps ih =>
    have h := ih (s.get_or_open_dirfrag ci p)
    unfold _verify_rmdir_frags
    unfold Same Tick MDS.nreplies MDS.nforwards at *
    try simp only []
    repeat' split
    all_goals (try simp_all [Effect.is_reply, Effect.is_forward])
    all_goals (try omega)

theorem _verify_rmdir_tick (s : MDS) (req : MClientRequest) (ref i : inodeno_t) :
    Tick s (_verify_rmdir s req ref i).1 ∧
      ((_verify_rmdir s req ref i).2 = true → Same s (_verify_rmdir s req ref i).1) := by
  unfold _verify_rmdir
  try simp only []
  split
  · unfold Same Tick MDS.nreplies MDS.nforwards; simp [Effect.is_reply, Effect.is_forward]
  · split
    · unfold Same Tick MDS.nreplies MDS.nforwards; simp [Effect.is_reply, Effect.is_forward]
    · exact _verify_rmdir_frags_tick _ _ _ _ _

theorem _unlink_local_finish_tick (s : MDS) (req : MClientRequest) (dn : DnPtr) (i : inodeno_t)
    (ipv : version_t) (ic : time_t) (dpv : version_t) (r : Int) :
    Tick s (_unlink_local_finish s req dn i ipv ic dpv r) := by
  unfold _unlink_local_finish Tick MDS.nreplies MDS.nforwards
  try simp only []
  repeat' split
  all_goals (try simp_all [Effect.is_reply, Effect.is_forward])
  all_goals (try omega)

@[simp] theorem _unlink_local_same (env : Env) (s : MDS) (req : MClientRequest) (dn : DnPtr)
    (i : inodeno_t) :
    List.countP Effect.is_reply (_unlink_local env s req dn i).log =
        List.countP Effect.is_reply s.log ∧
      List.countP Effect.is_forward (_unlink_local env s req dn i).log =
        List.countP Effect.is_forward s.log := by
  unfold _unlink_local
  try simp only []
  repeat' split
  all_goals (try simp_all [Effect.is_reply, Effect.is_forward])

theorem _verify_rmdir_same (s : MDS) (req : MClientRequest) (ref i : inodeno_t)
    (h : (_verify_rmdir s req ref i).2 = true) :
    List.countP Effect.is_reply (_verify_rmdir s req ref i).1.log =
        List.countP Effect.is_reply s.log ∧
      List.countP Effect.is_forward (_verify_rmdir s req ref i).1.log =
        List.countP Effect.is_forward s.log := by
  have := (_verify_rmdir_tick s req ref i).2 h
  unfold Same MDS.nreplies MDS.nforwards at this
  exact this

@[simp] theorem unlink_open_remote_same (s : MDS) (req : MClientRequest) (diri : inodeno_t)
    (p : DnPtr) (dn : CDentry) :
    List.countP Effect.is_reply (unlink_open_remote s req diri p dn).1.log =
        List.countP Effect.is_reply s.log ∧
      List.countP Effect.is_forward (unlink_open_remote s req diri p dn).1.log =
        List.countP Effect.is_forward s.log := by
  unfold unlink_open_remote
  repeat' split
  all_goals (try simp_all [Effect.is_reply, Effect.is_forward])

theorem unlink_check_type_tick (s : MDS) (req : MClientRequest) (diri : inodeno_t)
    (rmdir : Bool) (i : inodeno_t) (ci : CInode) :
    Tick s (unlink_check_type s req diri rmdir i ci).1 ∧
      ((unlink_check_type s req diri rmdir i ci).2 = true →
        Same s (unlink_check_type s req diri rmdir i ci).1) := by
  unfold unlink_check_type
  split
  · split
    · exact _verify_rmdir_tick _ _ _ _
    · unfold Same Tick MDS.nreplies MDS.nforwards
      simp [Effect.is_reply, Effect.is_forward]; omega
  · split
    · unfold Same Tick MDS.nreplies MDS.nforwards
      simp [Effect.is_reply, Effect.is_forward]; omega
    · unfold Same Tick MDS.nreplies MDS.nforwards
      simp [Effect.is_reply, Effect.is_forward]

theorem unlink_dentry_tick (env : Env) (s : MDS) (req : MClientRequest) (diri : inodeno_t)
    (p : DnPtr) (dn : CDentry) (i : inodeno_t) (ci : CInode) :
    Tick s (unlink_dentry env s req diri p dn i ci) := by
  unfold unlink_dentry _unlink_remote Tick MDS.nreplies MDS.nforwards
  try simp only []
  repeat' split
  all_goals (try simp_all [Effect.is_reply, Effect.is_forward])
  all_goals (try omega)

theorem unlink_found_tick (env : Env) (s : MDS) (req : MClientRequest) (diri : inodeno_t)
    (p : DnPtr) (dn : CDentry) : Tick s (unlink_found env s req diri p dn) := by
  unfold unlink_found
  try simp only []
  split
  · unfold Tick MDS.nreplies MDS.nforwards; simp
  · rename_i i _
    split
    · unfold Tick MDS.nreplies MDS.nforwards; simp [Effect.is_reply, Effect.is_forward]
    · rename_i ci _
      have hc := unlink_check_type_tick (unlink_open_remote s req diri p dn).1 req diri
        (req.op == .RMDIR) i ci
      split
      · refine Tick.same_left ?_ hc.1
        unfold Same MDS.nreplies MDS.nforwards; simp
      · rename_i h2
        refine Tick.same_left ?_ (unlink_dentry_tick _ _ _ _ _ _ _ _)
        have := hc.2 (by simpa using h2)
        unfold Same MDS.nreplies MDS.nforwards at *; simp_all

theorem handle_client_unlink_tick (env : Env) (s : MDS) (req : MClientRequest) (i : inodeno_t) :
    Tick s (handle_client_unlink env s req i) := by
  have h := validate_dentry_dir_tick env s req i req.filepath.last_dentry
  unfold handle_client_unlink
  try simp only []
  repeat' split
  all_goals first
    | (refine Tick.same_left ?_ (unlink_found_tick _ _ _ _ _ _)
       unfold Same Tick MDS.nreplies MDS.nforwards at *
       simp_all [Effect.is_reply, Effect.is_forward]
       done)
    | (unfold Same Tick MDS.nreplies MDS.nforwards at *
       simp_all [Effect.is_reply, Effect.is_forward]
       done)
    | (unfold Same Tick MDS.nreplies MDS.nforwards at *
       simp_all [Effect.is_reply, Effect.is_forward]
       omega)

@[simp] theorem rename_lock_round_same (env : Env) (s : MDS) (req : MClientRequest)
    (ref : inodeno_t) (dosrc sl dl : Bool) (srcdn : DnPtr) (destdir : dirfrag_t)
    (destdn : Option DnPtr) (destname : String) :
    List.countP Effect.is_reply
        (rename_lock_round env s req ref dosrc sl dl srcdn destdir destdn destname).1.log =
        List.countP Effect.is_reply s.log ∧
      List.countP Effect.is_forward
        (rename_lock_round env s req ref dosrc sl dl srcdn destdir destdn destname).1.log =
        List.countP Effect.is_forward s.log := by
  unfold rename_lock_round
  try simp only []
  repeat' split
  all_goals (try simp_all [Effect.is_reply, Effect.is_forward])

@[simp] theorem handle_client_rename_local_same (env : Env) (s : MDS) (req : MClientRequest)
    (ref : inodeno_t) (srcpath : String) (srcdn : DnPtr) (destpath : String)
    (destdir : dirfrag_t) (destdn : Option DnPtr) (destname : String) :
    List.countP Effect.is_reply
        (handle_client_rename_local env s req ref srcpath srcdn destpath destdir destdn
          destname).log = List.countP Effect.is_reply s.log ∧
      List.countP Effect.is_forward
        (handle_client_rename_local env s req ref srcpath srcdn destpath destdir destdn
          destname).log = List.countP Effect.is_forward s.log := by
  unfold handle_client_rename_local
  try simp only []
  repeat' split
  all_goals (try simp_all [Effect.is_reply, Effect.is_forward])

theorem handle_client_rename_2_dest_tick (env : Env) (s : MDS) (req : MClientRequest)
    (ref : inodeno_t) (srcdn : DnPtr) (srci : CInode) (destpath : filepath)
    (destdir : dirfrag_t) (destname : String) :
    Tick s (handle_client_rename_2_dest env s req ref srcdn srci destpath destdir destname) := by
  unfold handle_client_rename_2_dest Tick MDS.nreplies MDS.nforwards
  try simp only []
  repeat' split
  all_goals (try simp_all [Effect.is_reply, Effect.is_forward])
  all_goals (try omega)

@[simp] theorem try_open_dir_same_count (s : MDS) (i : inodeno_t) (fg : frag_t)
    (req : MClientRequest) :
    List.countP Effect.is_reply (try_open_dir s i fg req).1.log =
        List.countP Effect.is_reply s.log ∧
      List.countP Effect.is_forward (try_open_dir s i fg req).1.log =
        List.countP Effect.is_forward s.log := by
  have := try_open_dir_same s i fg req
  unfold Same MDS.nreplies MDS.nforwards at this
  exact this

theorem handle_client_rename_2_tick (env : Env) (s : MDS) (req : MClientRequest)
    (ref : inodeno_t) (srcdn : DnPtr) (destpath : filepath) (trace : List DnPtr) (r : Int) :
    Tick s (handle_client_rename_2 env s req ref srcdn destpath trace r) := by
  unfold handle_client_rename_2
  try simp only []
  repeat' split
  all_goals first
    | (refine Tick.same_left ?_ (handle_client_rename_2_dest_tick _ _ _ _ _ _ _ _ _)
       simp only [Same, Tick, MDS.nreplies, MDS.nforwards] at *
       simp_all [Effect.is_reply, Effect.is_forward]
       done)
    | (simp only [Same, Tick, MDS.nreplies, MDS.nforwards] at *
       simp_all [Effect.is_reply, Effect.is_forward]
       done)
    | (simp only [Same, Tick, MDS.nreplies, MDS.nforwards] at *
       simp_all [Effect.is_reply, Effect.is_forward]
       omega)

theorem handle_client_rename_srcdn_tick (env : Env) (s : MDS) (req : MClientRequest)
    (ref srcdiri : inodeno_t) (srcdirp : dirfrag_t) (srcdir : CDir) (srcname : String) :
    Tick s (handle_client_rename_srcdn env s req ref srcdiri srcdirp srcdir srcname) := by
  unfold handle_client_rename_srcdn Tick MDS.nreplies MDS.nforwards
  try simp only []
  repeat' split
  all_goals (try simp_all [Effect.is_reply, Effect.is_forward])
  all_goals (try omega)

theorem handle_client_rename_srcdir_tick (env : Env) (s : MDS) (req : MClientRequest)
    (ref : inodeno_t) (srcdiri : CInode) (srcname : String) :
    Tick s (handle_client_rename_srcdir env s req ref srcdiri srcname) := by
  have h := try_open_auth_dir_tick s srcdiri.inode.ino
    (env.pick_dirfrag srcdiri.dirfragtree srcname) req
  unfold handle_client_rename_srcdir
  try simp only []
  repeat' split
  all_goals first
    | (refine Tick.same_left ?_ (handle_client_rename_srcdn_tick _ _ _ _ _ _ _ _)
       simp only [Same, Tick, MDS.nreplies, MDS.nforwards] at *
       simp_all [Effect.is_reply, Effect.is_forward]
       done)
    | (simp only [Same, Tick, MDS.nreplies, MDS.nforwards] at *
       simp_all [Effect.is_reply, Effect.is_forward]
       done)
    | (simp only [Same, Tick, MDS.nreplies, MDS.nforwards] at *
       simp_all [Effect.is_reply, Effect.is_forward]
       omega)

theorem handle_client_rename_tick (env : Env) (s : MDS) (req : MClientRequest)
    (ref : inodeno_t) : Tick s (handle_client_rename env s req ref) := by
  unfold handle_client_rename
  try simp only []
  repeat' split
  all_goals first
    | (refine Tick.same_left ?_ (handle_client_rename_srcdir_tick _ _ _ _ _ _)
       simp only [Same, Tick, MDS.nreplies, MDS.nforwards] at *
       simp_all [Effect.is_reply, Effect.is_forward]
       done)
    | (simp only [Same, Tick, MDS.nreplies, MDS.nforwards] at *
       simp_all [Effect.is_reply, Effect.is_forward]
       done)
    | (simp only [Same, Tick, MDS.nreplies, MDS.nforwards] at *
       simp_all [Effect.is_reply, Effect.is_forward]
       omega)

theorem handle_client_truncate_tick (env : Env) (s : MDS) (req : MClientRequest)
    (i : inodeno_t) : Tick s (handle_client_truncate env s req i) := by
  unfold handle_client_truncate
  try simp only []
  split
  · simp only [Same, Tick, MDS.nreplies, MDS.nforwards]
    simp [Effect.is_reply, Effect.is_forward]
  · refine Tick.same_left ?_ (commit_request_tick _ _ _ _ _ _ _)
    simp only [Same, Tick, MDS.nreplies, MDS.nforwards]
    simp [Effect.is_reply, Effect.is_forward]

theorem handle_client_open_tick (env : Env) (s : MDS) (req : MClientRequest) (i : inodeno_t) :
    Tick s (handle_client_open env s req i) := by
  unfold handle_client_open Tick MDS.nreplies MDS.nforwards
  try simp only []
  repeat' split
  all_goals (try simp_all [Effect.is_reply, Effect.is_forward])
  all_goals (try omega)

theorem C_MDS_openc_finish_finish_tick (env : Env) (s : MDS) (req : MClientRequest)
    (dn : DnPtr) (i : inodeno_t) (pv : version_t) (r : Int) :
    Tick s (C_MDS_openc_finish_finish env s req dn i pv r) := by
  unfold C_MDS_openc_finish_finish
  try simp only []
  split
  · simp only [Same, Tick, MDS.nreplies, MDS.nforwards]
    simp [Effect.is_reply, Effect.is_forward]
  · refine Tick.same_left ?_ (handle_client_open_tick _ _ _ _)
    simp only [Same, Tick, MDS.nreplies, MDS.nforwards]
    simp [Effect.is_reply, Effect.is_forward]

theorem handle_client_openc_tick (env : Env) (s : MDS) (req : MClientRequest) (i : inodeno_t) :
    Tick s (handle_client_openc env s req i) := by
  have h := prepare_mknod_tick env s req i true (!(req.args.flags &&& O_EXCL != 0))
  unfold handle_client_openc
  simp only []
  generalize prepare_mknod env s req i true (!(req.args.flags &&& O_EXCL != 0)) = p at h ⊢
  split
  · exact h.1
  · rename_i hr
    have h2 := h.2 (by omega)
    split
    · split
      · simp only [Same, Tick, MDS.nreplies, MDS.nforwards] at *
        simp_all [Effect.is_reply, Effect.is_forward]
      · split
        · simp only [Same, Tick, MDS.nreplies, MDS.nforwards] at *
          simp_all [Effect.is_reply, Effect.is_forward]
          omega
        · exact Tick.same_left h2 (handle_client_open_tick _ _ _ _)
    · simp only [Same, Tick, MDS.nreplies, MDS.nforwards] at *
      simp_all [Effect.is_reply, Effect.is_forward]

theorem Tick.of_emit (s : MDS) (e : Effect) (h1 : e.is_reply = false) (h2 : e.is_forward = false) :
    Tick s (s.emit e) := by
  simp only [Tick, MDS.nreplies, MDS.nforwards]
  simp [h1, h2]

theorem dispatch_request_tick (env : Env) (s : MDS) (m : Message) (ref : inodeno_t) :
    Tick s (dispatch_request env s m ref) := by
  cases m with
  | client_request req =>
    unfold dispatch_request
    simp only []
    split
    · split
      · exact handle_client_openc_tick _ _ _ _
      · exact handle_client_open_tick _ _ _ _
    · exact handle_client_truncate_tick _ _ _ _
    · exact handle_client_stat_tick _ _ _ _
    · exact handle_client_stat_tick _ _ _ _
    · exact handle_client_utime_tick _ _ _ _
    · exact handle_client_chmod_tick _ _ _ _
    · exact handle_client_chown_tick _ _ _ _
    · exact handle_client_readdir_tick _ _ _ _
    · exact handle_client_mknod_tick _ _ _ _
    · exact handle_client_link_tick _ _ _ _
    · exact handle_client_unlink_tick _ _ _ _
    · exact handle_client_rename_tick _ _ _ _
    · exact handle_client_unlink_tick _ _ _ _
    · exact handle_client_mkdir_tick _ _ _ _
    · exact handle_client_symlink_tick _ _ _ _
    · exact Tick.of_emit _ _ rfl rfl
    · exact Tick.of_emit _ _ rfl rfl
    · exact Tick.of_emit _ _ rfl rfl
  | client_mount c => exact Tick.of_emit _ _ rfl rfl
  | client_unmount c => exact Tick.of_emit _ _ rfl rfl
  | mds_lock dn => exact Tick.of_emit _ _ rfl rfl
  | other ty => exact Tick.of_emit _ _ rfl rfl

@[simp] theorem log_request_start (env : Env) (s : MDS) (req : MClientRequest) (ref : inodeno_t)
    (trace : List DnPtr) :
    (request_start env s req ref trace).1.log =
      s.log ++ [.request_start req.id ref trace (env.request_start s req.id ref trace)] := by
  unfold request_start
  simp only []
  split <;> rfl

theorem register_and_process_tick (env : Env) (s : MDS) (req : MClientRequest) (ref : inodeno_t)
    (trace : List DnPtr) : Tick s (register_and_process env s req ref trace) := by
  unfold register_and_process
  simp only []
  generalize (if (req.op == ClientOp.RENAME) = true then [] else trace) = tr
  split
  · simp only [Same, Tick, MDS.nreplies, MDS.nforwards]
    simp [Effect.is_reply, Effect.is_forward]
  · refine Tick.same_left ?_ (dispatch_request_tick _ _ _ _)
    simp only [Same, Tick, MDS.nreplies, MDS.nforwards]
    simp [Effect.is_reply, Effect.is_forward]

theorem handle_client_request_tick (env : Env) (s : MDS) (req : MClientRequest) :
    Tick s (handle_client_request env s req) := by
  unfold handle_client_request
  simp only []
  split
  · exact Tick.of_emit _ _ rfl rfl
  split
  · exact Tick.of_emit _ _ rfl rfl
  split
  · split
    · simp only [Same, Tick, MDS.nreplies, MDS.nforwards]
      simp [Effect.is_reply, Effect.is_forward]
      omega
    · exact register_and_process_tick _ _ _ _ _
  · generalize env.path_traverse s (refpath req) (follow_trailing_symlink req) false req.id = tr
    split
    · simp only [Same, Tick, MDS.nreplies, MDS.nforwards]
      cases h2 : (tr.r == 2) <;> simp [Effect.is_reply, Effect.is_forward, h2]
      omega
    · rename_i hpos
      have hne : (tr.r == 2) = false := by
        simp only [beq_eq_false_iff_ne, ne_eq]
        intro h2; rw [h2] at hpos; exact hpos (by decide)
      split
      · simp only [Same, Tick, MDS.nreplies, MDS.nforwards]
        simp [Effect.is_reply, Effect.is_forward, hne]
        omega
      · split
        · simp only [Same, Tick, MDS.nreplies, MDS.nforwards]
          simp [Effect.is_reply, Effect.is_forward, hne]
        · refine Tick.same_left ?_ (register_and_process_tick _ _ _ _ _)
          simp only [Same, Tick, MDS.nreplies, MDS.nforwards]
          simp [Effect.is_reply, Effect.is_forward, hne]

theorem dispatch_tick (env : Env) (s : MDS) (m : Message) : Tick s (dispatch env s m) := by
  unfold dispatch
  split
  · exact Tick.of_emit _ _ rfl rfl
  · split
    · exact handle_client_mount_tick _ _
    · exact handle_client_unmount_tick _ _
    · exact handle_client_request_tick _ _ _
    · exact Tick.of_emit _ _ rfl rfl

theorem finish_tick (env : Env) (s : MDS) (c : Context) (r : Int) (trace : List DnPtr) :
    Tick s (finish env s c r trace) := by
  cases c with
  | C_MDS_RetryMessage m => exact dispatch_tick _ _ _
  | C_MDS_RetryRequest req ref => exact dispatch_request_tick _ _ _ _
  | C_MDS_mount_finish m mount cmapv =>
    cases m with
    | client_mount cl => exact C_MDS_mount_finish_finish_tick _ _ _ _ _ _
    | client_unmount cl => exact C_MDS_mount_finish_finish_tick _ _ _ _ _ _
    | client_request rq => exact Tick.of_emit _ _ rfl rfl
    | mds_lock dn => exact Tick.of_emit _ _ rfl rfl
    | other ty => exact Tick.of_emit _ _ rfl rfl
  | C_MDS_CommitRequest req reply tracei event =>
    exact C_MDS_CommitRequest_finish_tick _ _ _ _ _ _ _
  | C_MDS_utime_finish req i pv mtime atime => exact C_MDS_utime_finish_finish_tick _ _ _ _ _ _ _
  | C_MDS_chmod_finish req i pv mode => exact C_MDS_chmod_finish_finish_tick _ _ _ _ _ _
  | C_MDS_chown_finish req i pv uid gid => exact C_MDS_chown_finish_finish_tick _ _ _ _ _ _ _
  | C_MDS_mknod_finish req dn newi pv => exact C_MDS_mknod_finish_finish_tick _ _ _ _ _ _
  | C_MDS_openc_finish req dn newi pv => exact C_MDS_openc_finish_finish_tick _ _ _ _ _ _ _
  | C_MDS_LinkTraverse req ref => exact handle_client_link_2_tick _ _ _ _ _ _
  | C_MDS_link_local_finish req dn targeti dpv tctime tpv =>
    exact _link_local_finish_tick _ _ _ _ _ _ _ _
  | C_MDS_unlink_local_finish req dn i ipv ictime dpv =>
    exact _unlink_local_finish_tick _ _ _ _ _ _ _ _
  | C_MDS_RenameTraverseDst req ref sdi sd srcdn destpath =>
    exact handle_client_rename_2_tick _ _ _ _ _ _ _ _

end Server

/-! ## The log only grows -/

@[simp] theorem grows_append {a l : List Effect} (m : List Effect) (h : a <+: l) :
    a <+: l ++ m := h.trans (List.prefix_append _ _)

@[simp] theorem foldl_send_dentry_unlink_grows (dn : DnPtr) (l : List Int) (s : MDS)
    (a : List Effect) (h : a <+: s.log) :
    a <+: (l.foldl (fun st m => st.emit (.send_dentry_unlink dn.dir dn.name m)) s).log := by
  induction l generalizing s with
  | nil => exact h
  | cons x l ih => exact ih _ (by simp [h])

namespace Server

@[simp] theorem _verify_rmdir_frags_grows (s : MDS) (req : MClientRequest) (ref : inodeno_t)
    (ci : CInode) (l : List frag_t) (a : List Effect) (h : a <+: s.log) :
    a <+: (_verify_rmdir_frags s req ref ci l).1.log := by
  induction l generalizing s with
  | nil => exact h
  | cons p ps ih =>
    have h1 := ih (s.get_or_open_dirfrag ci p) (by simp [h])
    unfold _verify_rmdir_frags
    try simp only []
    repeat' split
    all_goals (simp_all)

@[simp] theorem commit_request_grows (env : Env) (s : MDS) (req : MClientRequest) (reply : MClientReply) (t : Option inodeno_t) (e e2 : Option LogEvent)
    (a : List Effect) (h : a <+: s.log) :
    a <+: (commit_request env s req reply t e e2).log := by
  unfold commit_request
  try simp only []
  repeat' split
  all_goals (simp_all)

@[simp] theorem C_MDS_CommitRequest_finish_grows (env : Env) (s : MDS) (req : MClientRequest) (reply : MClientReply) (t : Option inodeno_t) (e : Option LogEvent) (r : Int)
    (a : List Effect) (h : a <+: s.log) :
    a <+: (C_MDS_CommitRequest_finish env s req reply t e r).log := by
  unfold C_MDS_CommitRequest_finish
  try simp only []
  repeat' split
  all_goals (simp_all)

@[simp] theorem handle_client_mount_grows (s : MDS) (c : Nat)
    (a : List Effect) (h : a <+: s.log) :
    a <+: (handle_client_mount s c).log := by
  unfold handle_client_mount
  try simp only []
  repeat' split
  all_goals (simp_all)

@[simp] theorem handle_client_unmount_grows (s : MDS) (c : Nat)
    (a : List Effect) (h : a <+: s.log) :
    a <+: (handle_client_unmount s c).log := by
  unfold handle_client_unmount
  try simp only []
  repeat' split
  all_goals (simp_all)

@[simp] theorem C_MDS_mount_finish_finish_grows (env : Env) (s : MDS) (c : Nat) (m : Bool) (v : version_t) (r : Int)
    (a : List Effect) (h : a <+: s.log) :
    a <+: (C_MDS_mount_finish_finish env s c m v r).log := by
  unfold C_MDS_mount_finish_finish
  try simp only []
  repeat' split
  all_goals (simp_all)

@[simp] theorem handle_client_stat_grows (env : Env) (s : MDS) (req : MClientRequest) (i : inodeno_t)
    (a : List Effect) (h : a <+: s.log) :
    a <+: (handle_client_stat env s req i).log := by
  unfold handle_client_stat
  try simp only []
  repeat' split
  all_goals (simp_all)

@[simp] theorem C_MDS_utime_finish_finish_grows (s : MDS) (req : MClientRequest) (i : inodeno_t) (pv : version_t) (mt at_ : time_t) (r : Int)
    (a : List Effect) (h : a <+: s.log) :
    a <+: (C_MDS_utime_finish_finish s req i pv mt at_ r).log := by
  unfold C_MDS_utime_finish_finish
  try simp only []
  repeat' split
  all_goals (simp_all)

@[simp] theorem handle_client_utime_grows (env : Env) (s : MDS) (req : MClientRequest) (i : inodeno_t)
    (a : List Effect) (h : a <+: s.log) :
    a <+: (handle_client_utime env s req i).log := by
  unfold handle_client_utime
  try simp only []
  repeat' split
  all_goals (simp_all)

@[simp] theorem C_MDS_chmod_finish_finish_grows (s : MDS) (req : MClientRequest) (i : inodeno_t) (pv : version_t) (m : Nat) (r : Int)
    (a : List Effect) (h : a <+: s.log) :
    a <+: (C_MDS_chmod_finish_finish s req i pv m r).log := by
  unfold C_MDS_chmod_finish_finish
  try simp only []
  repeat' split
  all_goals (simp_all)

@[simp] theorem handle_client_chmod_grows (env : Env) (s : MDS) (req : MClientRequest) (i : inodeno_t)
    (a : List Effect) (h : a <+: s.log) :
    a <+: (handle_client_chmod env s req i).log := by
  unfold handle_client_chmod
  try simp only []
  repeat' split
  all_goals (simp_all)

@[simp] theorem C_MDS_chown_finish_finish_grows (s : MDS) (req : MClientRequest) (i : inodeno_t) (pv : version_t) (u g : Int) (r : Int)
    (a : List Effect) (h : a <+: s.log) :
    a <+: (C_MDS_chown_finish_finish s req i pv u g r).log := by
  unfold C_MDS_chown_finish_finish
  try simp only []
  repeat' split
  all_goals (simp_all)

@[simp] theorem handle_client_chown_grows (env : Env) (s : MDS) (req : MClientRequest) (i : inodeno_t)
    (a : List Effect) (h : a <+: s.log) :
    a <+: (handle_client_chown env s req i).log := by
  unfold handle_client_chown
  try simp only []
  repeat' split
  all_goals (simp_all)

@[simp] theorem try_open_dir_grows (s : MDS) (i : inodeno_t) (fg : frag_t) (req : MClientRequest)
    (a : List Effect) (h : a <+: s.log) :
    a <+: (try_open_dir s i fg req).1.log := by
  unfold try_open_dir
  try simp only []
  repeat' split
  all_goals (simp_all)

@[simp] theorem try_open_auth_dir_grows (s : MDS) (i : inodeno_t) (fg : frag_t) (req : MClientRequest)
    (a : List Effect) (h : a <+: s.log) :
    a <+: (try_open_auth_dir s i fg req).1.log := by
  unfold try_open_auth_dir
  try simp only []
  repeat' split
  all_goals (simp_all)

@[simp] theorem handle_client_readdir_grows (env : Env) (s : MDS) (req : MClientRequest) (i : inodeno_t)
    (a : List Effect) (h : a <+: s.log) :
    a <+: (handle_client_readdir env s req i).log := by
  unfold handle_client_readdir
  try simp only []
  repeat' split
  all_goals (simp_all)

@[simp] theorem C_MDS_mknod_finish_finish_grows (s : MDS) (req : MClientRequest) (dn : DnPtr) (i : inodeno_t) (pv : version_t) (r : Int)
    (a : List Effect) (h : a <+: s.log) :
    a <+: (C_MDS_mknod_finish_finish s req dn i pv r).log := by
  unfold C_MDS_mknod_finish_finish
  try simp only []
  repeat' split
  all_goals (simp_all)

@[simp] theorem validate_dentry_dir_grows (env : Env) (s : MDS) (req : MClientRequest) (i : inodeno_t) (name : String)
    (a : List Effect) (h : a <+: s.log) :
    a <+: (validate_dentry_dir env s req i name).1.log := by
  unfold validate_dentry_dir
  try simp only []
  repeat' split
  all_goals (simp_all)

@[simp] theorem prepare_mknod_create_grows (env : Env) (s : MDS) (req : MClientRequest) (i : inodeno_t) (w : Bool) (dir : dirfrag_t) (d : CDir) (name : String) (hv : Bool)
    (a : List Effect) (h : a <+: s.log) :
    a <+: (prepare_mknod_create env s req i w dir d name hv).s.log := by
  unfold prepare_mknod_create
  try simp only []
  repeat' split
  all_goals (simp_all)

@[simp] theorem prepare_mknod_grows (env : Env) (s : MDS) (req : MClientRequest) (i : inodeno_t) (w ok : Bool)
    (a : List Effect) (h : a <+: s.log) :
    a <+: (prepare_mknod env s req i w ok).s.log := by
  unfold prepare_mknod
  try simp only []
  repeat' split
  all_goals (simp_all)

@[simp] theorem journal_new_inode_grows (s : MDS) (what : String) (dir : dirfrag_t) (dn : DnPtr) (i : inodeno_t) (extra : List MetaBlobItem) (fin : Context)
    (a : List Effect) (h : a <+: s.log) :
    a <+: (journal_new_inode s what dir dn i extra fin).log := by
  unfold journal_new_inode
  try simp only []
  repeat' split
  all_goals (simp_all)

@[simp] theorem handle_client_mknod_grows (env : Env) (s : MDS) (req : MClientRequest) (i : inodeno_t)
    (a : List Effect) (h : a <+: s.log) :
    a <+: (handle_client_mknod env s req i).log := by
  unfold handle_client_mknod
  try simp only []
  repeat' split
  all_goals (simp_all)

@[simp] theorem handle_client_mkdir_grows (env : Env) (s : MDS) (req : MClientRequest) (i : inodeno_t)
    (a : List Effect) (h : a <+: s.log) :
    a <+: (handle_client_mkdir env s req i).log := by
  unfold handle_client_mkdir
  try simp only []
  repeat' split
  all_goals (simp_all)

@[simp] theorem handle_client_symlink_grows (env : Env) (s : MDS) (req : MClientRequest) (i : inodeno_t)
    (a : List Effect) (h : a <+: s.log) :
    a <+: (handle_client_symlink env s req i).log := by
  unfold handle_client_symlink
  try simp only []
  repeat' split
  all_goals (simp_all)

@[simp] theorem handle_client_link_grows (env : Env) (s : MDS) (req : MClientRequest) (i : inodeno_t)
    (a : List Effect) (h : a <+: s.log) :
    a <+: (handle_client_link env s req i).log := by
  unfold handle_client_link
  try simp only []
  repeat' split
  all_goals (simp_all)

@[simp] theorem _link_local_finish_grows (s : MDS) (req : MClientRequest) (dn : DnPtr) (ti : inodeno_t) (dpv : version_t) (tc : time_t) (tpv : version_t) (r : Int)
    (a : List Effect) (h : a <+: s.log) :
    a <+: (_link_local_finish s req dn ti dpv tc tpv r).log := by
  unfold _link_local_finish
  try simp only []
  repeat' split
  all_goals (simp_all)

@[simp] theorem link_local_grows (env : Env) (s : MDS) (req : MClientRequest) (diri : inodeno_t) (dn : DnPtr) (ti : inodeno_t)
    (a : List Effect) (h : a <+: s.log) :
    a <+: (link_local env s req diri dn ti).log := by
  unfold link_local
  try simp only []
  repeat' split
  all_goals (simp_all)

@[simp] theorem link_remote_grows (s : MDS) (req : MClientRequest) (dn : DnPtr) (ti : inodeno_t)
    (a : List Effect) (h : a <+: s.log) :
    a <+: (link_remote s req dn ti).log := by
  unfold link_remote
  try simp only []
  repeat' split
  all_goals (simp_all)

@[simp] theorem handle_client_link_2_grows (env : Env) (s : MDS) (r : Int) (req : MClientRequest) (i : inodeno_t) (trace : List DnPtr)
    (a : List Effect) (h : a <+: s.log) :
    a <+: (handle_client_link_2 env s r req i trace).log := by
  unfold handle_client_link_2
  try simp only []
  repeat' split
  all_goals (simp_all)

@[simp] theorem _verify_rmdir_grows (s : MDS) (req : MClientRequest) (ref i : inodeno_t)
    (a : List Effect) (h : a <+: s.log) :
    a <+: (_verify_rmdir s req ref i).1.log := by
  unfold _verify_rmdir
  try simp only []
  repeat' split
  all_goals (simp_all)

@[simp] theorem _unlink_local_finish_grows (s : MDS) (req : MClientRequest) (dn : DnPtr) (i : inodeno_t) (ipv : version_t) (ic : time_t) (dpv : version_t) (r : Int)
    (a : List Effect) (h : a <+: s.log) :
    a <+: (_unlink_local_finish s req dn i ipv ic dpv r).log := by
  unfold _unlink_local_finish
  try simp only []
  repeat' split
  all_goals first
    | (simp_all; done)
    | (simp only [MDS.log_emit, MDS.log_dentry_xlock_finish, log_reply_request,
         MDS.log_remove_inode, List.append_assoc]
       refine grows_append _ (foldl_send_dentry_unlink_grows _ _ _ _ ?_)
       simp [h])

@[simp] theorem _unlink_local_grows (env : Env) (s : MDS) (req : MClientRequest) (dn : DnPtr) (i : inodeno_t)
    (a : List Effect) (h : a <+: s.log) :
    a <+: (_unlink_local env s req dn i).log := by
  unfold _unlink_local
  try simp only []
  repeat' split
  all_goals (simp_all)

@[simp] theorem _unlink_remote_grows (s : MDS) (req : MClientRequest) (dn : DnPtr)
    (a : List Effect) (h : a <+: s.log) :
    a <+: (_unlink_remote s req dn).log := by
  unfold _unlink_remote
  try simp only []
  repeat' split
  all_goals (simp_all)

@[simp] theorem unlink_open_remote_grows (s : MDS) (req : MClientRequest) (diri : inodeno_t) (p : DnPtr) (dn : CDentry)
    (a : List Effect) (h : a <+: s.log) :
    a <+: (unlink_open_remote s req diri p dn).1.log := by
  unfold unlink_open_remote
  try simp only []
  repeat' split
  all_goals (simp_all)

@[simp] theorem unlink_check_type_grows (s : MDS) (req : MClientRequest) (diri : inodeno_t) (rmdir : Bool) (i : inodeno_t) (ci : CInode)
    (a : List Effect) (h : a <+: s.log) :
    a <+: (unlink_check_type s req diri rmdir i ci).1.log := by
  unfold unlink_check_type
  try simp only []
  repeat' split
  all_goals (simp_all)

@[simp] theorem unlink_dentry_grows (env : Env) (s : MDS) (req : MClientRequest) (diri : inodeno_t) (p : DnPtr) (dn : CDentry) (i : inodeno_t) (ci : CInode)
    (a : List Effect) (h : a <+: s.log) :
    a <+: (unlink_dentry env s req diri p dn i ci).log := by
  unfold unlink_dentry
  try simp only []
  repeat' split
  all_goals (simp_all)

@[simp] theorem unlink_found_grows (env : Env) (s : MDS) (req : MClientRequest) (diri : inodeno_t) (p : DnPtr) (dn : CDentry)
    (a : List Effect) (h : a <+: s.log) :
    a <+: (unlink_found env s req diri p dn).log := by
  unfold unlink_found
  try simp only []
  repeat' split
  all_goals first
    | (simp_all; done)
    | (repeat (first
         | exact h
         | apply grows_append
         | apply unlink_dentry_grows
         | apply unlink_check_type_grows
         | apply unlink_open_remote_grows
         | simp only [MDS.log_emit, MDS.log_modify_dentry, MDS.log_add_dentry,
             MDS.log_remove_dentry, log_reply_request, log_reply_request_r]))

@[simp] theorem handle_client_unlink_grows (env : Env) (s : MDS) (req : MClientRequest) (i : inodeno_t)
    (a : List Effect) (h : a <+: s.log) :
    a <+: (handle_client_unlink env s req i).log := by
  unfold handle_client_unlink
  try simp only []
  repeat' split
  all_goals (simp_all)

@[simp] theorem handle_client_rename_srcdn_grows (env : Env) (s : MDS) (req : MClientRequest) (ref srcdiri : inodeno_t) (srcdirp : dirfrag_t) (srcdir : CDir) (srcname : String)
    (a : List Effect) (h : a <+: s.log) :
    a <+: (handle_client_rename_srcdn env s req ref srcdiri srcdirp srcdir srcname).log := by
  unfold handle_client_rename_srcdn
  try simp only []
  repeat' split
  all_goals (simp_all)

@[simp] theorem handle_client_rename_srcdir_grows (env : Env) (s : MDS) (req : MClientRequest) (ref : inodeno_t) (srcdiri : CInode) (srcname : String)
    (a : List Effect) (h : a <+: s.log) :
    a <+: (handle_client_rename_srcdir env s req ref srcdiri srcname).log := by
  unfold handle_client_rename_srcdir
  try simp only []
  repeat' split
  all_goals (simp_all)

@[simp] theorem handle_client_rename_grows (env : Env) (s : MDS) (req : MClientRequest) (ref : inodeno_t)
    (a : List Effect) (h : a <+: s.log) :
    a <+: (handle_client_rename env s req ref).log := by
  unfold handle_client_rename
  try simp only []
  repeat' split
  all_goals (simp_all)

@[simp] theorem rename_lock_round_grows (env : Env) (s : MDS) (req : MClientRequest) (ref : inodeno_t) (dosrc sl dl : Bool) (srcdn : DnPtr) (destdir : dirfrag_t) (destdn : Option DnPtr) (destname : String)
    (a : List Effect) (h : a <+: s.log) :
    a <+: (rename_lock_round env s req ref dosrc sl dl srcdn destdir destdn destname).1.log := by
  unfold rename_lock_round
  try simp only []
  repeat' split
  all_goals (simp_all)

@[simp] theorem handle_client_rename_local_grows (env : Env) (s : MDS) (req : MClientRequest) (ref : inodeno_t) (srcpath : String) (srcdn : DnPtr) (destpath : String) (destdir : dirfrag_t) (destdn : Option DnPtr) (destname : String)
    (a : List Effect) (h : a <+: s.log) :
    a <+: (handle_client_rename_local env s req ref srcpath srcdn destpath destdir destdn destname).log := by
  unfold handle_client_rename_local
  try simp only []
  repeat' split
  all_goals first
    | (simp_all; done)
    | (repeat (first
         | exact h
         | apply grows_append
         | apply rename_lock_round_grows
         | simp only [MDS.log_emit, MDS.log_modify_dentry, MDS.log_add_dentry,
             MDS.log_remove_dentry, log_reply_request, log_reply_request_r]))

@[simp] theorem handle_client_rename_2_dest_grows (env : Env) (s : MDS) (req : MClientRequest) (ref : inodeno_t) (srcdn : DnPtr) (srci : CInode) (destpath : filepath) (destdir : dirfrag_t) (destname : String)
    (a : List Effect) (h : a <+: s.log) :
    a <+: (handle_client_rename_2_dest env s req ref srcdn srci destpath destdir destname).log := by
  unfold handle_client_rename_2_dest
  try simp only []
  repeat' split
  all_goals (simp_all)

@[simp] theorem handle_client_rename_2_grows (env : Env) (s : MDS) (req : MClientRequest) (ref : inodeno_t) (srcdn : DnPtr) (destpath : filepath) (trace : List DnPtr) (r : Int)
    (a : List Effect) (h : a <+: s.log) :
    a <+: (handle_client_rename_2 env s req ref srcdn destpath trace r).log := by
  unfold handle_client_rename_2
  try simp only []
  repeat' split
  all_goals (simp_all)

@[simp] theorem handle_client_truncate_grows (env : Env) (s : MDS) (req : MClientRequest) (i : inodeno_t)
    (a : List Effect) (h : a <+: s.log) :
    a <+: (handle_client_truncate env s req i).log := by
  unfold handle_client_truncate
  try simp only []
  repeat' split
  all_goals (simp_all)

@[simp] theorem handle_client_open_grows (env : Env) (s : MDS) (req : MClientRequest) (i : inodeno_t)
    (a : List Effect) (h : a <+: s.log) :
    a <+: (handle_client_open env s req i).log := by
  unfold handle_client_open
  try simp only []
  repeat' split
  all_goals (simp_all)

@[simp] theorem C_MDS_openc_finish_finish_grows (env : Env) (s : MDS) (req : MClientRequest) (dn : DnPtr) (i : inodeno_t) (pv : version_t) (r : Int)
    (a : List Effect) (h : a <+: s.log) :
    a <+: (C_MDS_openc_finish_finish env s req dn i pv r).log := by
  unfold C_MDS_openc_finish_finish
  try simp only []
  repeat' split
  all_goals (simp_all)

@[simp] theorem handle_client_openc_grows (env : Env) (s : MDS) (req : MClientRequest) (i : inodeno_t)
    (a : List Effect) (h : a <+: s.log) :
    a <+: (handle_client_openc env s req i).log := by
  unfold handle_client_openc
  try simp only []
  repeat' split
  all_goals (simp_all)

@[simp] theorem dispatch_request_grows (env : Env) (s : MDS) (m : Message) (ref : inodeno_t)
    (a : List Effect) (h : a <+: s.log) :
    a <+: (dispatch_request env s m ref).log := by
  unfold dispatch_request
  try simp only []
  repeat' split
  all_goals (simp_all)

@[simp] theorem register_and_process_grows (env : Env) (s : MDS) (req : MClientRequest) (ref : inodeno_t) (trace : List DnPtr)
    (a : List Effect) (h : a <+: s.log) :
    a <+: (register_and_process env s req ref trace).log := by
  unfold register_and_process
  try simp only []
  repeat' split
  all_goals (simp_all)

@[simp] theorem handle_client_request_grows (env : Env) (s : MDS) (req : MClientRequest)
    (a : List Effect) (h : a <+: s.log) :
    a <+: (handle_client_request env s req).log := by
  unfold handle_client_request
  try simp only []
  repeat' split
  all_goals (simp_all)

@[simp] theorem dispatch_grows (env : Env) (s : MDS) (m : Message)
    (a : List Effect) (h : a <+: s.log) :
    a <+: (dispatch env s m).log := by
  unfold dispatch
  try simp only []
  repeat' split
  all_goals (simp_all)

@[simp] theorem finish_grows (env : Env) (s : MDS) (c : Context) (r : Int) (trace : List DnPtr)
    (a : List Effect) (h : a <+: s.log) :
    a <+: (finish env s c r trace).log := by
  unfold finish
  try simp only []
  repeat' split
  all_goals (simp_all)

end Server

/-! ## Inode attributes -/

namespace MDS

theorem inode_attrs_eq_find (s : MDS) (j : inodeno_t) :
    s.inode_attrs j = s.attrs.find? (fun i => i.ino == j) := by
  unfold inode_attrs get_inode attrs
  induction s.inode_map with
  | nil => rfl
  | cons a l ih =>
    simp only [List.find?_cons, List.map_cons]
    cases h : (a.inode.ino == j)
    · simpa using ih
    · rfl

@[simp] theorem attrs_emit (s : MDS) (e : Effect) : (s.emit e).attrs = s.attrs := rfl

theorem attrs_modify_inode (s : MDS) (i : inodeno_t) (f : CInode → CInode)
    (hf : ∀ c, (f c).inode = c.inode) : (s.modify_inode i f).attrs = s.attrs := by
  unfold attrs modify_inode
  simp only [List.map_map]
  apply List.map_congr_left
  intro c _
  simp only [Function.comp]
  split
  · exact hf c
  · rfl

@[simp] theorem attrs_inode_pre_dirty (s : MDS) (i : inodeno_t) :
    (s.inode_pre_dirty i).1.attrs = s.attrs := by
  unfold inode_pre_dirty
  split
  · exact attrs_modify_inode _ _ _ (fun _ => rfl)
  · rfl

@[simp] theorem dirs_inode_pre_dirty (s : MDS) (i : inodeno_t) :
    (s.inode_pre_dirty i).1.dirs = s.dirs := by
  unfold inode_pre_dirty
  split <;> rfl

@[simp] theorem dirs_emit (s : MDS) (e : Effect) : (s.emit e).dirs = s.dirs := rfl

@[simp] theorem attrs_inode_lock_start (env : Env) (s : MDS) (k : LockKind) (i : inodeno_t)
    (r : ReqId) : (s.inode_lock_start env k i r).1.attrs = s.attrs := rfl

@[simp] theorem dirs_inode_lock_start (env : Env) (s : MDS) (k : LockKind) (i : inodeno_t)
    (r : ReqId) : (s.inode_lock_start env k i r).1.dirs = s.dirs := rfl

end MDS

theorem get_inode_modify_inode (s : MDS) (i : inodeno_t) (f : CInode → CInode)
    (hf : ∀ c, (f c).inode.ino = c.inode.ino) :
    (s.modify_inode i f).get_inode i = (s.get_inode i).map f := by
  unfold MDS.modify_inode MDS.get_inode
  simp only
  induction s.inode_map with
  | nil => simp
  | cons a l ih =>
    simp only [List.map_cons, List.find?_cons]
    by_cases h : a.inode.ino = i
    · simp [h, hf]
    · have h1 : ((if (a.inode.ino == i) = true then f a else a).inode.ino == i) = false := by
        simp [h]
      have h2 : (a.inode.ino == i) = false := by simp [h]
      rw [h1, h2]
      exact ih

theorem NOT_04777_testBit (k : Nat) :
    NOT_04777.testBit k = (decide (k < 32) && !(0o4777 : Nat).testBit k) := by
  by_cases hk : k < 32
  · interval_cases k <;> rfl
  · have h1 : NOT_04777 < 2 ^ k := by
      calc NOT_04777 < 2 ^ 32 := by decide
        _ ≤ 2 ^ k := Nat.pow_le_pow_right (by decide) (by omega)
    simp [Nat.testBit_lt_two_pow h1, hk]

theorem chmod_bits (old m : Nat) (hold : old < WORD) (k : Nat) :
    ((old &&& NOT_04777) ||| (m &&& 0o4777)).testBit k =
      if (0o4777 : Nat).testBit k then m.testBit k else old.testBit k := by
  rw [Nat.testBit_lor, Nat.testBit_land, Nat.testBit_land, NOT_04777_testBit]
  by_cases hk : k < 32
  · cases h : (0o4777 : Nat).testBit k <;> simp [hk]
  · have h1 : old < 2 ^ k := by
      calc old < 2 ^ 32 := hold
        _ ≤ 2 ^ k := Nat.pow_le_pow_right (by decide) (by omega)
    have h2 : (0o4777 : Nat) < 2 ^ k := by
      calc (0o4777 : Nat) < 2 ^ 32 := by decide
        _ ≤ 2 ^ k := Nat.pow_le_pow_right (by decide) (by omega)
    simp [Nat.testBit_lt_two_pow h1, Nat.testBit_lt_two_pow h2, hk]

theorem chmod_idem (old m : Nat) :
    ((((old &&& NOT_04777) ||| (m &&& 0o4777)) &&& NOT_04777) ||| (m &&& 0o4777)) =
      ((old &&& NOT_04777) ||| (m &&& 0o4777)) := by
  apply Nat.eq_of_testBit_eq
  intro k
  simp only [Nat.testBit_lor, Nat.testBit_land]
  cases old.testBit k <;> cases NOT_04777.testBit k <;> cases m.testBit k <;>
    cases (0o4777 : Nat).testBit k <;> rfl

theorem get_inode_of_inode_map {s t : MDS} (h : t.inode_map = s.inode_map) (i : inodeno_t) :
    t.get_inode i = s.get_inode i := by
  unfold MDS.get_inode; rw [h]

theorem type_mask_disjoint (k : Nat) (h : INODE_TYPE_MASK.testBit k = true) :
    (0o4777 : Nat).testBit k = false := by
  by_cases hk : k < 32
  · interval_cases k <;> first | rfl | (exfalso; revert h; decide)
  · have h2 : (0o4777 : Nat) < 2 ^ k := by
      calc (0o4777 : Nat) < 2 ^ 32 := by decide
        _ ≤ 2 ^ k := Nat.pow_le_pow_right (by decide) (by omega)
    exact Nat.testBit_lt_two_pow h2

/-! ## Apply after journal sync -/

/-- The part of the utime, chmod and chown handlers that runs before the journal sync
changes no attribute of any cached inode and no dirfrag: the change is applied by the
finisher only. -/
theorem attribute_handlers_apply_nothing (env : Env) (s : MDS) (req : MClientRequest)
    (cur : inodeno_t) :
    ((Server.handle_client_utime env s req cur).attrs = s.attrs ∧
      (Server.handle_client_utime env s req cur).dirs = s.dirs) ∧
    ((Server.handle_client_chmod env s req cur).attrs = s.attrs ∧
      (Server.handle_client_chmod env s req cur).dirs = s.dirs) ∧
    ((Server.handle_client_chown env s req cur).attrs = s.attrs ∧
      (Server.handle_client_chown env s req cur).dirs = s.dirs) := by
  refine ⟨?_, ?_, ?_⟩
  · unfold Server.handle_client_utime
    simp only []
    repeat' split
    all_goals (constructor <;> simp)
  · unfold Server.handle_client_chmod
    simp only []
    repeat' split
    all_goals (constructor <;> simp)
  · unfold Server.handle_client_chown
    simp only []
    repeat' split
    all_goals (constructor <;> simp)

/-- Whenever the file write lock is granted, `handle_client_truncate` itself stores the new
size in the cached inode, before the journal entry it submits can have been synced. -/
theorem handle_client_truncate_sets_size (env : Env) (s : MDS) (req : MClientRequest)
    (cur : inodeno_t) (ci : CInode)
    (hgrant : env.lock_start s .inode_file_write cur none req.id = true)
    (hget : s.get_inode cur = some ci) :
    ((Server.handle_client_truncate env s req cur).inode_attrs cur).map (fun i => i.size) =
      some req.args.length := by
  have hmap : (Server.handle_client_truncate env s req cur).inode_map =
      ((s.modify_inode cur (fun c =>
        { c with inode := { c.inode with size := req.args.length } })).inode__mark_dirty
          cur).inode_map := by
    unfold Server.handle_client_truncate Server.commit_request
    simp only [MDS.inode_lock_start, hgrant, Bool.not_true, Bool.false_eq_true, ↓reduceIte]
    split <;> rfl
  unfold MDS.inode_attrs
  rw [get_inode_of_inode_map hmap]
  unfold MDS.inode__mark_dirty
  rw [get_inode_modify_inode, get_inode_modify_inode, hget]
  · rfl
  · intro c; rfl
  · intro c; rfl

/-- C1 (code defect, evaluated): `handle_client_truncate` on the file of size 10 with
requested length 5.  When the handler returns, the journal sync is still pending (the last
call is `wait_for_sync`), the only entry submitted is the placeholder string, and the
in-memory size is already 5: the size is applied before the sync, not in a finisher. -/
theorem truncate_applies_size_before_sync :
    (Sample.mds0.inode_attrs 42).map (fun i => i.size) = some 10 ∧
    ((Server.handle_client_truncate Sample.env Sample.mds0
        (Sample.req .TRUNCATE [] { ino := 42, length := 5 }) 42).inode_attrs 42).map
          (fun i => i.size) = some 5 ∧
    (Server.handle_client_truncate Sample.env Sample.mds0
        (Sample.req .TRUNCATE [] { ino := 42, length := 5 }) 42).log =
      [.lock_start .inode_file_write 42 none 7 true,
       .lock_finish .inode_file_write 42 none,
       .hit_inode 42 .META_POP_IWR,
       .submit_entry (.EString "truncate fixme") none,
       .request_pin_inode 7 42,
       .wait_for_sync (.C_MDS_CommitRequest (Sample.req .TRUNCATE [] { ino := 42, length := 5 })
         { req := 7, result := 0 } (some 42) none)] := by
  decide

/-! ## Replies and forwards -/

/-- Every invocation of an entry point adds at most one reply or forward to the log. -/
theorem Server.Entry.run_tick (env : Env) (s : MDS) (e : Server.Entry) :
    Server.Tick s (e.run env s) := by
  cases e with
  | dispatch m => exact Server.dispatch_tick _ _ _
  | handle_client_request req => exact Server.handle_client_request_tick _ _ _
  | dispatch_request m ref => exact Server.dispatch_request_tick _ _ _ _
  | finish c r trace => exact Server.finish_tick _ _ _ _ _

/-- C2: a single invocation of `dispatch`, `handle_client_request`, `dispatch_request` or of
any continuation sends at most one client reply, on every execution path and whatever the
collaborators answer.  For the `commit_request` chain: committing with a journal event and
then, in safe mode, running the `C_MDS_CommitRequest` continuation it registered sends
exactly one reply in total. -/
theorem at_most_one_reply (env : Env) (s : MDS) :
    (∀ e : Server.Entry, (e.run env s).nreplies ≤ s.nreplies + 1) ∧
    (∀ (req : MClientRequest) (reply : MClientReply) (tracei : Option inodeno_t)
        (event : LogEvent),
      (if env.mds_log_before_reply && env.mds_log then
          (Server.finish env (Server.commit_request env s req reply tracei (some event) none)
            (.C_MDS_CommitRequest req reply tracei none) 0 []).nreplies
        else (Server.commit_request env s req reply tracei (some event) none).nreplies) =
        s.nreplies + 1) := by
  constructor
  · intro e
    have h := Server.Entry.run_tick env s e
    unfold Server.Tick at h
    omega
  · intro req reply tracei event
    unfold Server.finish Server.C_MDS_CommitRequest_finish Server.commit_request
    simp only [MDS.nreplies]
    cases h : (env.mds_log_before_reply && env.mds_log) <;> cases tracei <;>
      simp [h, Effect.is_reply]

/-- C3: if an invocation of an entry point hands the request to another peer (round-robin
pass, `request_forward` in `try_open_auth_dir`, open or rename, or a forwarding traversal),
it sends no client reply. -/
theorem forwarded_not_replied (env : Env) (s : MDS) (e : Server.Entry)
    (h : s.nforwards < (e.run env s).nforwards) : (e.run env s).nreplies = s.nreplies := by
  have h1 := Server.Entry.run_tick env s e
  unfold Server.Tick at h1
  omega

/-- Witness for C3: FSYNC on ino 43, which MDS0 does not cache, is passed on and not
replied to. -/
theorem forwarded_not_replied_witness :
    Sample.mds0.nforwards <
        ((Server.Entry.handle_client_request (Sample.req .FSYNC [] { ino := 43 })).run
          Sample.env Sample.mds0).nforwards ∧
      ((Server.Entry.handle_client_request (Sample.req .FSYNC [] { ino := 43 })).run
          Sample.env Sample.mds0).nreplies = Sample.mds0.nreplies :=
  ⟨by decide,
   forwarded_not_replied Sample.env Sample.mds0
     (.handle_client_request (Sample.req .FSYNC [] { ino := 43 })) (by decide)⟩

/-! ## Dispatch -/

/-- C4 (counterexample): on the active server `dispatch` of an inter-MDS lock message calls
no handler and aborts. -/
theorem dispatch_lock_message_aborts :
    Sample.mds0.active = true ∧
      (Server.dispatch Sample.env Sample.mds0 (.mds_lock ⟨⟨1, 0⟩, "a"⟩)).log =
        [Effect.abort] := by
  decide

/-- C4 (amended): when the server is active, `dispatch` routes client mount, client unmount
and client request to their handlers and aborts for every other message type, the inter-MDS
lock message included.  The lock message is routed to the lock handler by
`dispatch_request`, which aborts for every type other than client request and lock
message. -/
theorem dispatch_routes (env : Env) (s : MDS) (hact : s.active = true) :
    (∀ c, Server.dispatch env s (.client_mount c) = Server.handle_client_mount s c) ∧
    (∀ c, Server.dispatch env s (.client_unmount c) = Server.handle_client_unmount s c) ∧
    (∀ req, Server.dispatch env s (.client_request req) =
      Server.handle_client_request env s req) ∧
    (∀ dn, Server.dispatch env s (.mds_lock dn) = s.emit .abort) ∧
    (∀ ty, Server.dispatch env s (.other ty) = s.emit .abort) ∧
    (∀ dn ref, Server.dispatch_request env s (.mds_lock dn) ref =
      s.emit (.handle_lock_dn dn)) ∧
    (∀ ref c, Server.dispatch_request env s (.client_mount c) ref = s.emit .abort) ∧
    (∀ ref c, Server.dispatch_request env s (.client_unmount c) ref = s.emit .abort) ∧
    (∀ ref ty, Server.dispatch_request env s (.other ty) ref = s.emit .abort) := by
  refine ⟨?_, ?_, ?_, ?_, ?_, ?_, ?_, ?_, ?_⟩ <;> intros <;>
    simp [Server.dispatch, Server.dispatch_request, hact]

/-- Witness for C4 (amended): MDS0 is active and routes a mount message to the mount
handler. -/
theorem dispatch_routes_witness :
    Sample.mds0.active = true ∧
      Server.dispatch Sample.env Sample.mds0 (.client_mount 3) =
        Server.handle_client_mount Sample.mds0 3 :=
  ⟨by decide, (dispatch_routes Sample.env Sample.mds0 (by decide)).1 3⟩

/-- C5 (code defect, evaluated): inode 42 is cached on MDS0; `handle_client_request` admits
an FSYNC (and a RELEASE) on it, enters it in the request table and passes it to
`dispatch_request`, which has no case for the op and aborts. -/
theorem fsync_on_cached_inode_aborts :
    Sample.mds0.get_inode 42 = some Sample.file_inode ∧
    (Server.handle_client_request Sample.env Sample.mds0
        (Sample.req .FSYNC [] { ino := 42 })).log =
      [.request_start 7 42 [] true, .abort] ∧
    (Server.handle_client_request Sample.env Sample.mds0
        (Sample.req .RELEASE [] { ino := 42 })).log =
      [.request_start 7 42 [] true, .abort] := by
  decide

/-! ## Request admission -/

/-- The ops the claim calls ino-bearing are the ops of the first `switch`. -/
theorem is_fh_op_of_ino_bearing (req : MClientRequest)
    (hop : (req.op = .TRUNCATE ∧ req.args.ino ≠ 0) ∨ req.op = .RELEASE ∨ req.op = .FSYNC) :
    Server.is_fh_op req = true := by
  unfold Server.is_fh_op
  rcases hop with ⟨h, hi⟩ | h | h <;> simp [h]
  exact hi

/-- C6: on an active server with its root open, with id `i` in a cluster of `n` peers,
`0 ≤ i < n`, an ino-bearing request (TRUNCATE with a non-zero ino, RELEASE, FSYNC) whose
inode is not cached is passed to peer `(i + 1) mod n`, a valid peer index, and nothing else
happens: no reply is sent and the request table is unchanged. -/
theorem round_robin_forward (env : Env) (s : MDS) (req : MClientRequest)
    (hact : s.active = true) (hroot : s.root.isSome = true)
    (hop : (req.op = .TRUNCATE ∧ req.args.ino ≠ 0) ∨ req.op = .RELEASE ∨ req.op = .FSYNC)
    (hmiss : s.get_inode req.args.ino = none) (h0 : 0 ≤ s.whoami) (hn : s.whoami < s.num_mds) :
    Server.handle_client_request env s req =
        s.emit (.send_message_mds req.id ((s.whoami + 1) % s.num_mds)) ∧
      0 ≤ (s.whoami + 1) % s.num_mds ∧ (s.whoami + 1) % s.num_mds < s.num_mds ∧
      (Server.handle_client_request env s req).nreplies = s.nreplies ∧
      (Server.handle_client_request env s req).active_requests = s.active_requests := by
  have hfh := is_fh_op_of_ino_bearing req hop
  have hnext : (if s.whoami + 1 ≥ s.num_mds then 0 else s.whoami + 1) =
      (s.whoami + 1) % s.num_mds := by
    split
    · have : s.whoami + 1 = s.num_mds := by omega
      rw [this, Int.emod_self]
    · rw [Int.emod_eq_of_lt (by omega) (by omega)]
  have hrun : Server.handle_client_request env s req =
      s.emit (.send_message_mds req.id ((s.whoami + 1) % s.num_mds)) := by
    unfold Server.handle_client_request
    have hr : s.root.isNone = false := by
      cases h : s.root <;> simp_all
    simp only [hact, hr, hfh, hmiss, hnext]
    rfl
  refine ⟨hrun, Int.emod_nonneg _ (by omega), Int.emod_lt_of_pos _ (by omega), ?_, ?_⟩
  · rw [hrun]; simp [MDS.nreplies, Effect.is_reply]
  · rw [hrun]; rfl

/-- Witness for C6: MDS0 of two, FSYNC on the uncached ino 43, goes to MDS1. -/
theorem round_robin_forward_witness :
    Sample.mds0.get_inode 43 = none ∧
      Server.handle_client_request Sample.env Sample.mds0 (Sample.req .FSYNC [] { ino := 43 }) =
        Sample.mds0.emit (.send_message_mds 7 1) :=
  ⟨by decide,
   (round_robin_forward Sample.env Sample.mds0 (Sample.req .FSYNC [] { ino := 43 })
      (by decide) (by decide) (by decide) (by decide) (by decide) (by decide)).1⟩

/-- For a request that is not on a file handle, `handle_client_request` first of all calls
`path_traverse` on `refpath req` with the flag `follow_trailing_symlink req`. -/
theorem handle_client_request_traversal (env : Env) (s : MDS) (req : MClientRequest)
    (hact : s.active = true) (hroot : s.root.isSome = true)
    (hpath : Server.is_fh_op req = false) :
    (s.log ++ [Effect.path_traverse (Server.refpath req) (Server.follow_trailing_symlink req)
        false req.id (.C_MDS_RetryMessage (.client_request req)) none
        (env.path_traverse s (Server.refpath req) (Server.follow_trailing_symlink req) false
          req.id).r]) <+: (Server.handle_client_request env s req).log := by
  have hr : s.root.isNone = false := by
    cases h : s.root <;> simp_all
  unfold Server.handle_client_request
  simp only [hact, hr, hpath]
  simp only [Bool.not_true, Bool.false_eq_true, ↓reduceIte]
  split
  · exact List.prefix_rfl
  · split
    · simp
    · split
      · simp
      · exact Server.register_and_process_grows _ _ _ _ _ _ List.prefix_rfl

/-- Dropping the last component: `prefixpath(depth() - 1)`. -/
theorem prefixpath_depth_pred (p : filepath) :
    p.prefixpath (p.depth - 1) = ⟨p.bits.dropLast⟩ := by
  unfold filepath.prefixpath filepath.depth
  congr 1
  rw [List.dropLast_eq_take]
  congr 1
  omega

/-- C7: for a path-bearing request on an active server with its root open, the first call
of `handle_client_request` is the traversal of `refpath req`; that path is the full request
filepath for the read ops STAT, LSTAT, READDIR and OPEN without O_CREAT, and the filepath
without its last component for MKNOD, MKDIR, SYMLINK, LINK, UNLINK, RMDIR, RENAME and OPEN
with O_CREAT. -/
theorem resolution_path (env : Env) (s : MDS) (req : MClientRequest)
    (hact : s.active = true) (hroot : s.root.isSome = true)
    (hpath : Server.is_fh_op req = false) :
    (∃ rest, (Server.handle_client_request env s req).log =
      s.log ++ Effect.path_traverse (Server.refpath req) (Server.follow_trailing_symlink req)
        false req.id (.C_MDS_RetryMessage (.client_request req)) none
        (env.path_traverse s (Server.refpath req) (Server.follow_trailing_symlink req) false
          req.id).r :: rest) ∧
    ((req.op = .STAT ∨ req.op = .LSTAT ∨ req.op = .READDIR ∨
        (req.op = .OPEN ∧ req.args.flags &&& O_CREAT = 0)) →
      Server.refpath req = req.filepath) ∧
    ((req.op = .MKNOD ∨ req.op = .MKDIR ∨ req.op = .SYMLINK ∨ req.op = .LINK ∨
        req.op = .UNLINK ∨ req.op = .RMDIR ∨ req.op = .RENAME ∨
        (req.op = .OPEN ∧ req.args.flags &&& O_CREAT ≠ 0)) →
      Server.refpath req = ⟨req.filepath.bits.dropLast⟩) := by
  refine ⟨?_, ?_, ?_⟩
  · obtain ⟨rest, h⟩ := handle_client_request_traversal env s req hact hroot hpath
    exact ⟨rest, by rw [← h]; simp⟩
  · intro h
    unfold Server.refpath
    rcases h with h | h | h | ⟨h, hf⟩ <;> simp [h]
    intro hc; exact absurd hf hc
  · intro h
    unfold Server.refpath
    rcases h with h | h | h | h | h | h | h | ⟨h, hf⟩ <;> simp [h, prefixpath_depth_pred]
    intro hc; exact absurd hc hf

/-- Witness for C7: MKNOD of `a/b` on MDS0 traverses `a`. -/
theorem resolution_path_witness :
    ∃ rest, (Server.handle_client_request Sample.env Sample.mds0
        (Sample.req .MKNOD ["a", "b"] { mode := 0o644 })).log =
      Sample.mds0.log ++ Effect.path_traverse ⟨["a"]⟩ false false 7
        (.C_MDS_RetryMessage (.client_request (Sample.req .MKNOD ["a", "b"] { mode := 0o644 })))
        none 0 :: rest :=
  (resolution_path Sample.env Sample.mds0 (Sample.req .MKNOD ["a", "b"] { mode := 0o644 })
    (by decide) (by decide) (by decide)).1

/-- C8 (code defect, evaluated): the flag `handle_client_request` passes to `path_traverse`
is false for every request, not only for LSTAT; a STAT of `a` is traversed with
follow-trailing-symlink false. -/
theorem stat_does_not_follow_trailing_symlink :
    (∀ req : MClientRequest, Server.follow_trailing_symlink req = false) ∧
    (Server.handle_client_request (Sample.env_traverse 1) Sample.mds0
        (Sample.req .STAT ["a"] {})).log =
      [.path_traverse ⟨["a"]⟩ false false 7
        (.C_MDS_RetryMessage (.client_request (Sample.req .STAT ["a"] {}))) none 1] := by
  constructor
  · intro req; unfold Server.follow_trailing_symlink; simp
  · decide

/-- C9: for a path-bearing request on an active server with its root open, let `r` be what
the traversal returns.  If `r` is -ENOENT, -ENOTDIR or -EISDIR the handler does exactly
this after the traversal: send one reply with result `r`, delete the request; the request
table is untouched (no `request_start`, no `dispatch_request`).  If `r` is positive the
handler returns right after the traversal: no reply, request table untouched. -/
theorem traverse_error_or_delay (env : Env) (s : MDS) (req : MClientRequest)
    (hact : s.active = true) (hroot : s.root.isSome = true)
    (hpath : Server.is_fh_op req = false) (r : Int)
    (hr : (env.path_traverse s (Server.refpath req) (Server.follow_trailing_symlink req) false
      req.id).r = r) :
    ((r = -ENOENT ∨ r = -ENOTDIR ∨ r = -EISDIR) →
      Server.handle_client_request env s req =
        ((s.emit (.path_traverse (Server.refpath req) (Server.follow_trailing_symlink req)
            false req.id (.C_MDS_RetryMessage (.client_request req)) none r)).emit
          (.send_reply { req := req.id, result := r } req.client)).emit (.delete_req req.id) ∧
      (Server.handle_client_request env s req).nreplies = s.nreplies + 1 ∧
      (Server.handle_client_request env s req).active_requests = s.active_requests) ∧
    (0 < r →
      Server.handle_client_request env s req =
        s.emit (.path_traverse (Server.refpath req) (Server.follow_trailing_symlink req)
            false req.id (.C_MDS_RetryMessage (.client_request req)) none r) ∧
      (Server.handle_client_request env s req).nreplies = s.nreplies ∧
      (Server.handle_client_request env s req).active_requests = s.active_requests) := by
  have hrn : s.root.isNone = false := by
    cases h : s.root <;> simp_all
  constructor
  · intro herr
    have hrun : Server.handle_client_request env s req =
        ((s.emit (.path_traverse (Server.refpath req) (Server.follow_trailing_symlink req)
            false req.id (.C_MDS_RetryMessage (.client_request req)) none r)).emit
          (.send_reply { req := req.id, result := r } req.client)).emit
            (.delete_req req.id) := by
      unfold Server.handle_client_request
      simp only [hact, hrn, hpath, hr]
      have hnp : ¬ (r > 0) := by
        rcases herr with h | h | h <;> rw [h] <;> decide
      have he : (r == -ENOENT || r == -ENOTDIR || r == -EISDIR) = true := by
        rcases herr with h | h | h <;> simp [h]
      simp [hnp, he]
    refine ⟨hrun, ?_, ?_⟩
    · rw [hrun]; simp [MDS.nreplies, Effect.is_reply]
    · rw [hrun]; rfl
  · intro hpos
    have hrun : Server.handle_client_request env s req =
        s.emit (.path_traverse (Server.refpath req) (Server.follow_trailing_symlink req)
            false req.id (.C_MDS_RetryMessage (.client_request req)) none r) := by
      unfold Server.handle_client_request
      simp only [hact, hrn, hpath, hr]
      simp [hpos]
    refine ⟨hrun, ?_, ?_⟩
    · rw [hrun]; simp [MDS.nreplies, Effect.is_reply]
    · rw [hrun]; rfl

/-- Witness for C9: a STAT of a missing name, the traversal returning -ENOENT. -/
theorem traverse_error_or_delay_witness :
    Server.handle_client_request (Sample.env_traverse (-ENOENT)) Sample.mds0
        (Sample.req .STAT ["nope"] {}) =
      ((Sample.mds0.emit (.path_traverse ⟨["nope"]⟩ false false 7
          (.C_MDS_RetryMessage (.client_request (Sample.req .STAT ["nope"] {}))) none
          (-ENOENT))).emit
        (.send_reply { req := 7, result := -ENOENT } 3)).emit (.delete_req 7) :=
  ((traverse_error_or_delay (Sample.env_traverse (-ENOENT)) Sample.mds0
    (Sample.req .STAT ["nope"] {}) (by decide) (by decide) (by decide) (-ENOENT) (by decide)).1
      (Or.inl rfl)).1

/-! ## chmod -/

/-- The chmod finisher, run with `r = 0`, as a map on the cached inode. -/
theorem chmod_finish_get_inode (s : MDS) (req : MClientRequest) (i : inodeno_t)
    (pv : version_t) (m : Nat) :
    (Server.C_MDS_chmod_finish_finish s req i pv m 0).get_inode i =
      (s.get_inode i).map (fun c =>
        { c with inode := { c.inode with
            mode := (c.inode.mode &&& NOT_04777) ||| (m &&& 0o4777), version := pv },
                 dirty := true }) := by
  have h : (Server.C_MDS_chmod_finish_finish s req i pv m 0).inode_map =
      ((s.modify_inode i (fun c => { c with inode := { c.inode with
          mode := (c.inode.mode &&& NOT_04777) ||| (m &&& 0o4777) } })).inode_mark_dirty i
            pv).inode_map := rfl
  rw [get_inode_of_inode_map h]
  unfold MDS.inode_mark_dirty
  rw [get_inode_modify_inode, get_inode_modify_inode]
  · cases s.get_inode i <;> rfl
  · intro c; rfl
  · intro c; rfl

/-- C10: after the chmod finisher runs with requested mode `m` on a cached inode whose mode
`old` is a 32-bit word, the mode is `(old AND NOT 04777) OR (m AND 04777)`: bit by bit, the
bits of the mask 04777 are those of `m` and all other bits are those of `old`; in
particular the file-type bits are unchanged; and running the finisher a second time leaves
the same mode. -/
theorem chmod_finish_mode (s : MDS) (req : MClientRequest) (i : inodeno_t) (pv : version_t)
    (m : Nat) (ci : CInode) (hget : s.get_inode i = some ci) (hold : ci.inode.mode < WORD) :
    ∃ c1 c2 : CInode,
      (Server.C_MDS_chmod_finish_finish s req i pv m 0).get_inode i = some c1 ∧
      c1.inode.mode = (ci.inode.mode &&& NOT_04777) ||| (m &&& 0o4777) ∧
      (∀ k, c1.inode.mode.testBit k =
        if (0o4777 : Nat).testBit k then m.testBit k else ci.inode.mode.testBit k) ∧
      c1.inode.mode &&& INODE_TYPE_MASK = ci.inode.mode &&& INODE_TYPE_MASK ∧
      (Server.C_MDS_chmod_finish_finish (Server.C_MDS_chmod_finish_finish s req i pv m 0) req i
        pv m 0).get_inode i = some c2 ∧
      c2.inode.mode = c1.inode.mode := by
  refine ⟨{ ci with inode := { ci.inode with
      mode := (ci.inode.mode &&& NOT_04777) ||| (m &&& 0o4777), version := pv }, dirty := true },
    { ci with inode := { ci.inode with
      mode := ((((ci.inode.mode &&& NOT_04777) ||| (m &&& 0o4777)) &&& NOT_04777) |||
        (m &&& 0o4777)), version := pv }, dirty := true }, ?_, rfl, ?_, ?_, ?_, ?_⟩
  · rw [chmod_finish_get_inode, hget]; rfl
  · intro k; exact chmod_bits _ _ hold k
  · apply Nat.eq_of_testBit_eq
    intro k
    simp only [Nat.testBit_land]
    cases h : INODE_TYPE_MASK.testBit k
    · simp
    · have := chmod_bits ci.inode.mode m hold k
      rw [type_mask_disjoint k h] at this
      simp at this
      simp [this]
  · rw [chmod_finish_get_inode, chmod_finish_get_inode, hget]; rfl
  · exact chmod_idem _ _

/-- Witness for C10: chmod 0600 on the regular file 0100644 of MDS0 gives 0100600. -/
theorem chmod_finish_mode_witness :
    (Sample.mds0.get_inode 42 = some Sample.file_inode ∧ Sample.file_inode.inode.mode < WORD) ∧
    ∃ c1 c2 : CInode,
      (Server.C_MDS_chmod_finish_finish Sample.mds0 (Sample.req .CHMOD ["a"] { mode := 0o600 })
        42 1 0o600 0).get_inode 42 = some c1 ∧
      c1.inode.mode = (Sample.file_inode.inode.mode &&& NOT_04777) ||| (0o600 &&& 0o4777) ∧
      (∀ k, c1.inode.mode.testBit k =
        if (0o4777 : Nat).testBit k then (0o600 : Nat).testBit k
        else Sample.file_inode.inode.mode.testBit k) ∧
      c1.inode.mode &&& INODE_TYPE_MASK = Sample.file_inode.inode.mode &&& INODE_TYPE_MASK ∧
      (Server.C_MDS_chmod_finish_finish
        (Server.C_MDS_chmod_finish_finish Sample.mds0
          (Sample.req .CHMOD ["a"] { mode := 0o600 }) 42 1 0o600 0)
        (Sample.req .CHMOD ["a"] { mode := 0o600 }) 42 1 0o600 0).get_inode 42 = some c2 ∧
      c2.inode.mode = c1.inode.mode :=
  ⟨⟨by decide, by decide⟩,
   chmod_finish_mode Sample.mds0 (Sample.req .CHMOD ["a"] { mode := 0o600 }) 42 1 0o600
     Sample.file_inode (by decide) (by decide)⟩

/-! ## Cache lookups through the primitives -/

namespace MDS

@[simp] theorem get_inode_emit (s : MDS) (e : Effect) (i : inodeno_t) :
    (s.emit e).get_inode i = s.get_inode i := rfl
@[simp] theorem get_dirfrag_emit (s : MDS) (e : Effect) (df : dirfrag_t) :
    (s.emit e).get_dirfrag df = s.get_dirfrag df := rfl
@[simp] theorem get_dentry_emit (s : MDS) (e : Effect) (p : DnPtr) :
    (s.emit e).get_dentry p = s.get_dentry p := rfl
@[simp] theorem get_inode_modify_dir (s : MDS) (df : dirfrag_t) (f : CDir → CDir)
    (i : inodeno_t) : (s.modify_dir df f).get_inode i = s.get_inode i := rfl
@[simp] theorem get_inode_modify_dentry (s : MDS) (p : DnPtr) (f : CDentry → CDentry)
    (i : inodeno_t) : (s.modify_dentry p f).get_inode i = s.get_inode i := rfl
@[simp] theorem get_dirfrag_modify_inode (s : MDS) (i : inodeno_t) (f : CInode → CInode)
    (df : dirfrag_t) : (s.modify_inode i f).get_dirfrag df = s.get_dirfrag df := rfl
@[simp] theorem get_dentry_modify_inode (s : MDS) (i : inodeno_t) (f : CInode → CInode)
    (p : DnPtr) : (s.modify_inode i f).get_dentry p = s.get_dentry p := rfl
@[simp] theorem get_inode_request_finish (s : MDS) (r : ReqId) (i : inodeno_t) :
    (s.request_finish r).get_inode i = s.get_inode i := rfl

theorem find?_map_same {α : Type} (l : List α) (g : α → α) (p : α → Bool)
    (h : ∀ x, p (g x) = p x) : (l.map g).find? p = (l.find? p).map g := by
  rw [List.find?_map]
  have : p ∘ g = p := funext h
  rw [this]

/-- A lookup after `modify_inode`: the entry found before, changed if it is the one
modified. -/
theorem get_inode_modify_inode_of (s : MDS) (i j : inodeno_t) (f : CInode → CInode)
    (hf : ∀ c, (f c).inode.ino = c.inode.ino) :
    (s.modify_inode i f).get_inode j =
      (s.get_inode j).map (fun c => if c.inode.ino == i then f c else c) := by
  unfold modify_inode get_inode
  apply find?_map_same
  intro x
  split <;> simp [hf]

theorem get_inode_ino (s : MDS) (j : inodeno_t) (c : CInode) (h : s.get_inode j = some c) :
    c.inode.ino = j := by
  unfold get_inode at h
  have := List.find?_some h
  simpa using this

theorem get_inode_modify_inode_ne (s : MDS) (i j : inodeno_t) (f : CInode → CInode)
    (hf : ∀ c, (f c).inode.ino = c.inode.ino) (hij : j ≠ i) :
    (s.modify_inode i f).get_inode j = s.get_inode j := by
  rw [get_inode_modify_inode_of s i j f hf]
  cases h : s.get_inode j with
  | none => rfl
  | some c =>
    have := get_inode_ino s j c h
    simp [this, hij]

/-- A lookup after `modify_dir`. -/
theorem get_dirfrag_modify_dir (s : MDS) (df df2 : dirfrag_t) (f : CDir → CDir)
    (hf : ∀ d, (f d).dirfrag = d.dirfrag) :
    (s.modify_dir df f).get_dirfrag df2 =
      (s.get_dirfrag df2).map (fun d => if d.dirfrag == df then f d else d) := by
  unfold modify_dir get_dirfrag
  apply find?_map_same
  intro x
  split <;> simp [hf]

theorem get_dirfrag_dirfrag (s : MDS) (df : dirfrag_t) (d : CDir)
    (h : s.get_dirfrag df = some d) : d.dirfrag = df := by
  unfold get_dirfrag at h
  have := List.find?_some h
  simpa using this

theorem lookup_name (d : CDir) (n : String) (dn : CDentry) (h : d.lookup n = some dn) :
    dn.name = n := by
  unfold CDir.lookup at h
  have := List.find?_some h
  simpa using this

theorem get_dentry_name (s : MDS) (p : DnPtr) (dn : CDentry) (h : s.get_dentry p = some dn) :
    dn.name = p.name := by
  unfold get_dentry at h
  cases hd : s.get_dirfrag p.dir with
  | none => simp [hd] at h
  | some d =>
    simp [hd] at h
    exact lookup_name d _ _ h

/-- A dentry lookup after `modify_dentry`: the dentry found before, changed if it is the one
modified. -/
theorem get_dentry_modify_dentry (s : MDS) (p q : DnPtr) (f : CDentry → CDentry)
    (hf : ∀ d, (f d).name = d.name) :
    (s.modify_dentry p f).get_dentry q =
      (s.get_dentry q).map (fun d => if q = p then f d else d) := by
  unfold modify_dentry get_dentry
  rw [get_dirfrag_modify_dir]
  swap
  · intro d; rfl
  cases hd : s.get_dirfrag q.dir with
  | none => rfl
  | some d =>
    have hdf := get_dirfrag_dirfrag s _ _ hd
    simp only [Option.map_some', Option.bind_some, hdf]
    by_cases hdir : q.dir = p.dir
    · simp only [hdir, beq_self_eq_true, ↓reduceIte]
      unfold CDir.lookup
      simp only [Option.some_bind]
      rw [find?_map_same d.items (fun dn => if (dn.name == p.name) = true then f dn else dn)
        (fun dn => dn.name == q.name) (by intro x; simp only []; split <;> simp [hf])]
      cases hl : d.items.find? (fun dn => dn.name == q.name) with
      | none => rfl
      | some dn =>
        have hn : dn.name = q.name := by
          have := List.find?_some hl
          simpa using this
        simp only [Option.map_some', hn]
        by_cases hname : q.name = p.name
        · have : q = p := by
            cases q; cases p
            simp only [DnPtr.mk.injEq]
            exact ⟨hdir, hname⟩
          subst this
          simp
        · have : q ≠ p := by intro h; exact hname (by rw [h])
          simp [this, hname]
    · have : q ≠ p := by intro h; exact hdir (by rw [h])
      have hb : (q.dir == p.dir) = false := by simpa using hdir
      simp only [hb, Bool.false_eq_true, ↓reduceIte, this]
      simp

theorem get_dentry_modify_dentry_self (s : MDS) (p : DnPtr) (f : CDentry → CDentry)
    (hf : ∀ d, (f d).name = d.name) :
    (s.modify_dentry p f).get_dentry p = (s.get_dentry p).map f := by
  rw [get_dentry_modify_dentry s p p f hf]
  simp

end MDS

namespace MDS

/-- Finishing a request releases xlocks but leaves every dirfrag with the same names. -/
@[simp] theorem dentry_names_request_finish (s : MDS) (r : ReqId) (df : dirfrag_t) :
    (s.request_finish r).dentry_names df = s.dentry_names df := by
  unfold dentry_names request_finish get_dirfrag
  simp only [emit]
  rw [find?_map_same]
  swap
  · intro x; rfl
  cases List.find? (fun d => d.dirfrag == df) s.dirs with
  | none => rfl
  | some d =>
    simp only [Option.map_some', List.map_map, Option.some.injEq]
    apply List.map_congr_left
    intro dn _
    simp only [Function.comp]
    split <;> rfl

@[simp] theorem dentry_names_emit (s : MDS) (e : Effect) (df : dirfrag_t) :
    (s.emit e).dentry_names df = s.dentry_names df := rfl

end MDS

namespace Server

@[simp] theorem dentry_names_reply_request (s : MDS) (req : MClientRequest)
    (reply : MClientReply) (t : Option inodeno_t) (df : dirfrag_t) :
    (reply_request s req reply t).dentry_names df = s.dentry_names df := by
  unfold reply_request
  show ((s.emit _).request_finish req.id).dentry_names df = _
  simp

@[simp] theorem dentry_names_reply_request_r (s : MDS) (req : MClientRequest) (r : Int)
    (t : Option inodeno_t) (df : dirfrag_t) :
    (reply_request_r s req r t).dentry_names df = s.dentry_names df := by
  unfold reply_request_r; simp

@[simp] theorem inode_map_reply_request (s : MDS) (req : MClientRequest)
    (reply : MClientReply) (t : Option inodeno_t) :
    (reply_request s req reply t).inode_map = s.inode_map := rfl

@[simp] theorem inode_map_reply_request_r (s : MDS) (req : MClientRequest) (r : Int)
    (t : Option inodeno_t) : (reply_request_r s req r t).inode_map = s.inode_map := rfl

@[simp] theorem get_inode_reply_request (s : MDS) (req : MClientRequest)
    (reply : MClientReply) (t : Option inodeno_t) (i : inodeno_t) :
    (reply_request s req reply t).get_inode i = s.get_inode i := rfl

/-- With the dirfrag that owns the name open, authoritative, pinnable and not frozen,
`validate_dentry_dir` returns it and touches nothing. -/
theorem validate_dentry_dir_open (env : Env) (s : MDS) (req : MClientRequest)
    (diri : inodeno_t) (name : String) (ci : CInode) (d : CDir)
    (hi : s.get_inode diri = some ci) (hdir : ci.is_dir = true)
    (hd : s.get_dirfrag ⟨diri, env.pick_dirfrag ci.dirfragtree name⟩ = some d)
    (hauth : d.auth = true) (hpin : d.auth_pinnable = true) (hfrozen : d.frozen = false) :
    validate_dentry_dir env s req diri name =
      (s, some ⟨diri, env.pick_dirfrag ci.dirfragtree name⟩) := by
  unfold validate_dentry_dir try_open_auth_dir
  simp [hi, hdir, hd, hauth, hpin, hfrozen]

end Server

namespace MDS

@[simp] theorem inode_map_emit (s : MDS) (e : Effect) : (s.emit e).inode_map = s.inode_map := rfl
@[simp] theorem inode_map_modify_dir (s : MDS) (df : dirfrag_t) (f : CDir → CDir) :
    (s.modify_dir df f).inode_map = s.inode_map := rfl
@[simp] theorem inode_map_modify_dentry (s : MDS) (p : DnPtr) (f : CDentry → CDentry) :
    (s.modify_dentry p f).inode_map = s.inode_map := rfl
@[simp] theorem inode_map_add_dentry (s : MDS) (df : dirfrag_t) (n : String) :
    (s.add_dentry df n).inode_map = s.inode_map := rfl
@[simp] theorem inode_map_request_forward (s : MDS) (r : ReqId) (m : Int) :
    (s.request_forward r m).inode_map = s.inode_map := rfl
@[simp] theorem inode_map_request_finish (s : MDS) (r : ReqId) :
    (s.request_finish r).inode_map = s.inode_map := rfl
@[simp] theorem inode_map_get_or_open_dirfrag (s : MDS) (c : CInode) (fg : frag_t) :
    (s.get_or_open_dirfrag c fg).inode_map = s.inode_map := by
  unfold get_or_open_dirfrag; split <;> rfl
@[simp] theorem inode_map_dentry_xlock_start (env : Env) (s : MDS) (p : DnPtr) (r : ReqId)
    (ref : inodeno_t) : (s.dentry_xlock_start env p r ref).1.inode_map = s.inode_map := by
  unfold dentry_xlock_start
  simp only []
  split <;> rfl
@[simp] theorem inode_map_dentry_xlock_finish (s : MDS) (p : DnPtr) :
    (s.dentry_xlock_finish p).inode_map = s.inode_map := rfl
@[simp] theorem inode_map_dentry_pre_dirty (s : MDS) (p : DnPtr) :
    (s.dentry_pre_dirty p).inode_map = s.inode_map := rfl
@[simp] theorem inode_map_dentry_mark_dirty (s : MDS) (p : DnPtr) (v : version_t) :
    (s.dentry_mark_dirty p v).inode_map = s.inode_map := rfl
@[simp] theorem inode_map_inode_lock_finish (s : MDS) (k : LockKind) (i : inodeno_t) :
    (s.inode_lock_finish k i).inode_map = s.inode_map := rfl

@[simp] theorem get_inode_get_or_open_dirfrag (s : MDS) (c : CInode) (fg : frag_t)
    (i : inodeno_t) : (s.get_or_open_dirfrag c fg).get_inode i = s.get_inode i :=
  get_inode_of_inode_map (inode_map_get_or_open_dirfrag s c fg) i
@[simp] theorem get_inode_dentry_pre_dirty (s : MDS) (p : DnPtr) (i : inodeno_t) :
    (s.dentry_pre_dirty p).get_inode i = s.get_inode i := rfl
@[simp] theorem get_inode_dentry_mark_dirty (s : MDS) (p : DnPtr) (v : version_t)
    (i : inodeno_t) : (s.dentry_mark_dirty p v).get_inode i = s.get_inode i := rfl
@[simp] theorem get_inode_dentry_xlock_finish (s : MDS) (p : DnPtr) (i : inodeno_t) :
    (s.dentry_xlock_finish p).get_inode i = s.get_inode i := rfl
@[simp] theorem get_inode_inode_lock_finish (s : MDS) (k : LockKind) (j i : inodeno_t) :
    (s.inode_lock_finish k j).get_inode i = s.get_inode i := rfl
@[simp] theorem get_inode_dentry_xlock_start (env : Env) (s : MDS) (p : DnPtr) (r : ReqId)
    (ref : inodeno_t) (i : inodeno_t) :
    (s.dentry_xlock_start env p r ref).1.get_inode i = s.get_inode i :=
  get_inode_of_inode_map (inode_map_dentry_xlock_start env s p r ref) i

/-- A fresh ino looks up the inode `create_inode` made. -/
theorem get_inode_create_inode (s : MDS) (i : inodeno_t) (h : s.get_inode i = none) :
    (s.create_inode i).get_inode i = some { inode := { ino := i }, authority := s.whoami } := by
  unfold get_inode at h ⊢
  unfold create_inode
  simp only [List.find?_append, h, Option.none_or]
  simp

theorem get_inode_modify_inode_self (s : MDS) (i : inodeno_t) (f : CInode → CInode)
    (hf : ∀ c, (f c).inode.ino = c.inode.ino) :
    (s.modify_inode i f).get_inode i = (s.get_inode i).map f :=
  get_inode_modify_inode s i f hf

/-- The inode side of `link_inode`. -/
theorem get_inode_link_inode (s : MDS) (p : DnPtr) (i : inodeno_t) :
    (s.link_inode p i).get_inode i =
      (s.get_inode i).map (fun c => { c with parent := some p }) := by
  unfold link_inode
  rw [get_inode_modify_inode]
  · rfl
  · intro c; rfl

theorem get_inode_inode_mark_dirty (s : MDS) (i : inodeno_t) (pv : version_t) :
    (s.inode_mark_dirty i pv).get_inode i =
      (s.get_inode i).map
        (fun c => { c with inode := { c.inode with version := pv }, dirty := true }) := by
  unfold inode_mark_dirty
  rw [get_inode_modify_inode]
  intro c; rfl

end MDS

namespace Server

@[simp] theorem inode_map_try_open_auth_dir (s : MDS) (diri : inodeno_t) (fg : frag_t)
    (req : MClientRequest) : (try_open_auth_dir s diri fg req).1.inode_map = s.inode_map := by
  unfold try_open_auth_dir
  simp only []
  repeat' split
  all_goals simp

@[simp] theorem inode_map_validate_dentry_dir (env : Env) (s : MDS) (req : MClientRequest)
    (diri : inodeno_t) (name : String) :
    (validate_dentry_dir env s req diri name).1.inode_map = s.inode_map := by
  unfold validate_dentry_dir
  simp only []
  repeat' split
  all_goals simp

@[simp] theorem inode_map_handle_client_open (env : Env) (s : MDS) (req : MClientRequest)
    (cur : inodeno_t) : (handle_client_open env s req cur).inode_map = s.inode_map := by
  unfold handle_client_open
  simp only []
  repeat' split
  all_goals simp

end Server

/-! ## Readdir -/

namespace Server

/-- What `encode_dir_contents` collects: one entry, in dirfrag order, for every dentry whose
inode pointer is set. -/
theorem encode_dir_contents_eq (d : CDir) :
    encode_dir_contents d =
      (d.items.filterMap (fun dn => dn.inode),
       (d.items.filter (fun dn => dn.inode.isSome)).map (fun dn => dn.name),
       ((d.items.filter (fun dn => dn.inode.isSome)).length : Int)) := by
  unfold encode_dir_contents
  generalize d.items = l
  induction l using List.reverseRecOn with
  | nil => rfl
  | append_singleton l x ih =>
    rw [List.foldl_append, ih]
    simp only [List.foldl_cons, List.foldl_nil]
    cases hx : x.inode <;>
      simp [CDentry.is_null, hx, List.filterMap_append, List.filter_append]

/-- The successful readdir: on a directory whose requested frag is open, authoritative and
complete, with the read lock granted, the reply names the dentries whose inode pointer is
set, then `.`; the two lists and the item count agree. -/
theorem readdir_reply (env : Env) (s : MDS) (req : MClientRequest) (diri : inodeno_t)
    (ci : CInode) (d : CDir)
    (hi : s.get_inode diri = some ci) (hdir : ci.is_dir = true)
    (hfg : ci.dirfragtree.contains req.args.frag = true)
    (hd : s.get_dirfrag ⟨diri, req.args.frag⟩ = some d)
    (hauth : d.auth = true) (hcomplete : d.complete = true)
    (hlock : env.lock_start s .inode_hard_read diri none req.id = true) :
    ∃ reply : MClientReply,
      handle_client_readdir env s req diri =
        reply_request ((s.inode_lock_start env .inode_hard_read diri req.id).1.inode_lock_finish
          .inode_hard_read diri) req reply (some diri) ∧
      reply.dir_dn = (d.items.filter (fun dn => dn.inode.isSome)).map (fun dn => dn.name) ++ ["."] ∧
      reply.dir_in.length = reply.dir_dn.length ∧
      reply.num_dir_items = reply.dir_dn.length := by
  refine ⟨{ req := req.id, result := (req.args.frag : Int),
            dir_in := (encode_dir_contents d).1 ++ [diri],
            dir_dn := (encode_dir_contents d).2.1 ++ ["."],
            num_dir_items := (encode_dir_contents d).2.2 + 1 }, ?_, ?_, ?_, ?_⟩
  · have hfg2 : req.args.frag ∈ ci.dirfragtree := by simpa using hfg
    unfold handle_client_readdir try_open_auth_dir
    simp [hi, hdir, hfg2, hd, hauth, hcomplete, MDS.inode_lock_start, hlock]
  · simp [encode_dir_contents_eq]
  · simp only [encode_dir_contents_eq, List.length_append, List.length_map,
      List.length_singleton, add_left_inj]
    generalize d.items = l
    induction l with
    | nil => rfl
    | cons x l ih => cases hx : x.inode <;> simp [List.filterMap_cons, List.filter_cons, hx, ih]
  · simp [encode_dir_contents_eq]

end Server

/-- C11 (code defect, evaluated): a readdir of the complete, authoritative root dirfrag holding
the file `a`, a remote link `b` whose inode is not open and a null dentry `c` replies with the
names `a` and `.` only: the child `b`, which is not null, is not listed. -/
theorem readdir_omits_unopened_remote_link :
    (Sample.mds_links.get_dirfrag ⟨1, 0⟩).map
        (fun d => (d.auth, d.complete,
          (d.items.filter (fun dn => !dn.is_null)).map (fun dn => dn.name))) =
      some (true, true, ["a", "b"]) ∧
    (Server.handle_client_readdir Sample.env Sample.mds_links (Sample.req .READDIR [] {}) 1).log =
      [.lock_start .inode_hard_read 1 none 7 true, .lock_finish .inode_hard_read 1 none,
       .send_reply { req := 7, result := 0, trace := some 1, dir_in := [42, 1],
                     dir_dn := ["a", "."], num_dir_items := 2 } 3,
       .request_finish 7] := by
  decide

/-! ## Creating over an existing name -/

namespace Server

/-- Result 2 comes only from the branch that tests `okexist`. -/
theorem prepare_mknod_create_r (env : Env) (s : MDS) (req : MClientRequest) (diri : inodeno_t)
    (w : Bool) (dir : dirfrag_t) (d : CDir) (name : String) (h : Bool) :
    (prepare_mknod_create env s req diri w dir d name h).r ≠ 2 := by
  unfold prepare_mknod_create
  simp only []
  repeat' split
  all_goals simp

theorem prepare_mknod_not_exists (env : Env) (s : MDS) (req : MClientRequest)
    (diri : inodeno_t) (w : Bool) : (prepare_mknod env s req diri w false).r ≠ 2 := by
  unfold prepare_mknod
  simp only []
  repeat' split
  all_goals first
    | exact prepare_mknod_create_r _ _ _ _ _ _ _ _ _
    | simp_all

end Server

/-- C12: in `prepare_mknod`, with the parent dirfrag open, authoritative, pinnable and not
frozen and a readable, non-null dentry under the final name: if `okexist` the result is 2,
the dentry's inode is returned and the state is untouched (no reply); otherwise the result
is 0 and the only thing done is one reply with EEXIST.  Either way the inodes and the names
in every dirfrag are as before and the log gains no lock start and no journal entry; an OPEN
with O_CREAT and O_EXCL replies EEXIST and does nothing else; and result 2 is never
returned when `okexist` is false. -/
theorem prepare_mknod_existing_name (env : Env) (s : MDS) (req : MClientRequest)
    (diri : inodeno_t) (want_inode okexist : Bool) (ci : CInode) (d : CDir) (dn : CDentry)
    (hi : s.get_inode diri = some ci) (hdir : ci.is_dir = true)
    (hd : s.get_dirfrag ⟨diri, env.pick_dirfrag ci.dirfragtree req.filepath.last_dentry⟩ =
      some d)
    (hauth : d.auth = true) (hpin : d.auth_pinnable = true) (hfrozen : d.frozen = false)
    (hdn : d.lookup req.filepath.last_dentry = some dn)
    (hread : dn.can_read req.id = true) (hnull : dn.is_null = false) :
    (okexist = true →
      (Server.prepare_mknod env s req diri want_inode okexist).s = s ∧
      (Server.prepare_mknod env s req diri want_inode okexist).r = 2 ∧
      (Server.prepare_mknod env s req diri want_inode okexist).newi = dn.inode) ∧
    (okexist = false →
      (Server.prepare_mknod env s req diri want_inode okexist).s =
        Server.reply_request_r s req (-EEXIST) none ∧
      (Server.prepare_mknod env s req diri want_inode okexist).r = 0 ∧
      (Server.prepare_mknod env s req diri want_inode okexist).s.log = s.log ++
        [.send_reply { req := req.id, result := -EEXIST } req.client,
         .request_finish req.id]) ∧
    (Server.prepare_mknod env s req diri want_inode okexist).s.inode_map = s.inode_map ∧
    (∀ df, (Server.prepare_mknod env s req diri want_inode okexist).s.dentry_names df =
      s.dentry_names df) ∧
    (req.args.flags &&& O_EXCL ≠ 0 →
      Server.handle_client_openc env s req diri = Server.reply_request_r s req (-EEXIST) none) ∧
    (∀ s2 req2 diri2 w, (Server.prepare_mknod env s2 req2 diri2 w false).r ≠ 2) := by
  have hv := Server.validate_dentry_dir_open env s req diri req.filepath.last_dentry ci d hi hdir hd
    hauth hpin hfrozen
  have hp : Server.prepare_mknod env s req diri want_inode okexist =
      if okexist then
        { s := s, r := 2,
          dir := some ⟨diri, env.pick_dirfrag ci.dirfragtree req.filepath.last_dentry⟩,
          newi := dn.inode,
          dn := some ⟨⟨diri, env.pick_dirfrag ci.dirfragtree req.filepath.last_dentry⟩,
            req.filepath.last_dentry⟩ }
      else
        { s := Server.reply_request_r s req (-EEXIST) none, r := 0,
          dir := some ⟨diri, env.pick_dirfrag ci.dirfragtree req.filepath.last_dentry⟩,
          dn := some ⟨⟨diri, env.pick_dirfrag ci.dirfragtree req.filepath.last_dentry⟩,
            req.filepath.last_dentry⟩ } := by
    unfold Server.prepare_mknod
    simp only [hv, hd, hdn, hread, hnull, Bool.not_true, Bool.not_false, Bool.false_eq_true,
      ↓reduceIte]
  refine ⟨?_, ?_, ?_, ?_, ?_, ?_⟩
  · intro h; rw [hp]; simp [h]
  · intro h; rw [hp]; simp [h, Server.include_trace]
  · rw [hp]; cases okexist <;> simp
  · intro df; rw [hp]; cases okexist <;> simp
  · intro hx
    have hp2 : Server.prepare_mknod env s req diri true (!(req.args.flags &&& O_EXCL != 0)) =
        { s := Server.reply_request_r s req (-EEXIST) none, r := 0,
          dir := some ⟨diri, env.pick_dirfrag ci.dirfragtree req.filepath.last_dentry⟩,
          dn := some ⟨⟨diri, env.pick_dirfrag ci.dirfragtree req.filepath.last_dentry⟩,
            req.filepath.last_dentry⟩ } := by
      unfold Server.prepare_mknod
      simp [hv, hd, hdn, hread, hnull, hx]
    unfold Server.handle_client_openc
    simp only [hp2]
    simp
  · intro s2 req2 diri2 w
    exact Server.prepare_mknod_not_exists env s2 req2 diri2 w

/-- Witness for C12: preparing a create of the existing name `a` in the sample root with
`okexist` set gives result 2 and the inode 42 of `a`. -/
theorem prepare_mknod_existing_name_witness :
    (Server.prepare_mknod Sample.env Sample.mds0 (Sample.req .MKNOD ["a"] {}) 1 true true).r = 2 ∧
    (Server.prepare_mknod Sample.env Sample.mds0 (Sample.req .MKNOD ["a"] {}) 1 true true).newi =
      some 42 :=
  have h := prepare_mknod_existing_name Sample.env Sample.mds0 (Sample.req .MKNOD ["a"] {}) 1
    true true Sample.root_inode
    { dirfrag := ⟨1, 0⟩, items := [{ name := "a", inode := some 42 }] }
    { name := "a", inode := some 42 }
    (by decide) (by decide) (by decide) (by decide) (by decide) (by decide) (by decide)
    (by decide) (by decide)
  ⟨(h.1 rfl).2.1, (h.1 rfl).2.2⟩

/-! ## Mode and owner of a created inode -/

namespace Server

/-- What `prepare_mknod_create` leaves when it returns 1 with an inode wanted: the fresh
inode, owned by the caller, in a state that differs from an intermediate state `x` with the
inodes of `s` only by that inode and a logged call. -/
theorem prepare_mknod_create_created (env : Env) (s : MDS) (req : MClientRequest)
    (diri : inodeno_t) (dir : dirfrag_t) (d : CDir) (name : String) (h : Bool)
    (hr : (prepare_mknod_create env s req diri true dir d name h).r = 1) :
    ∃ x : MDS, x.inode_map = s.inode_map ∧
      prepare_mknod_create env s req diri true dir d name h =
        { s := ((x.create_inode (env.new_ino x)).modify_inode (env.new_ino x) (fun c =>
            { c with inode := { c.inode with
                uid := req.caller_uid, gid := req.caller_gid,
                ctime := env.gettime x, mtime := env.gettime x,
                atime := env.gettime x } })).emit (.hit_dir dir .META_POP_DWR),
          r := 1, dir := some dir, newi := some (env.new_ino x), dn := some ⟨dir, name⟩ } := by
  unfold prepare_mknod_create at hr ⊢
  cases hc : d.complete
  · simp [hc] at hr
  · cases h
    all_goals
      simp only [hc, Bool.not_true, Bool.not_false, Bool.false_eq_true, ↓reduceIte] at hr ⊢
      split at hr
      · simp at hr
      · rename_i hx
        simp only [hx, ↓reduceIte]
        exact ⟨_, by simp, rfl⟩

theorem prepare_mknod_created (env : Env) (s : MDS) (req : MClientRequest) (diri : inodeno_t)
    (ok : Bool) (hr : (prepare_mknod env s req diri true ok).r = 1) :
    ∃ (x : MDS) (dir : dirfrag_t), x.inode_map = s.inode_map ∧
      prepare_mknod env s req diri true ok =
        { s := ((x.create_inode (env.new_ino x)).modify_inode (env.new_ino x) (fun c =>
            { c with inode := { c.inode with
                uid := req.caller_uid, gid := req.caller_gid,
                ctime := env.gettime x, mtime := env.gettime x,
                atime := env.gettime x } })).emit (.hit_dir dir .META_POP_DWR),
          r := 1, dir := some dir, newi := some (env.new_ino x),
          dn := some ⟨dir, req.filepath.last_dentry⟩ } := by
  have hvm := inode_map_validate_dentry_dir env s req diri req.filepath.last_dentry
  unfold prepare_mknod at hr ⊢
  simp only [] at hr ⊢
  generalize validate_dentry_dir env s req diri req.filepath.last_dentry = v at hvm hr ⊢
  obtain ⟨vs, vd⟩ := v
  simp only [] at hvm hr ⊢
  cases vd with
  | none => simp at hr
  | some dir =>
    simp only [] at hr ⊢
    cases hd : vs.get_dirfrag dir with
    | none => simp [hd] at hr
    | some d =>
      simp only [hd] at hr ⊢
      cases hdn : d.lookup req.filepath.last_dentry with
      | none =>
        simp only [hdn] at hr ⊢
        obtain ⟨x, hx, he⟩ := prepare_mknod_create_created env _ req diri dir d _ false hr
        exact ⟨x, dir, by rw [hx, hvm], he⟩
      | some dn =>
        simp only [hdn] at hr ⊢
        cases hread : dn.can_read req.id
        · simp [hread] at hr
        · cases hnull : dn.is_null
          · cases ok <;> simp [hread, hnull] at hr
          · simp only [hread, hnull, Bool.not_true, Bool.false_eq_true, ↓reduceIte] at hr ⊢
            obtain ⟨x, hx, he⟩ := prepare_mknod_create_created env _ req diri dir d _ true hr
            exact ⟨x, dir, by rw [hx, hvm], he⟩

/-- The inode `prepare_mknod` created, looked up in the state it returns: fresh (mode 0, no
parent) and owned by the caller. -/
theorem prepare_mknod_newi (env : Env) (s : MDS) (req : MClientRequest) (diri : inodeno_t)
    (ok : Bool)
    (hfresh : ∀ st : MDS, st.inode_map = s.inode_map → st.get_inode (env.new_ino st) = none)
    (hr : (prepare_mknod env s req diri true ok).r = 1) :
    ∃ (dir : dirfrag_t) (newi : inodeno_t) (c0 : CInode),
      (prepare_mknod env s req diri true ok).dir = some dir ∧
      (prepare_mknod env s req diri true ok).newi = some newi ∧
      (prepare_mknod env s req diri true ok).dn = some ⟨dir, req.filepath.last_dentry⟩ ∧
      (prepare_mknod env s req diri true ok).s.get_inode newi = some c0 ∧
      c0.inode.mode = 0 ∧ c0.inode.uid = req.caller_uid ∧ c0.inode.gid = req.caller_gid := by
  obtain ⟨x, dir, hx, hp⟩ := prepare_mknod_created env s req diri ok hr
  have hfx := hfresh x hx
  rw [hp]
  refine ⟨dir, env.new_ino x,
    { inode := { ino := env.new_ino x, uid := req.caller_uid, gid := req.caller_gid,
                 ctime := env.gettime x, mtime := env.gettime x, atime := env.gettime x },
      authority := x.whoami }, rfl, rfl, rfl, ?_, ?_, ?_, ?_⟩
  · simp only [MDS.get_inode_emit]
    rw [MDS.get_inode_modify_inode_self, MDS.get_inode_create_inode _ _ hfx]
    · rfl
    · intro c; rfl
  · rfl
  · rfl
  · rfl

theorem log_journal_new_inode (s : MDS) (what : String) (dir : dirfrag_t) (dn : DnPtr)
    (newi : inodeno_t) (extra : List MetaBlobItem) (fin : Context) (ni : CInode)
    (h : s.get_inode newi = some ni) :
    journal_new_inode s what dir dn newi extra fin =
      (s.emit (.submit_entry (.EUpdate what
        ([.dir_context (some dir),
          .primary_dentry (some dn) true
            { ni.inode with version := s.dentry_projected_version dn }] ++ extra))
        none)).emit (.wait_for_sync fin) := by
  unfold journal_new_inode
  simp [h]

/-- What the finisher of the mknod-type handlers leaves of the inode it links. -/
theorem mknod_finish_get_inode (s : MDS) (req : MClientRequest) (dn : DnPtr)
    (newi : inodeno_t) (pv : version_t) :
    (C_MDS_mknod_finish_finish s req dn newi pv 0).get_inode newi =
      (s.get_inode newi).map (fun c =>
        { c with inode := { c.inode with version := pv }, dirty := true,
                 parent := some dn }) := by
  unfold C_MDS_mknod_finish_finish
  simp only [bne_self_eq_false, Bool.false_eq_true, ↓reduceIte, get_inode_reply_request,
    MDS.get_inode_emit, MDS.get_inode_dentry_xlock_finish]
  rw [MDS.get_inode_inode_mark_dirty, MDS.get_inode_link_inode]
  cases s.get_inode newi <;> rfl

theorem openc_finish_get_inode (env : Env) (s : MDS) (req : MClientRequest) (dn : DnPtr)
    (newi : inodeno_t) (pv : version_t) :
    (C_MDS_openc_finish_finish env s req dn newi pv 0).get_inode newi =
      (s.get_inode newi).map (fun c =>
        { c with inode := { c.inode with version := pv }, dirty := true,
                 parent := some dn }) := by
  unfold C_MDS_openc_finish_finish
  simp only [bne_self_eq_false, Bool.false_eq_true, ↓reduceIte]
  rw [get_inode_of_inode_map (inode_map_handle_client_open _ _ _ _)]
  simp only [MDS.get_inode_emit, MDS.get_inode_dentry_xlock_finish]
  rw [MDS.get_inode_inode_mark_dirty, MDS.get_inode_link_inode]
  cases s.get_inode newi <;> rfl

/-- The journalling tail shared by the mknod-type handlers, then the finisher: the last
logged call registers the finisher, and the finisher leaves the inode linked to the dentry,
dirty at the projected version, its other attributes as the handler set them. -/
theorem create_tail (s2 : MDS) (req : MClientRequest) (what : String) (dir : dirfrag_t)
    (dn : DnPtr) (newi : inodeno_t) (extra : List MetaBlobItem) (pv : version_t) (c2 : CInode)
    (h2 : s2.get_inode newi = some c2) :
    (journal_new_inode s2 what dir dn newi extra
        (.C_MDS_mknod_finish req dn newi pv)).log.getLast? =
      some (.wait_for_sync (.C_MDS_mknod_finish req dn newi pv)) ∧
    (C_MDS_mknod_finish_finish
        (journal_new_inode s2 what dir dn newi extra (.C_MDS_mknod_finish req dn newi pv))
        req dn newi pv 0).get_inode newi =
      some { c2 with inode := { c2.inode with version := pv }, dirty := true,
                     parent := some dn } := by
  rw [log_journal_new_inode _ _ _ _ _ _ _ _ h2]
  constructor
  · simp
  · rw [mknod_finish_get_inode]
    simp only [MDS.get_inode_emit, h2, Option.map_some']

theorem openc_tail (env : Env) (s2 : MDS) (req : MClientRequest) (what : String)
    (dir : dirfrag_t) (dn : DnPtr) (newi : inodeno_t) (extra : List MetaBlobItem)
    (pv : version_t) (c2 : CInode) (h2 : s2.get_inode newi = some c2) :
    (journal_new_inode s2 what dir dn newi extra
        (.C_MDS_openc_finish req dn newi pv)).log.getLast? =
      some (.wait_for_sync (.C_MDS_openc_finish req dn newi pv)) ∧
    (C_MDS_openc_finish_finish env
        (journal_new_inode s2 what dir dn newi extra (.C_MDS_openc_finish req dn newi pv))
        req dn newi pv 0).get_inode newi =
      some { c2 with inode := { c2.inode with version := pv }, dirty := true,
                     parent := some dn } := by
  rw [log_journal_new_inode _ _ _ _ _ _ _ _ h2]
  constructor
  · simp
  · rw [openc_finish_get_inode]
    simp only [MDS.get_inode_emit, h2, Option.map_some']

theorem NOT_INODE_TYPE_MASK_testBit (k : Nat) :
    NOT_INODE_TYPE_MASK.testBit k = (decide (k < 32) && !INODE_TYPE_MASK.testBit k) := by
  by_cases hk : k < 32
  · interval_cases k <;> rfl
  · have h1 : NOT_INODE_TYPE_MASK < 2 ^ k := by
      calc NOT_INODE_TYPE_MASK < 2 ^ 32 := by decide
        _ ≤ 2 ^ k := Nat.pow_le_pow_right (by decide) (by omega)
    simp [Nat.testBit_lt_two_pow h1, hk]

/-- The mode the mknod-type handlers compute, `(m & ~INODE_TYPE_MASK) | kind`, matches the
requested mode `m` for the object kind. -/
theorem mode_matches_create (m K : Nat) (hK : K &&& INODE_TYPE_MASK = K) :
    mode_matches ((m &&& NOT_INODE_TYPE_MASK) ||| K) m K = true := by
  have hKb : ∀ k, K.testBit k = (K.testBit k && INODE_TYPE_MASK.testBit k) := by
    intro k
    conv_lhs => rw [← hK]
    rw [Nat.testBit_land]
  unfold mode_matches
  simp only [Bool.and_eq_true, beq_iff_eq]
  constructor
  · apply Nat.eq_of_testBit_eq
    intro k
    have hk := hKb k
    simp only [Nat.testBit_land, Nat.testBit_lor, NOT_INODE_TYPE_MASK_testBit]
    revert hk
    generalize m.testBit k = a
    generalize INODE_TYPE_MASK.testBit k = b
    generalize K.testBit k = c
    generalize decide (k < 32) = d
    cases a <;> cases b <;> cases c <;> cases d <;> simp
  · apply Nat.eq_of_testBit_eq
    intro k
    have hk := hKb k
    simp only [Nat.testBit_land, Nat.testBit_lor, NOT_INODE_TYPE_MASK_testBit]
    revert hk
    generalize m.testBit k = a
    generalize INODE_TYPE_MASK.testBit k = b
    generalize K.testBit k = c
    generalize decide (k < 32) = d
    cases a <;> cases b <;> cases c <;> cases d <;> simp

theorem create_mode_type (m K : Nat) (hK : K &&& INODE_TYPE_MASK = K) :
    ((m &&& NOT_INODE_TYPE_MASK) ||| K) &&& INODE_TYPE_MASK = K := by
  have h := mode_matches_create m K hK
  unfold mode_matches at h
  simp only [Bool.and_eq_true, beq_iff_eq] at h
  exact h.1

theorem mknod_creates (env : Env) (s : MDS) (req : MClientRequest) (diri : inodeno_t)
    (hfresh : ∀ st : MDS, st.inode_map = s.inode_map → st.get_inode (env.new_ino st) = none)
    (hr : (prepare_mknod env s req diri true false).r = 1) :
    Created env (handle_client_mknod env s req diri) (.C_MDS_mknod_finish req)
      (fun md => mode_matches md req.args.mode INODE_MODE_FILE)
      req.caller_uid req.caller_gid := by
  obtain ⟨dir, newi, c0, hdir, hnewi, hdn, hget, hmode, huid, hgid⟩ :=
    prepare_mknod_newi env s req diri false hfresh hr
  have h2 : (((prepare_mknod env s req diri true false).s.dentry_pre_dirty
      ⟨dir, req.filepath.last_dentry⟩).modify_inode newi (fun c =>
        { c with inode := { c.inode with
            mode := (req.args.mode &&& NOT_INODE_TYPE_MASK) ||| INODE_MODE_FILE } })).get_inode
        newi = some { c0 with inode := { c0.inode with
            mode := (req.args.mode &&& NOT_INODE_TYPE_MASK) ||| INODE_MODE_FILE } } := by
    rw [MDS.get_inode_modify_inode_self, MDS.get_inode_dentry_pre_dirty, hget]
    · rfl
    · intro c; rfl
  unfold Created handle_client_mknod
  simp only [hr, hdir, hnewi, hdn, show ((1 : Int) == 0) = false from rfl, Bool.false_eq_true,
    ↓reduceIte]
  generalize ((prepare_mknod env s req diri true false).s.dentry_pre_dirty
      ⟨dir, req.filepath.last_dentry⟩).modify_inode newi (fun c =>
        { c with inode := { c.inode with
            mode := (req.args.mode &&& NOT_INODE_TYPE_MASK) ||| INODE_MODE_FILE } }) = s2
    at h2 ⊢
  have ht := create_tail s2 req "mknod" dir ⟨dir, req.filepath.last_dentry⟩ newi []
    (s2.dentry_projected_version ⟨dir, req.filepath.last_dentry⟩) _ h2
  exact ⟨_, _, _, _, ht.1, ht.2, rfl, mode_matches_create _ _ (by decide), huid, hgid⟩

theorem mkdir_creates (env : Env) (s : MDS) (req : MClientRequest) (diri : inodeno_t)
    (hfresh : ∀ st : MDS, st.inode_map = s.inode_map → st.get_inode (env.new_ino st) = none)
    (hr : (prepare_mknod env s req diri true false).r = 1) :
    Created env (handle_client_mkdir env s req diri) (.C_MDS_mknod_finish req)
      (fun md => mode_matches md req.args.mode INODE_MODE_DIR)
      req.caller_uid req.caller_gid := by
  obtain ⟨dir, newi, c0, hdir, hnewi, hdn, hget, hmode, huid, hgid⟩ :=
    prepare_mknod_newi env s req diri false hfresh hr
  have h2 : (((prepare_mknod env s req diri true false).s.dentry_pre_dirty
      ⟨dir, req.filepath.last_dentry⟩).modify_inode newi (fun c =>
        { c with inode := { c.inode with
            mode := (req.args.mode &&& NOT_INODE_TYPE_MASK) ||| INODE_MODE_DIR,
            layout := g_OSD_MDDirLayout } })).get_inode
        newi = some { c0 with inode := { c0.inode with
            mode := (req.args.mode &&& NOT_INODE_TYPE_MASK) ||| INODE_MODE_DIR,
            layout := g_OSD_MDDirLayout } } := by
    rw [MDS.get_inode_modify_inode_self, MDS.get_inode_dentry_pre_dirty, hget]
    · rfl
    · intro c; rfl
  unfold Created handle_client_mkdir
  simp only [hr, hdir, hnewi, hdn, show ((1 : Int) == 0) = false from rfl, Bool.false_eq_true,
    ↓reduceIte]
  generalize ((prepare_mknod env s req diri true false).s.dentry_pre_dirty
      ⟨dir, req.filepath.last_dentry⟩).modify_inode newi (fun c =>
        { c with inode := { c.inode with
            mode := (req.args.mode &&& NOT_INODE_TYPE_MASK) ||| INODE_MODE_DIR,
            layout := g_OSD_MDDirLayout } }) = s2
    at h2 ⊢
  simp only [h2]
  generalize hs4 : (s2.get_or_open_dirfrag _ 0).modify_dir ⟨newi, 0⟩ _ = s4
  have h4 : s4.get_inode newi = some { c0 with inode := { c0.inode with
            mode := (req.args.mode &&& NOT_INODE_TYPE_MASK) ||| INODE_MODE_DIR,
            layout := g_OSD_MDDirLayout } } := by
    rw [← hs4]
    simp only [MDS.get_inode_modify_dir, MDS.get_inode_get_or_open_dirfrag, h2]
  have ht := create_tail s4 req "mkdir" dir ⟨dir, req.filepath.last_dentry⟩ newi
    [.dir ⟨newi, 0⟩ true] (s4.dentry_projected_version ⟨dir, req.filepath.last_dentry⟩) _ h4
  exact ⟨_, _, _, _, ht.1, ht.2, rfl, mode_matches_create _ _ (by decide), huid, hgid⟩

theorem symlink_creates (env : Env) (s : MDS) (req : MClientRequest) (diri : inodeno_t)
    (hfresh : ∀ st : MDS, st.inode_map = s.inode_map → st.get_inode (env.new_ino st) = none)
    (hr : (prepare_mknod env s req diri true false).r = 1) :
    Created env (handle_client_symlink env s req diri) (.C_MDS_mknod_finish req)
      (fun md => md &&& INODE_TYPE_MASK == INODE_MODE_SYMLINK)
      req.caller_uid req.caller_gid := by
  obtain ⟨dir, newi, c0, hdir, hnewi, hdn, hget, hmode, huid, hgid⟩ :=
    prepare_mknod_newi env s req diri false hfresh hr
  have h2 : (((prepare_mknod env s req diri true false).s.dentry_pre_dirty
      ⟨dir, req.filepath.last_dentry⟩).modify_inode newi (fun c =>
        { c with
          symlink := req.sarg,
          inode := { c.inode with
            mode := (c.inode.mode &&& NOT_INODE_TYPE_MASK) ||| INODE_MODE_SYMLINK } })).get_inode
        newi = some { c0 with
          symlink := req.sarg,
          inode := { c0.inode with
            mode := (c0.inode.mode &&& NOT_INODE_TYPE_MASK) ||| INODE_MODE_SYMLINK } } := by
    rw [MDS.get_inode_modify_inode_self, MDS.get_inode_dentry_pre_dirty, hget]
    · rfl
    · intro c; rfl
  unfold Created handle_client_symlink
  simp only [hr, hdir, hnewi, hdn, show ((1 : Int) == 0) = false from rfl, Bool.false_eq_true,
    ↓reduceIte]
  generalize ((prepare_mknod env s req diri true false).s.dentry_pre_dirty
      ⟨dir, req.filepath.last_dentry⟩).modify_inode newi (fun c =>
        { c with
          symlink := req.sarg,
          inode := { c.inode with
            mode := (c.inode.mode &&& NOT_INODE_TYPE_MASK) ||| INODE_MODE_SYMLINK } }) = s2
    at h2 ⊢
  have ht := create_tail s2 req "symlink" dir ⟨dir, req.filepath.last_dentry⟩ newi []
    (s2.dentry_projected_version ⟨dir, req.filepath.last_dentry⟩) _ h2
  refine ⟨_, _, _, _, ht.1, ht.2, rfl, ?_, huid, hgid⟩
  simp only [beq_iff_eq]
  exact create_mode_type _ _ (by decide)

theorem openc_creates (env : Env) (s : MDS) (req : MClientRequest) (diri : inodeno_t)
    (hfresh : ∀ st : MDS, st.inode_map = s.inode_map → st.get_inode (env.new_ino st) = none)
    (hr : (prepare_mknod env s req diri true (!(req.args.flags &&& O_EXCL != 0))).r = 1) :
    Created env (handle_client_openc env s req diri) (.C_MDS_openc_finish req)
      (fun md => md == 0o644 ||| INODE_MODE_FILE)
      req.caller_uid req.caller_gid := by
  obtain ⟨dir, newi, c0, hdir, hnewi, hdn, hget, hmode, huid, hgid⟩ :=
    prepare_mknod_newi env s req diri _ hfresh hr
  have h2 : (((prepare_mknod env s req diri true (!(req.args.flags &&& O_EXCL != 0))
      ).s.dentry_pre_dirty
      ⟨dir, req.filepath.last_dentry⟩).modify_inode newi (fun c =>
        { c with inode := { c.inode with mode := 0o644 ||| INODE_MODE_FILE } })).get_inode
        newi = some { c0 with inode := { c0.inode with
            mode := 0o644 ||| INODE_MODE_FILE } } := by
    rw [MDS.get_inode_modify_inode_self, MDS.get_inode_dentry_pre_dirty, hget]
    · rfl
    · intro c; rfl
  unfold Created handle_client_openc
  simp only [hr, hdir, hnewi, hdn, show ((1 : Int) ≤ 0) = False from by simp,
    show ((1 : Int) == 1) = true from rfl, ↓reduceIte]
  generalize ((prepare_mknod env s req diri true (!(req.args.flags &&& O_EXCL != 0))
      ).s.dentry_pre_dirty
      ⟨dir, req.filepath.last_dentry⟩).modify_inode newi (fun c =>
        { c with inode := { c.inode with mode := 0o644 ||| INODE_MODE_FILE } }) = s2
    at h2 ⊢
  have ht := openc_tail env s2 req "openc" dir ⟨dir, req.filepath.last_dentry⟩ newi []
    (s2.dentry_projected_version ⟨dir, req.filepath.last_dentry⟩) _ h2
  exact ⟨_, _, _, _, ht.1, ht.2, rfl, by simp, huid, hgid⟩

end Server

/-- C13 (counterexample): an OPEN with O_CREAT of the new name `b` that asks for mode 0600
registers the open-create finisher for the new inode 102; after the finisher the inode is linked
under `b` with mode 0100644: the permission bits are 0644, not the 0600 asked for. -/
theorem openc_ignores_requested_mode :
    (Server.handle_client_openc Sample.env Sample.mds0
        (Sample.req .OPEN ["b"] { flags := O_CREAT, mode := 0o600, open_mode := 0o600 })
        1).log.getLast? =
      some (.wait_for_sync (.C_MDS_openc_finish
        (Sample.req .OPEN ["b"] { flags := O_CREAT, mode := 0o600, open_mode := 0o600 })
        ⟨⟨1, 0⟩, "b"⟩ 102 1)) ∧
    ((Server.finish Sample.env
        (Server.handle_client_openc Sample.env Sample.mds0
          (Sample.req .OPEN ["b"] { flags := O_CREAT, mode := 0o600, open_mode := 0o600 }) 1)
        (.C_MDS_openc_finish
          (Sample.req .OPEN ["b"] { flags := O_CREAT, mode := 0o600, open_mode := 0o600 })
          ⟨⟨1, 0⟩, "b"⟩ 102 1) 0 []).get_inode 102).map
        (fun c => (c.parent, c.inode.mode, c.inode.uid, c.inode.gid)) =
      some (some ⟨⟨1, 0⟩, "b"⟩, 0o100644, 500, 500) ∧
    Server.mode_matches 0o100644 0o600 INODE_MODE_FILE = false := by
  decide

/-- C13 (amended): with an allocator that hands out inos not yet in the cache, every create handler
whose preparation succeeds (`prepare_mknod` returns 1) registers its finisher, and once the
finisher has run the new inode is linked under the new dentry and owned by the caller's uid
and gid.  Its mode is the requested mode with the type bits of a file for mknod and of a
directory for mkdir; for symlink the type bits are those of a symlink; for open-create the
mode is 0644 with the type bits of a file, whatever the request asked for. -/
theorem create_mode_and_owner (env : Env) (s : MDS) (req : MClientRequest) (diri : inodeno_t)
    (hfresh : ∀ st : MDS, st.inode_map = s.inode_map → st.get_inode (env.new_ino st) = none) :
    ((Server.prepare_mknod env s req diri true false).r = 1 →
      Server.Created env (Server.handle_client_mknod env s req diri) (.C_MDS_mknod_finish req)
        (fun md => Server.mode_matches md req.args.mode INODE_MODE_FILE)
        req.caller_uid req.caller_gid ∧
      Server.Created env (Server.handle_client_mkdir env s req diri) (.C_MDS_mknod_finish req)
        (fun md => Server.mode_matches md req.args.mode INODE_MODE_DIR)
        req.caller_uid req.caller_gid ∧
      Server.Created env (Server.handle_client_symlink env s req diri) (.C_MDS_mknod_finish req)
        (fun md => md &&& INODE_TYPE_MASK == INODE_MODE_SYMLINK)
        req.caller_uid req.caller_gid) ∧
    ((Server.prepare_mknod env s req diri true (!(req.args.flags &&& O_EXCL != 0))).r = 1 →
      Server.Created env (Server.handle_client_openc env s req diri) (.C_MDS_openc_finish req)
        (fun md => md == 0o644 ||| INODE_MODE_FILE)
        req.caller_uid req.caller_gid) :=
  ⟨fun hr => ⟨Server.mknod_creates env s req diri hfresh hr, Server.mkdir_creates env s req diri hfresh hr,
      Server.symlink_creates env s req diri hfresh hr⟩,
   fun hr => Server.openc_creates env s req diri hfresh hr⟩

/-- Witness for C13: MKNOD of `b` with mode 0600 on MDS0. -/
theorem create_mode_and_owner_witness :
    Server.Created Sample.env
      (Server.handle_client_mknod Sample.env Sample.mds0 (Sample.req .MKNOD ["b"] { mode := 0o600 }) 1)
      (.C_MDS_mknod_finish (Sample.req .MKNOD ["b"] { mode := 0o600 }))
      (fun md => Server.mode_matches md 0o600 INODE_MODE_FILE) 500 500 :=
  ((create_mode_and_owner Sample.env Sample.mds0 (Sample.req .MKNOD ["b"] { mode := 0o600 }) 1
    (fun st h => by
      simp only [MDS.get_inode, Sample.env, h]
      decide)).1 (by decide)).1

/-! ## Unlink of the root, of `.` and of `..` -/

/-- C15 (counterexample): an UNLINK whose final component is `.` is looked up like any other
name: in the sample root, which is complete and holds no such dentry, the reply is ENOENT, not
EINVAL; the same for `..` and for RMDIR. -/
theorem unlink_dot_replies_enoent :
    (Server.handle_client_unlink Sample.env Sample.mds0 (Sample.req .UNLINK ["."] {}) 1).log =
      [.send_reply { req := 7, result := -ENOENT } 3, .request_finish 7] ∧
    (Server.handle_client_unlink Sample.env Sample.mds0 (Sample.req .UNLINK [".."] {}) 1).log =
      [.send_reply { req := 7, result := -ENOENT } 3, .request_finish 7] ∧
    (Server.handle_client_unlink Sample.env Sample.mds0 (Sample.req .RMDIR ["."] {}) 1).log =
      [.send_reply { req := 7, result := -ENOENT } 3, .request_finish 7] ∧
    -ENOENT ≠ -EINVAL := by
  decide

/-- C15 (amended): `handle_client_unlink`, for UNLINK and for RMDIR, answers a request whose
filepath is the root (depth 0) with one EINVAL reply and does nothing else: the log gains the
reply and the end of the request, no lock and no journal entry. -/
theorem unlink_root_einval (env : Env) (s : MDS) (req : MClientRequest) (diri : inodeno_t)
    (h : req.filepath.depth = 0) :
    Server.handle_client_unlink env s req diri = Server.reply_request_r s req (-EINVAL) none ∧
    (Server.handle_client_unlink env s req diri).log = s.log ++
      [.send_reply { req := req.id, result := -EINVAL } req.client,
       .request_finish req.id] := by
  have h1 : Server.handle_client_unlink env s req diri = Server.reply_request_r s req (-EINVAL) none := by
    unfold Server.handle_client_unlink
    simp [h]
  rw [h1]
  simp [Server.include_trace]

/-- Witness for C15: RMDIR of the root on MDS0. -/
theorem unlink_root_einval_witness :
    (Server.handle_client_unlink Sample.env Sample.mds0 (Sample.req .RMDIR [] {}) 1).log =
      [] ++ [.send_reply { req := 7, result := -EINVAL } 3, .request_finish 7] :=
  (unlink_root_einval Sample.env Sample.mds0 (Sample.req .RMDIR [] {}) 1 (by decide)).2

/-! ## Rmdir of a directory that is not empty -/

namespace Server

theorem get_or_open_dirfrag_open (s : MDS) (ci : CInode) (fg : frag_t) (d : CDir)
    (h : s.get_dirfrag ⟨ci.inode.ino, fg⟩ = some d) : s.get_or_open_dirfrag ci fg = s := by
  unfold MDS.get_or_open_dirfrag
  simp [h]

/-- The loop of `_verify_rmdir` over leaf frags that are all open, authoritative and
complete, one of them holding a dentry: it stops at the first such frag with one ENOTEMPTY
reply. -/
theorem _verify_rmdir_frags_nonempty (s : MDS) (req : MClientRequest) (ref : inodeno_t)
    (ci : CInode) (frags : List frag_t)
    (hall : ∀ fg ∈ frags, ∃ d, s.get_dirfrag ⟨ci.inode.ino, fg⟩ = some d ∧ d.auth = true ∧
      d.complete = true)
    (hne : ∃ fg ∈ frags, ∃ d, s.get_dirfrag ⟨ci.inode.ino, fg⟩ = some d ∧ 0 < d.get_size) :
    _verify_rmdir_frags s req ref ci frags = (reply_request_r s req (-ENOTEMPTY) none, false) := by
  induction frags with
  | nil =>
    obtain ⟨fg, hfg, _⟩ := hne
    simp at hfg
  | cons p ps ih =>
    obtain ⟨d, hd, hauth, hcomplete⟩ := hall p (List.mem_cons_self _ _)
    unfold _verify_rmdir_frags
    rw [get_or_open_dirfrag_open s ci p d hd]
    simp only [hd, hauth, hcomplete]
    by_cases hsz : d.get_size = 0
    · have hrest : ∃ fg ∈ ps, ∃ d, s.get_dirfrag ⟨ci.inode.ino, fg⟩ = some d ∧
          0 < d.get_size := by
        obtain ⟨fg, hfg, d2, hd2, hpos⟩ := hne
        rcases List.mem_cons.mp hfg with h | h
        · subst h
          rw [hd] at hd2
          cases hd2
          omega
        · exact ⟨fg, h, d2, hd2, hpos⟩
      simp only [hsz, bne_self_eq_false, Bool.false_eq_true, ↓reduceIte, Bool.not_true,
        beq_self_eq_true, Bool.and_false, Bool.and_self]
      exact ih (fun fg hfg => hall fg (List.mem_cons_of_mem _ hfg)) hrest
    · simp [hsz]

end Server

/-- C16: an RMDIR whose victim is a directory with every leaf frag open, authoritative and
complete and some leaf frag holding a dentry (the parent dirfrag being valid and the victim's
dentry readable): the handler sends one ENOTEMPTY reply and does nothing else; the log gains
only the reply and the end of the request (no xlock start, no journal entry), the inodes are
as before and every dirfrag, the parent's included, holds the same names. -/
theorem rmdir_nonempty (env : Env) (s : MDS) (req : MClientRequest) (diri : inodeno_t)
    (di : CInode) (pd : CDir) (dn : CDentry) (vi : inodeno_t) (vci : CInode)
    (hop : req.op = .RMDIR) (hdepth : req.filepath.depth ≠ 0)
    (hi : s.get_inode diri = some di) (hdir : di.is_dir = true)
    (hd : s.get_dirfrag ⟨diri, env.pick_dirfrag di.dirfragtree req.filepath.last_dentry⟩ =
      some pd)
    (hauth : pd.auth = true) (hpin : pd.auth_pinnable = true) (hfrozen : pd.frozen = false)
    (hdn : pd.lookup req.filepath.last_dentry = some dn)
    (hread : dn.can_read req.id = true) (hino : dn.inode = some vi)
    (hv : s.get_inode vi = some vci) (hvdir : vci.is_dir = true) (hvauth : vci.auth = true)
    (hall : ∀ fg ∈ vci.dirfragtree, ∃ d, s.get_dirfrag ⟨vi, fg⟩ = some d ∧ d.auth = true ∧
      d.complete = true)
    (hne : ∃ fg ∈ vci.dirfragtree, ∃ d, s.get_dirfrag ⟨vi, fg⟩ = some d ∧ 0 < d.get_size) :
    Server.handle_client_unlink env s req diri = Server.reply_request_r s req (-ENOTEMPTY) none ∧
    (Server.handle_client_unlink env s req diri).log = s.log ++
      [.send_reply { req := req.id, result := -ENOTEMPTY } req.client,
       .request_finish req.id] ∧
    (Server.handle_client_unlink env s req diri).inode_map = s.inode_map ∧
    (∀ df, (Server.handle_client_unlink env s req diri).dentry_names df = s.dentry_names df) := by
  have hv2 := Server.validate_dentry_dir_open env s req diri req.filepath.last_dentry di pd hi hdir hd
    hauth hpin hfrozen
  have hvino : vci.inode.ino = vi := MDS.get_inode_ino s vi vci hv
  have hfr : Server._verify_rmdir_frags s req diri vci vci.dirfragtree =
      (Server.reply_request_r s req (-ENOTEMPTY) none, false) := by
    apply Server._verify_rmdir_frags_nonempty
    · rw [hvino]; exact hall
    · rw [hvino]; exact hne
  have hnull : dn.is_null = false := by simp [CDentry.is_null, hino]
  have h1 : Server.handle_client_unlink env s req diri = Server.reply_request_r s req (-ENOTEMPTY) none := by
    unfold Server.handle_client_unlink
    have hdp : (req.filepath.depth == 0) = false := by simpa using hdepth
    simp only [hdp, Bool.false_eq_true, ↓reduceIte, hi, hdir, Bool.not_true, hv2, hd, hdn, hread,
      hnull]
    unfold Server.unlink_found Server.unlink_open_remote
    simp only [hino, hv]
    unfold Server.unlink_check_type Server._verify_rmdir
    simp only [hvdir, hop, beq_self_eq_true, ↓reduceIte, hv, hvauth, Bool.not_true,
      Bool.false_eq_true, hfr, Bool.not_false]
  refine ⟨h1, ?_, ?_, ?_⟩
  · rw [h1]; simp [Server.include_trace]
  · rw [h1]; simp
  · intro df; rw [h1]; simp


/-- Witness for C16: RMDIR of the directory `d` of the sample tree, which holds the file
`x`. -/
theorem rmdir_nonempty_witness :
    Server.handle_client_unlink Sample.env Sample.mds_tree (Sample.req .RMDIR ["d"] {}) 1 =
      Server.reply_request_r Sample.mds_tree (Sample.req .RMDIR ["d"] {}) (-ENOTEMPTY) none :=
  (rmdir_nonempty Sample.env Sample.mds_tree (Sample.req .RMDIR ["d"] {}) 1
    Sample.root_inode
    { dirfrag := ⟨1, 0⟩,
      items := [{ name := "a", inode := some 42 }, { name := "d", inode := some 50 }] }
    { name := "d", inode := some 50 } 50
    { inode := { ino := 50, mode := 0o040755 }, parent := some ⟨⟨1, 0⟩, "d"⟩ }
    (by decide) (by decide) (by decide) (by decide) (by decide) (by decide) (by decide)
    (by decide) (by decide) (by decide) (by decide) (by decide) (by decide) (by decide)
    (fun fg hfg => by
      have h0 : fg = 0 := by simpa using hfg
      subst h0
      exact ⟨{ dirfrag := ⟨50, 0⟩, items := [{ name := "x", inode := some 51 }] },
        by decide, rfl, rfl⟩)
    ⟨0, by decide, { dirfrag := ⟨50, 0⟩, items := [{ name := "x", inode := some 51 }] },
      by decide, by decide⟩).1

/-! ## Unlink of the last link -/

/-- C17 (code defect, evaluated): unlinking the only link of the sample file (primary dentry
`a`, inode 42 with nlink 1 and no capability wanted): the handler journals the inode as
destroyed, but after its finisher has run the inode is still in the cache with nlink 1, and no
purge was asked for. -/
theorem unlink_last_link_keeps_inode :
    (Sample.mds0.get_dentry ⟨⟨1, 0⟩, "a"⟩).map (fun d => d.is_primary) = some true ∧
    (Sample.mds0.get_inode 42).map (fun c => (c.inode.nlink, c.caps_wanted)) = some (1, 0) ∧
    (Server.handle_client_unlink Sample.env Sample.mds0 (Sample.req .UNLINK ["a"] {}) 1).log =
      [.lock_start .dentry_xlock 1 (some ⟨⟨1, 0⟩, "a"⟩) 7 true,
       .hit_dir ⟨1, 0⟩ .META_POP_DWR,
       .submit_entry (.EUpdate "unlink_local"
         [.dir_context (some ⟨1, 0⟩), .null_dentry ⟨⟨1, 0⟩, "a"⟩ true,
          .destroyed_inode Sample.file_inode.inode]) none,
       .wait_for_sync (.C_MDS_unlink_local_finish (Sample.req .UNLINK ["a"] {})
         ⟨⟨1, 0⟩, "a"⟩ 42 1 0 0)] ∧
    ((Server.finish Sample.env
        (Server.handle_client_unlink Sample.env Sample.mds0 (Sample.req .UNLINK ["a"] {}) 1)
        (.C_MDS_unlink_local_finish (Sample.req .UNLINK ["a"] {}) ⟨⟨1, 0⟩, "a"⟩ 42 1 0 0)
        0 []).get_inode 42).map (fun c => c.inode.nlink) = some 1 ∧
    Effect.purge_inode 42 ∉ (Server.finish Sample.env
        (Server.handle_client_unlink Sample.env Sample.mds0 (Sample.req .UNLINK ["a"] {}) 1)
        (.C_MDS_unlink_local_finish (Sample.req .UNLINK ["a"] {}) ⟨⟨1, 0⟩, "a"⟩ 42 1 0 0)
        0 []).log := by
  decide

/-! ## Rename sanity checks -/

namespace Server

/-- The `mv a/b a/b/c` test of `handle_client_rename`, in terms of the index it reads. -/
theorem rename_prefix_test_eq (req : MClientRequest) :
    (req.path.data.isPrefixOf req.sarg.data
      && req.sarg.data[req.path.data.length]? == some '/') =
    (rename_prefix_read req).any (fun i => req.sarg.data[i]? == some '/') := by
  unfold rename_prefix_read
  cases h : req.path.data.isPrefixOf req.sarg.data <;> simp

end Server

/-- C18: `handle_client_rename` answers with one EINVAL reply and nothing else (no
traversal, no lock, no journal entry) when the source filepath is the root, when the
destination string is the source string followed by `/` and more, and when the destination
string equals the source string.  The destination character examined by the prefix test is
read at an index no greater than the destination's length. -/
theorem rename_einval_cases (env : Env) (s : MDS) (req : MClientRequest) (ref : inodeno_t)
    (h : req.filepath.depth = 0 ∨ (∃ rest, req.sarg.data = req.path.data ++ '/' :: rest) ∨
      req.sarg = req.path) :
    Server.handle_client_rename env s req ref = Server.reply_request_r s req (-EINVAL) none ∧
    (Server.handle_client_rename env s req ref).log = s.log ++
      [.send_reply { req := req.id, result := -EINVAL } req.client,
       .request_finish req.id] ∧
    (∀ i, Server.rename_prefix_read req = some i → i ≤ req.sarg.data.length) := by
  have h1 : Server.handle_client_rename env s req ref = Server.reply_request_r s req (-EINVAL) none := by
    unfold Server.handle_client_rename
    rcases h with h | ⟨rest, h⟩ | h
    · simp [h]
    · have hp : req.path.data.isPrefixOf req.sarg.data = true := by
        rw [List.isPrefixOf_iff_prefix, h]
        exact List.prefix_append _ _
      have hc : req.sarg.data[req.path.data.length]? = some '/' := by
        rw [h, List.getElem?_append_right (le_refl _)]
        simp
      simp only [hp, hc, beq_self_eq_true, Bool.and_self, ↓reduceIte, ite_self]
    · simp only [h, beq_self_eq_true, ↓reduceIte, ite_self]
  refine ⟨h1, ?_, ?_⟩
  · rw [h1]; simp [Server.include_trace]
  · intro i hi
    unfold Server.rename_prefix_read at hi
    split at hi
    · rename_i hp
      rw [List.isPrefixOf_iff_prefix] at hp
      have := hp.length_le
      simp only [Option.some.injEq] at hi
      omega
    · simp at hi

/-- Witness for C18: a rename of `/a` to `/a/b` on MDS0. -/
theorem rename_einval_cases_witness :
    Server.handle_client_rename Sample.env Sample.mds0
        { Sample.req .RENAME ["a"] {} with path := "/a", sarg := "/a/b" } 1 =
      Server.reply_request_r Sample.mds0
        { Sample.req .RENAME ["a"] {} with path := "/a", sarg := "/a/b" } (-EINVAL) none :=
  (rename_einval_cases Sample.env Sample.mds0
    { Sample.req .RENAME ["a"] {} with path := "/a", sarg := "/a/b" } 1
    (Or.inr (Or.inl ⟨['b'], by decide⟩))).1

/-! ## Link, then unlink -/

namespace MDS

theorem get_dentry_of_dirs {s t : MDS} (h : t.dirs = s.dirs) (p : DnPtr) :
    t.get_dentry p = s.get_dentry p := by
  unfold get_dentry get_dirfrag; rw [h]

@[simp] theorem get_dentry_inode_pre_dirty (s : MDS) (i : inodeno_t) (p : DnPtr) :
    (s.inode_pre_dirty i).1.get_dentry p = s.get_dentry p :=
  get_dentry_of_dirs (dirs_inode_pre_dirty s i) p

@[simp] theorem get_dentry_inode_mark_dirty (s : MDS) (i : inodeno_t) (pv : version_t)
    (p : DnPtr) : (s.inode_mark_dirty i pv).get_dentry p = s.get_dentry p := rfl

@[simp] theorem get_dentry_inode_lock_finish (s : MDS) (k : LockKind) (i : inodeno_t)
    (p : DnPtr) : (s.inode_lock_finish k i).get_dentry p = s.get_dentry p := rfl

@[simp] theorem get_dentry_inode_lock_start (env : Env) (s : MDS) (k : LockKind)
    (i : inodeno_t) (r : ReqId) (p : DnPtr) :
    (s.inode_lock_start env k i r).1.get_dentry p = s.get_dentry p := rfl

@[simp] theorem get_inode_inode_lock_start (env : Env) (s : MDS) (k : LockKind)
    (i : inodeno_t) (r : ReqId) (j : inodeno_t) :
    (s.inode_lock_start env k i r).1.get_inode j = s.get_inode j := rfl

/-- A dentry lookup after `request_finish`: the dentry found before, its xlock released if
the request held it. -/
theorem get_dentry_request_finish (s : MDS) (r : ReqId) (p : DnPtr) :
    (s.request_finish r).get_dentry p =
      (s.get_dentry p).map (fun dn =>
        if dn.xlockedby == some r then { dn with xlockedby := none } else dn) := by
  unfold request_finish get_dentry get_dirfrag
  simp only [emit]
  rw [find?_map_same]
  swap
  · intro x; rfl
  cases List.find? (fun d => d.dirfrag == p.dir) s.dirs with
  | none => rfl
  | some d =>
    simp only [Option.map_some', Option.some_bind]
    unfold CDir.lookup
    simp only []
    rw [find?_map_same]
    intro x
    split <;> rfl

/-- The inode side of `inode_pre_dirty`: only the projected version moves. -/
theorem get_inode_inode_pre_dirty (s : MDS) (i j : inodeno_t) :
    ((s.inode_pre_dirty i).1.get_inode j).map (fun c => c.inode) =
      (s.get_inode j).map (fun c => c.inode) := by
  have h := attrs_inode_pre_dirty s i
  have h1 := inode_attrs_eq_find (s.inode_pre_dirty i).1 j
  have h2 := inode_attrs_eq_find s j
  unfold inode_attrs at h1 h2
  rw [h1, h2, h]

theorem inode_pre_dirty_version (s : MDS) (i : inodeno_t) (c : CInode)
    (h : s.get_inode i = some c) : (s.inode_pre_dirty i).2 = c.projected_version + 1 := by
  unfold inode_pre_dirty
  simp [h]

/-- The inode side of `unlink_inode`: at most the parent pointer is cleared. -/
theorem get_inode_unlink_inode (s : MDS) (p : DnPtr) (j : inodeno_t) :
    (s.unlink_inode p).get_inode j =
      (s.get_inode j).map (fun i => if i.parent == some p then { i with parent := none }
        else i) := by
  unfold unlink_inode get_inode
  simp only [modify_dentry, modify_dir]
  rw [find?_map_same]
  intro x
  split <;> rfl

theorem get_inode_foldl_emit (l : List Int) (f : Int → Effect) (s : MDS) (j : inodeno_t) :
    (l.foldl (fun st m => st.emit (f m)) s).get_inode j = s.get_inode j := by
  induction l generalizing s with
  | nil => rfl
  | cons a l ih => simp only [List.foldl_cons]; rw [ih]; rfl

end MDS

namespace Server

@[simp] theorem get_dentry_reply_request (s : MDS) (req : MClientRequest)
    (reply : MClientReply) (t : Option inodeno_t) (p : DnPtr) :
    (reply_request s req reply t).get_dentry p =
      (s.get_dentry p).map (fun dn =>
        if dn.xlockedby == some req.id then { dn with xlockedby := none } else dn) := by
  unfold reply_request
  show ((s.emit _).request_finish req.id).get_dentry p = _
  rw [MDS.get_dentry_request_finish]
  rfl

@[simp] theorem journal_emit_submit (s : MDS) (le : LogEvent) (c : Option Context) :
    (s.emit (.submit_entry le c)).journal = s.journal ++ [le] := by
  unfold MDS.journal MDS.emit
  simp [List.filterMap_append]

/-- The link finisher adds one to the link count of the target. -/
theorem link_local_finish_nlink (s : MDS) (req : MClientRequest) (dn : DnPtr)
    (t : inodeno_t) (dpv : version_t) (tctime : time_t) (tpv : version_t) :
    ((_link_local_finish s req dn t dpv tctime tpv 0).get_inode t).map
        (fun c => c.inode.nlink) =
      (s.get_inode t).map (fun c => c.inode.nlink + 1) := by
  unfold _link_local_finish
  simp only [bne_self_eq_false, Bool.false_eq_true, ↓reduceIte, get_inode_reply_request,
    MDS.get_inode_emit, MDS.get_inode_inode_lock_finish, MDS.get_inode_dentry_xlock_finish]
  rw [MDS.get_inode_inode_mark_dirty, MDS.get_inode_modify_inode_self]
  swap
  · intro x; rfl
  simp only [MDS.get_inode_dentry_mark_dirty, MDS.get_inode_modify_dentry]
  cases s.get_inode t <;> rfl

/-- The link finisher makes the new dentry a remote link to the target. -/
theorem link_local_finish_remote (s : MDS) (req : MClientRequest) (dn : DnPtr)
    (t : inodeno_t) (dpv : version_t) (tctime : time_t) (tpv : version_t) :
    ((_link_local_finish s req dn t dpv tctime tpv 0).get_dentry dn).map
        (fun d => d.remote_ino) =
      (s.get_dentry dn).map (fun _ => t) := by
  unfold _link_local_finish
  simp only [bne_self_eq_false, Bool.false_eq_true, ↓reduceIte, get_dentry_reply_request,
    MDS.get_dentry_emit, MDS.get_dentry_inode_lock_finish]
  unfold MDS.dentry_xlock_finish MDS.dentry_mark_dirty
  simp only [MDS.get_dentry_emit, MDS.get_dentry_inode_mark_dirty, MDS.get_dentry_modify_inode]
  rw [MDS.get_dentry_modify_dentry_self]
  simp only [MDS.get_dentry_inode_mark_dirty, MDS.get_dentry_modify_inode]
  rw [MDS.get_dentry_modify_dentry_self, MDS.get_dentry_modify_dentry_self]
  · cases s.get_dentry dn with
    | none => rfl
    | some d =>
      simp only [Option.map_some', Option.some.injEq]
      split <;> rfl
  all_goals (intro x; rfl)

/-- A handler that ends by submitting a journal entry and registering a finisher: what the
journal, the registered continuation and the cache look like afterwards. -/
theorem submit_and_wait (x : MDS) (le : LogEvent) (fin : Context) :
    ((x.emit (.submit_entry le none)).emit (.wait_for_sync fin)).journal = x.journal ++ [le] ∧
    ((x.emit (.submit_entry le none)).emit (.wait_for_sync fin)).last_sync = some fin := by
  constructor
  · unfold MDS.journal MDS.emit
    simp [List.filterMap_append]
  · unfold MDS.last_sync MDS.emit
    simp

theorem journal_inode_lock_start (env : Env) (s : MDS) (k : LockKind) (i : inodeno_t)
    (r : ReqId) : (s.inode_lock_start env k i r).1.journal = s.journal := by
  unfold MDS.journal MDS.inode_lock_start MDS.emit
  simp [List.filterMap_append]

theorem journal_of_log {s t : MDS} (h : t.log = s.log) : t.journal = s.journal := by
  unfold MDS.journal; rw [h]

/-- The journalling path of `link_local`: target in the cache with a parent dentry, anchoring
not needed, hard-write lock granted. -/
theorem link_local_stage (env : Env) (s : MDS) (req : MClientRequest) (diri : inodeno_t)
    (dn : DnPtr) (t : inodeno_t) (ti : CInode) (tparent : DnPtr)
    (ht : s.get_inode t = some ti) (hparent : ti.parent = some tparent)
    (hanchor : (ti.get_parent_dir == some dn.dir) = true ∨
      (ti.anchored = true ∧ ti.unanchoring = false))
    (hlock : env.lock_start s .inode_hard_write t none req.id = true) :
    ∃ (x : MDS) (pi : inode_t) (dpv : version_t) (tct : time_t) (tpv : version_t),
      link_local env s req diri dn t =
        (x.emit (.submit_entry (.EUpdate "link_local"
          [.dir_context (some dn.dir), .remote_dentry dn true ti.inode.ino,
           .dir_context ti.get_parent_dir, .primary_dentry ti.parent true pi]) none)).emit
          (.wait_for_sync (.C_MDS_link_local_finish req dn t dpv tct tpv)) ∧
      pi.nlink = ti.inode.nlink + 1 ∧
      x.journal = s.journal ∧
      (x.get_inode t).map (fun c => c.inode) = some ti.inode ∧
      (x.get_dentry dn).isSome = (s.get_dentry dn).isSome := by
  have ha : (!(ti.get_parent_dir == some dn.dir) && !(ti.is_anchored && !ti.is_unanchoring)) =
      false := by
    rcases hanchor with h | ⟨h1, h2⟩
    · simp [h]
    · simp [CInode.is_anchored, CInode.is_unanchoring, h1, h2]
  unfold link_local
  simp only [ht, ha, Bool.false_eq_true, ↓reduceIte, MDS.inode_lock_start, hlock, Bool.not_true,
    hparent]
  refine ⟨_, _, _, _, _, rfl, rfl, ?_, ?_, ?_⟩
  · rw [journal_of_log (MDS.log_inode_pre_dirty _ _)]
    unfold MDS.journal
    simp [List.filterMap_append]
  · rw [MDS.get_inode_inode_pre_dirty]
    simp [ht]
  · rw [MDS.get_dentry_inode_pre_dirty]
    unfold MDS.dentry_pre_dirty
    rw [MDS.get_dentry_modify_dentry_self]
    · simp
    · intro d; rfl

/-- The journalling path of `_unlink_local` for a remote dentry, the hard-write lock
granted. -/
theorem unlink_local_stage (env : Env) (s : MDS) (req : MClientRequest) (dn : DnPtr)
    (t : inodeno_t) (c : CInode) (d : CDentry)
    (hc : s.get_inode t = some c) (hd : s.get_dentry dn = some d)
    (hremote : d.is_remote = true)
    (hlock : env.lock_start s .inode_hard_write t none req.id = true) :
    ∃ (x : MDS) (pi : inode_t) (ipv dpv : version_t),
      _unlink_local env s req dn t =
        (x.emit (.submit_entry (.EUpdate "unlink_local"
          ([.dir_context (some dn.dir), .null_dentry dn true] ++
           [.dir_context c.get_parent_dir, .primary_dentry c.parent true pi])) none)).emit
          (.wait_for_sync (.C_MDS_unlink_local_finish req dn t ipv (env.gettime x) dpv)) ∧
      pi.nlink = c.inode.nlink - 1 ∧
      ipv ≠ 0 ∧
      x.journal = s.journal ∧
      (x.get_inode t).map (fun c => c.inode) = some c.inode ∧
      (x.get_dentry dn).map (fun d => d.is_remote) = some true := by
  unfold _unlink_local
  simp only [hc, hd, hremote, Bool.not_true, Bool.and_false, Bool.false_eq_true, ↓reduceIte]
  by_cases hn : c.inode.nlink > 1
  · simp only [hn, ↓reduceIte, MDS.inode_lock_start, hlock, Bool.not_true, Bool.false_eq_true]
    refine ⟨_, _, _, _, rfl, rfl, ?_, ?_, ?_, ?_⟩
    · rw [MDS.inode_pre_dirty_version _ _ c (by simpa using hc)]
      exact Nat.succ_ne_zero _
    · rw [journal_of_log (MDS.log_dentry_pre_dirty _ _),
        journal_of_log (MDS.log_inode_pre_dirty _ _)]
      unfold MDS.journal
      simp [List.filterMap_append]
    · rw [MDS.get_inode_dentry_pre_dirty, MDS.get_inode_inode_pre_dirty]
      simp [hc]
    · unfold MDS.dentry_pre_dirty
      rw [MDS.get_dentry_modify_dentry_self]
      · rw [MDS.get_dentry_inode_pre_dirty]
        simp only [MDS.get_dentry_emit, hd, Option.map_some', Option.some.injEq]
        exact hremote
      · intro d; rfl
  · simp only [hn, ↓reduceIte, Bool.not_true, Bool.false_eq_true]
    refine ⟨_, _, _, _, rfl, rfl, ?_, ?_, ?_, ?_⟩
    · rw [MDS.inode_pre_dirty_version _ _ c hc]
      exact Nat.succ_ne_zero _
    · rw [journal_of_log (MDS.log_dentry_pre_dirty _ _),
        journal_of_log (MDS.log_inode_pre_dirty _ _)]
    · rw [MDS.get_inode_dentry_pre_dirty, MDS.get_inode_inode_pre_dirty]
      simp [hc]
    · unfold MDS.dentry_pre_dirty
      rw [MDS.get_dentry_modify_dentry_self]
      · rw [MDS.get_dentry_inode_pre_dirty]
        simp only [hd, Option.map_some', Option.some.injEq]
        exact hremote
      · intro d; rfl

/-- The unlink finisher on a remote dentry takes one off the link count of the inode, which
stays in the cache as long as a link is left. -/
theorem unlink_local_finish_nlink (s : MDS) (req : MClientRequest) (dn : DnPtr)
    (t : inodeno_t) (ipv : version_t) (ictime : time_t) (dpv : version_t) (c : CInode)
    (d : CDentry) (hc : s.get_inode t = some c) (hd : s.get_dentry dn = some d)
    (hremote : d.is_remote = true) (hipv : ipv ≠ 0) (hict : ictime ≠ 0)
    (hleft : c.inode.nlink - 1 ≠ 0) :
    ((_unlink_local_finish s req dn t ipv ictime dpv 0).get_inode t).map
        (fun c => c.inode.nlink) = some (c.inode.nlink - 1) := by
  have hb : (ipv == 0 || ictime == 0) = false := by simp [hipv, hict]
  unfold _unlink_local_finish
  simp only [bne_self_eq_false, Bool.false_eq_true, ↓reduceIte, hd, hremote, hb, Bool.and_false]
  split
  · rename_i h
    rw [MDS.get_inode_dentry_xlock_finish, MDS.get_inode_foldl_emit, MDS.get_inode_unlink_inode,
      MDS.get_inode_dentry_mark_dirty, MDS.get_inode_inode_lock_finish,
      MDS.get_inode_inode_mark_dirty, MDS.get_inode_modify_inode_self, hc] at h
    · simp at h
    · intro x; rfl
  · rename_i ci h0
    have h := h0
    rw [MDS.get_inode_dentry_xlock_finish, MDS.get_inode_foldl_emit, MDS.get_inode_unlink_inode,
      MDS.get_inode_dentry_mark_dirty, MDS.get_inode_inode_lock_finish,
      MDS.get_inode_inode_mark_dirty, MDS.get_inode_modify_inode_self, hc] at h
    swap
    · intro x; rfl
    simp only [Option.map_some', Option.some.injEq] at h
    have hci : ci.inode.nlink = c.inode.nlink - 1 := by
      rw [← h]
      split <;> rfl
    have hz : (ci.inode.nlink == 0) = false := by
      rw [hci]
      simpa using hleft
    simp only [hz, Bool.false_eq_true, ↓reduceIte, get_inode_reply_request, MDS.get_inode_emit,
      h0, Option.map_some']
    rw [hci]

end Server

/-- C14: let an inode in the cache have link count `n`, at least 1, and let `link_local`
journal a new remote dentry `b` for it (anchoring not needed, the hard-write locks granted,
the clock not at 0).  The journal entry of the link records `n + 1`; after its finisher
(`_link_local_finish`) the inode has link count `n + 1`; `_unlink_local` on `b` then journals
`n`; and after its finisher (`_unlink_local_finish`) the link count is `n` again. -/
theorem link_then_unlink_restores_nlink (env : Env) (s : MDS) (req req2 : MClientRequest)
    (diri : inodeno_t) (dn : DnPtr) (t : inodeno_t) (ti : CInode) (d : CDentry)
    (tparent : DnPtr)
    (hlock : ∀ (st : MDS) (r : ReqId), env.lock_start st .inode_hard_write t none r = true)
    (hclock : ∀ st : MDS, env.gettime st ≠ 0)
    (ht : s.get_inode t = some ti) (hd : s.get_dentry dn = some d)
    (ht0 : 0 < t) (hn : 0 < ti.inode.nlink) (hparent : ti.parent = some tparent)
    (hanchor : (ti.get_parent_dir == some dn.dir) = true ∨
      (ti.anchored = true ∧ ti.unanchoring = false)) :
    (Server.link_local env s req diri dn t).journal.map LogEvent.nlinks =
      s.journal.map LogEvent.nlinks ++ [[ti.inode.nlink + 1]] ∧
    ((Server.sync env (Server.link_local env s req diri dn t)).get_inode t).map (fun c => c.inode.nlink) =
      some (ti.inode.nlink + 1) ∧
    (Server._unlink_local env (Server.sync env (Server.link_local env s req diri dn t)) req2 dn t).journal.map
        LogEvent.nlinks =
      (Server.sync env (Server.link_local env s req diri dn t)).journal.map LogEvent.nlinks ++
        [[ti.inode.nlink]] ∧
    ((Server.sync env (Server._unlink_local env (Server.sync env (Server.link_local env s req diri dn t)) req2 dn t)
        ).get_inode t).map (fun c => c.inode.nlink) = some ti.inode.nlink := by
  obtain ⟨x, pi, dpv, tct, tpv, hs1, hpi, hxj, hxi, hxd⟩ :=
    Server.link_local_stage env s req diri dn t ti tparent ht hparent hanchor (hlock s req.id)
  obtain ⟨hj1, hls1⟩ := Server.submit_and_wait x (.EUpdate "link_local"
    [.dir_context (some dn.dir), .remote_dentry dn true ti.inode.ino,
     .dir_context ti.get_parent_dir, .primary_dentry ti.parent true pi])
    (.C_MDS_link_local_finish req dn t dpv tct tpv)
  rw [← hs1] at hj1 hls1
  have hi1 : ((Server.link_local env s req diri dn t).get_inode t).map (fun c => c.inode) =
      some ti.inode := by rw [hs1]; exact hxi
  have hd1 : ((Server.link_local env s req diri dn t).get_dentry dn).isSome = true := by
    rw [hs1]
    simp only [MDS.get_dentry_emit, hxd, hd, Option.isSome_some]
  have hsync1 : Server.sync env (Server.link_local env s req diri dn t) =
      Server._link_local_finish (Server.link_local env s req diri dn t) req dn t dpv tct tpv 0 := by
    unfold Server.sync
    rw [hls1]
    rfl
  generalize Server.link_local env s req diri dn t = s1 at *
  have hi2 := Server.link_local_finish_nlink s1 req dn t dpv tct tpv
  have hd2 := Server.link_local_finish_remote s1 req dn t dpv tct tpv
  rw [← hsync1] at hi2 hd2
  generalize Server.sync env s1 = s2 at *
  cases hg1 : s1.get_inode t with
  | none => rw [hg1] at hi1; simp at hi1
  | some c1 =>
  rw [hg1] at hi1 hi2
  simp only [Option.map_some', Option.some.injEq] at hi1 hi2
  cases hgd1 : s1.get_dentry dn with
  | none => rw [hgd1] at hd1; simp at hd1
  | some d1 =>
  rw [hgd1] at hd2
  simp only [Option.map_some'] at hd2
  cases hg2 : s2.get_inode t with
  | none => rw [hg2] at hi2; simp at hi2
  | some c2 =>
  rw [hg2] at hi2
  simp only [Option.map_some', Option.some.injEq] at hi2
  cases hgd2 : s2.get_dentry dn with
  | none => rw [hgd2] at hd2; simp at hd2
  | some d2 =>
  rw [hgd2] at hd2
  simp only [Option.map_some', Option.some.injEq] at hd2
  have hc2 : c2.inode.nlink = ti.inode.nlink + 1 := by rw [hi2, hi1]
  have hrem : d2.is_remote = true := by
    unfold CDentry.is_remote
    rw [hd2]
    simpa using ht0
  obtain ⟨x3, pi3, ipv, dpv3, hs3, hpi3, hipv, hx3j, hx3i, hx3d⟩ :=
    Server.unlink_local_stage env s2 req2 dn t c2 d2 hg2 hgd2 hrem (hlock s2 req2.id)
  obtain ⟨hj3, hls3⟩ := Server.submit_and_wait x3 (.EUpdate "unlink_local"
    ([.dir_context (some dn.dir), .null_dentry dn true] ++
     [.dir_context c2.get_parent_dir, .primary_dentry c2.parent true pi3]))
    (.C_MDS_unlink_local_finish req2 dn t ipv (env.gettime x3) dpv3)
  rw [← hs3] at hj3 hls3
  have hi3 : ((Server._unlink_local env s2 req2 dn t).get_inode t).map (fun c => c.inode) =
      some c2.inode := by rw [hs3]; exact hx3i
  have hd3 : ((Server._unlink_local env s2 req2 dn t).get_dentry dn).map (fun d => d.is_remote) =
      some true := by rw [hs3]; exact hx3d
  have hsync3 : Server.sync env (Server._unlink_local env s2 req2 dn t) =
      Server._unlink_local_finish (Server._unlink_local env s2 req2 dn t) req2 dn t ipv (env.gettime x3)
        dpv3 0 := by
    unfold Server.sync
    rw [hls3]
    rfl
  generalize Server._unlink_local env s2 req2 dn t = s3 at *
  cases hg3 : s3.get_inode t with
  | none => rw [hg3] at hi3; simp at hi3
  | some c3 =>
  rw [hg3] at hi3
  simp only [Option.map_some', Option.some.injEq] at hi3
  cases hgd3 : s3.get_dentry dn with
  | none => rw [hgd3] at hd3; simp at hd3
  | some d3 =>
  rw [hgd3] at hd3
  simp only [Option.map_some', Option.some.injEq] at hd3
  have hc3 : c3.inode.nlink = ti.inode.nlink + 1 := by rw [hi3, hc2]
  have h4 := Server.unlink_local_finish_nlink s3 req2 dn t ipv (env.gettime x3) dpv3 c3 d3 hg3 hgd3
    hd3 hipv (hclock x3) (by rw [hc3]; omega)
  refine ⟨?_, ?_, ?_, ?_⟩
  · rw [hj1, hxj]
    simp [LogEvent.nlinks, hpi]
  · simp [hc2]
  · rw [hj3, hx3j]
    simp [LogEvent.nlinks, hpi3, hc2]
  · rw [hsync3, h4, hc3]
    simp

/-- Witness for C14: the file `a` of MDS0, link count 1, linked as `b` and unlinked again. -/
theorem link_then_unlink_restores_nlink_witness :
    ((Server.sync Sample.env (Server._unlink_local Sample.env
        (Server.sync Sample.env
          (Server.link_local Sample.env Sample.mds_newdn (Sample.req .LINK ["b"] {}) 1 ⟨⟨1, 0⟩, "b"⟩ 42))
        (Sample.req .UNLINK ["b"] {}) ⟨⟨1, 0⟩, "b"⟩ 42)).get_inode 42).map
      (fun c => c.inode.nlink) = some 1 :=
  (link_then_unlink_restores_nlink Sample.env Sample.mds_newdn (Sample.req .LINK ["b"] {})
    (Sample.req .UNLINK ["b"] {}) 1 ⟨⟨1, 0⟩, "b"⟩ 42 Sample.file_inode
    { name := "b", xlockedby := some 7 } ⟨⟨1, 0⟩, "a"⟩
    (fun _ _ => rfl) (fun _ => (by decide : (1000 : Int) ≠ 0)) (by decide) (by decide) (by decide) (by decide)
    (by decide) (Or.inl (by decide))).2.2.2

/-! ## Lock order of a rename -/

namespace MDS

@[simp] theorem xlock_attempts_emit (s : MDS) (e : Effect) :
    (s.emit e).xlock_attempts = s.xlock_attempts ++ e.xlock_target.toList := by
  unfold xlock_attempts emit
  simp only [List.filterMap_append]
  cases h : e.xlock_target <;> simp [List.filterMap_cons, h]

theorem xlock_attempts_of_log {s t : MDS} (h : t.log = s.log) :
    t.xlock_attempts = s.xlock_attempts := by
  unfold xlock_attempts; rw [h]

@[simp] theorem xlock_attempts_add_dentry (s : MDS) (df : dirfrag_t) (n : String) :
    (s.add_dentry df n).xlock_attempts = s.xlock_attempts := rfl

@[simp] theorem xlock_attempts_remove_dentry (s : MDS) (p : DnPtr) :
    (s.remove_dentry p).xlock_attempts = s.xlock_attempts := rfl

@[simp] theorem xlock_attempts_dentry_xlock_start (env : Env) (s : MDS) (p : DnPtr) (r : ReqId)
    (ref : inodeno_t) :
    (s.dentry_xlock_start env p r ref).1.xlock_attempts = s.xlock_attempts ++ [p] := by
  unfold xlock_attempts
  rw [log_dentry_xlock_start]
  simp [List.filterMap_append, Effect.xlock_target]

end MDS

namespace Server

/-- One round of the lock loop tries at most the lock of its side. -/
theorem rename_lock_round_attempts (env : Env) (s : MDS) (req : MClientRequest)
    (ref : inodeno_t) (dosrc sl dl : Bool) (srcdn : DnPtr) (destdir : dirfrag_t)
    (destdn : Option DnPtr) (destname : String)
    (hdest : destdn = none ∨ destdn = some ⟨destdir, destname⟩) :
    ((rename_lock_round env s req ref dosrc sl dl srcdn destdir destdn destname).1.xlock_attempts
        = s.xlock_attempts ∨
      (rename_lock_round env s req ref dosrc sl dl srcdn destdir destdn destname).1.xlock_attempts
        = s.xlock_attempts ++ [if dosrc then srcdn else ⟨destdir, destname⟩]) ∧
    ((rename_lock_round env s req ref dosrc sl dl srcdn destdir destdn destname).2.1 = none ∨
      (rename_lock_round env s req ref dosrc sl dl srcdn destdir destdn destname).2.1 =
        some ⟨destdir, destname⟩) := by
  have hp : destdn.getD ⟨destdir, destname⟩ = ⟨destdir, destname⟩ := by
    rcases hdest with h | h <;> simp [h]
  unfold rename_lock_round
  simp only [hp]
  repeat' split
  all_goals simp_all [Effect.xlock_target]

/-- The dentry found under a name after `add_dentry` for that name: the one that was there,
else the new null dentry. -/
theorem get_dentry_add_dentry (s : MDS) (df : dirfrag_t) (n : String) (d : CDir)
    (h : s.get_dirfrag df = some d) :
    (s.add_dentry df n).get_dentry ⟨df, n⟩ = some ((d.lookup n).getD { name := n }) := by
  have hdf := MDS.get_dirfrag_dirfrag s df d h
  unfold MDS.add_dentry MDS.get_dentry
  rw [MDS.get_dirfrag_modify_dir]
  swap
  · intro x; rfl
  simp only [h, Option.map_some', hdf, beq_self_eq_true, ↓reduceIte, Option.some_bind]
  unfold CDir.lookup
  simp only [List.find?_append]
  cases List.find? (fun dn => dn.name == n) d.items <;> simp

/-- A round whose dentry exists and is not yet xlocked by the request tries that lock. -/
theorem rename_lock_round_tries (env : Env) (s : MDS) (req : MClientRequest)
    (ref : inodeno_t) (dosrc sl dl : Bool) (srcdn : DnPtr) (destdir : dirfrag_t)
    (destdn : Option DnPtr) (destname : String)
    (hdest : destdn = none ∨ destdn = some ⟨destdir, destname⟩)
    (hsrc : (s.get_dentry srcdn).isSome = true)
    (hdir : (s.get_dirfrag destdir).isSome = true)
    (hdn : destdn = some ⟨destdir, destname⟩ →
      (s.get_dentry ⟨destdir, destname⟩).isSome = true)
    (hnot : (s.get_dentry (if dosrc then srcdn else ⟨destdir, destname⟩)).bind
      (fun d => d.xlockedby) ≠ some req.id) :
    (rename_lock_round env s req ref dosrc sl dl srcdn destdir destdn destname).1.xlock_attempts
      = s.xlock_attempts ++ [if dosrc then srcdn else ⟨destdir, destname⟩] := by
  have hp : destdn.getD ⟨destdir, destname⟩ = ⟨destdir, destname⟩ := by
    rcases hdest with h | h <;> simp [h]
  unfold rename_lock_round
  simp only [hp]
  cases dosrc
  · simp only [Bool.false_eq_true, ↓reduceIte] at hnot ⊢
    cases dl
    · simp only [Bool.false_eq_true, ↓reduceIte]
      cases hb : destdn.bind s.get_dentry with
      | none => simp [Effect.xlock_target]
      | some dd =>
        have hx : dd.xlockedby ≠ some req.id := by
          rcases hdest with h | h
          · rw [h] at hb; simp at hb
          · rw [h] at hb
            simp only [Option.some_bind] at hb
            rw [hb] at hnot
            simpa using hnot
        simp [hx, Effect.xlock_target]
    · simp only [↓reduceIte]
      obtain ⟨d, hd⟩ := Option.isSome_iff_exists.mp hdir
      have hget : ∃ dd, (if destdn.isNone then s.add_dentry destdir destname else s).get_dentry
          ⟨destdir, destname⟩ = some dd ∧ dd.xlockedby ≠ some req.id := by
        rcases hdest with h | h
        · simp only [h, Option.isNone_none, ↓reduceIte]
          rw [get_dentry_add_dentry s destdir destname d hd]
          refine ⟨_, rfl, ?_⟩
          have hl : s.get_dentry ⟨destdir, destname⟩ = d.lookup destname := by
            unfold MDS.get_dentry
            simp [hd]
          rw [hl] at hnot
          cases hk : d.lookup destname with
          | none => simp
          | some dd =>
            rw [hk] at hnot
            simpa using hnot
        · simp only [h, Option.isNone_some, Bool.false_eq_true, ↓reduceIte]
          obtain ⟨dd, hdd⟩ := Option.isSome_iff_exists.mp (hdn h)
          rw [hdd] at hnot
          exact ⟨dd, hdd, by simpa using hnot⟩
      obtain ⟨dd, hdd, hx⟩ := hget
      have hme : dd.is_xlockedbyme req.id = false := by
        unfold CDentry.is_xlockedbyme
        simpa using hx
      have hs1 : (if destdn.isNone then s.add_dentry destdir destname else s).xlock_attempts =
          s.xlock_attempts := by
        split <;> rfl
      generalize (if destdn.isNone then s.add_dentry destdir destname else s) = s1 at hdd hs1 ⊢
      simp only [hdd, hme, Bool.false_eq_true, ↓reduceIte]
      split
      · simp [hs1]
      · split <;> simp [hs1]
  · simp only [↓reduceIte] at hnot ⊢
    obtain ⟨sd, hsd⟩ := Option.isSome_iff_exists.mp hsrc
    rw [hsd] at hnot
    have hx : sd.xlockedby ≠ some req.id := by simpa using hnot
    have hme : sd.is_xlockedbyme req.id = false := by
      unfold CDentry.is_xlockedbyme
      simpa using hx
    simp only [hsd]
    cases sl
    · simp [hx, Effect.xlock_target]
    · simp [hme]

/-- After the two rounds `handle_client_rename_local` tries no further lock. -/
theorem rename_local_tail_attempts (r : MDS) (req : MClientRequest) (srcdn : DnPtr)
    (dp : Option DnPtr) :
    (match dp, dp.bind r.get_dentry, r.get_dentry srcdn with
      | some dp, some dd, some sd =>
        if (match dd.inode with
            | some di =>
              match r.get_inode di, sd.inode.bind r.get_inode with
              | some dci, some sci => dci.is_dir || sci.is_dir
              | _, _ => true
            | none => false) then r.emit .abort
        else
          ((r.emit (.hit_dir srcdn.dir .META_POP_DWR)).emit
              (.hit_dir dp.dir .META_POP_DWR)).emit
            (.file_rename srcdn dp
              (.C_MDS_CommitRequest req { req := req.id, result := 0 } sd.inode
                (some (.EString "file rename fixme"))))
      | _, _, _ => r.emit .abort).xlock_attempts = r.xlock_attempts := by
  split
  · split <;> simp [Effect.xlock_target]
  · simp [Effect.xlock_target]

/-- The lock attempts of `handle_client_rename_local`, for the order of the two rounds given
by `dosrc`. -/
theorem rename_local_attempts (env : Env) (s : MDS) (req : MClientRequest) (ref : inodeno_t)
    (srcpath : String) (srcdn : DnPtr) (destpath : String) (destdir : dirfrag_t)
    (destdn : Option DnPtr) (destname : String)
    (hdest : destdn = none ∨ destdn = some ⟨destdir, destname⟩) :
    ∃ A : List DnPtr,
      (handle_client_rename_local env s req ref srcpath srcdn destpath destdir destdn
        destname).xlock_attempts = s.xlock_attempts ++ A ∧
      A.Sublist [if decide (srcpath < destpath) then srcdn else ⟨destdir, destname⟩,
                 if !decide (srcpath < destpath) then srcdn else ⟨destdir, destname⟩] ∧
      ((s.get_dentry srcdn).isSome = true → (s.get_dirfrag destdir).isSome = true →
        (destdn = some ⟨destdir, destname⟩ →
          (s.get_dentry ⟨destdir, destname⟩).isSome = true) →
        (s.get_dentry srcdn).bind (fun d => d.xlockedby) ≠ some req.id →
        (s.get_dentry ⟨destdir, destname⟩).bind (fun d => d.xlockedby) ≠ some req.id →
        A.head? = some (if decide (srcpath < destpath) then srcdn else ⟨destdir, destname⟩)) := by
  unfold handle_client_rename_local
  generalize decide (srcpath < destpath) = dosrc
  cases hsd : s.get_dirfrag srcdn.dir with
  | none =>
    refine ⟨[], by simp [Effect.xlock_target], by simp, ?_⟩
    intro hsrc
    unfold MDS.get_dentry at hsrc
    simp [hsd] at hsrc
  | some sdir =>
    cases hdd : s.get_dirfrag destdir with
    | none =>
      refine ⟨[], by simp [Effect.xlock_target], by simp, ?_⟩
      intro _ hdir
      simp [hdd] at hdir
    | some ddir =>
      simp only []
      have h1 := rename_lock_round_attempts env s req ref dosrc (sdir.authority == s.whoami)
        (ddir.authority == s.whoami) srcdn destdir destdn destname hdest
      have hf1 := rename_lock_round_tries env s req ref dosrc (sdir.authority == s.whoami)
        (ddir.authority == s.whoami) srcdn destdir destdn destname hdest
      generalize rename_lock_round env s req ref dosrc (sdir.authority == s.whoami)
        (ddir.authority == s.whoami) srcdn destdir destdn destname = r1 at h1 hf1 ⊢
      have h2 := rename_lock_round_attempts env r1.1 req ref (!dosrc)
        (sdir.authority == s.whoami) (ddir.authority == s.whoami) srcdn destdir r1.2.1 destname
        h1.2
      generalize rename_lock_round env r1.1 req ref (!dosrc) (sdir.authority == s.whoami)
        (ddir.authority == s.whoami) srcdn destdir r1.2.1 destname = r2 at h2 ⊢
      have hfirst : (s.get_dentry srcdn).isSome = true → (some ddir : Option CDir).isSome = true →
          (destdn = some ⟨destdir, destname⟩ →
            (s.get_dentry ⟨destdir, destname⟩).isSome = true) →
          (s.get_dentry srcdn).bind (fun d => d.xlockedby) ≠ some req.id →
          (s.get_dentry ⟨destdir, destname⟩).bind (fun d => d.xlockedby) ≠ some req.id →
          r1.1.xlock_attempts =
            s.xlock_attempts ++ [if dosrc then srcdn else ⟨destdir, destname⟩] := by
        intro a b c d e
        apply hf1 a (by rw [hdd]; rfl) c
        cases dosrc
        · simpa using e
        · simpa using d
      have ht : ∀ t : MDS, t.xlock_attempts = r1.1.xlock_attempts ∨
          t.xlock_attempts = r2.1.xlock_attempts →
          (r1.2.2 = false → t.xlock_attempts = r1.1.xlock_attempts) →
          ∃ A : List DnPtr, t.xlock_attempts = s.xlock_attempts ++ A ∧
            A.Sublist [if dosrc then srcdn else ⟨destdir, destname⟩,
                       if !dosrc then srcdn else ⟨destdir, destname⟩] ∧
            ((s.get_dentry srcdn).isSome = true → (some ddir : Option CDir).isSome = true →
              (destdn = some ⟨destdir, destname⟩ →
                (s.get_dentry ⟨destdir, destname⟩).isSome = true) →
              (s.get_dentry srcdn).bind (fun d => d.xlockedby) ≠ some req.id →
              (s.get_dentry ⟨destdir, destname⟩).bind (fun d => d.xlockedby) ≠ some req.id →
              A.head? = some (if dosrc then srcdn else ⟨destdir, destname⟩)) := by
        intro t htt _
        rcases htt with htt | htt
        · rcases h1.1 with e1 | e1
          · refine ⟨[], by rw [htt, e1]; simp, by simp, ?_⟩
            intro a b c d e
            have := hfirst a b c d e
            rw [e1] at this
            simp at this
          · exact ⟨[_], by rw [htt, e1], by simp, fun _ _ _ _ _ => rfl⟩
        · rcases h1.1 with e1 | e1
          · rcases h2.1 with e2 | e2
            · refine ⟨[], by rw [htt, e2, e1]; simp, by simp, ?_⟩
              intro a b c d e
              have := hfirst a b c d e
              rw [e1] at this
              simp at this
            · refine ⟨[_], by rw [htt, e2, e1], by simp, ?_⟩
              intro a b c d e
              have := hfirst a b c d e
              rw [e1] at this
              simp at this
          · rcases h2.1 with e2 | e2
            · exact ⟨[_], by rw [htt, e2, e1], by simp, fun _ _ _ _ _ => rfl⟩
            · exact ⟨[if dosrc then srcdn else ⟨destdir, destname⟩,
                      if !dosrc then srcdn else ⟨destdir, destname⟩],
                by rw [htt, e2, e1]; simp, List.Sublist.refl _, fun _ _ _ _ _ => rfl⟩
      cases hr1 : r1.2.2
      · simp only [Bool.not_false, ↓reduceIte]
        exact ht r1.1 (Or.inl rfl) (fun _ => rfl)
      · simp only [Bool.not_true, Bool.false_eq_true, ↓reduceIte]
        cases hr2 : r2.2.2
        · simp only [Bool.not_false, ↓reduceIte]
          exact ht r2.1 (Or.inr rfl) (fun h => by rw [hr1] at h; cases h)
        · simp only [Bool.not_true, Bool.false_eq_true, ↓reduceIte]
          exact ht _ (Or.inr (rename_local_tail_attempts r2.1 req srcdn r2.2.1))
            (fun h => by rw [hr1] at h; cases h)

end Server

/-- C19: the dentries `handle_client_rename_local` tries to xlock, in the order of the
attempts, are a sublist of the order the functional description asks for: the dentry of the
lexicographically smaller of source path and effective destination path first.  On a request
that holds neither lock yet (both dentry pointers valid, the destination dirfrag open) the
first attempt is for that dentry: the source's if and only if the source path is the
smaller.  Hence for paths `p < q` with dentries `a`, `b` both rename(p to q) and
rename(q to p) take `a` before `b`, and two renames that share the larger path `z` both
take the dentry of `z` second. -/
theorem rename_local_lock_order (env : Env) (s : MDS) (req : MClientRequest) (ref : inodeno_t)
    (srcpath : String) (srcdn : DnPtr) (destpath : String) (destdir : dirfrag_t)
    (destdn : Option DnPtr) (destname : String)
    (hdest : destdn = none ∨ destdn = some ⟨destdir, destname⟩) :
    (∃ A : List DnPtr,
      (Server.handle_client_rename_local env s req ref srcpath srcdn destpath destdir destdn
        destname).xlock_attempts = s.xlock_attempts ++ A ∧
      A.Sublist (Server.spec_rename_lock_order srcpath srcdn destpath ⟨destdir, destname⟩) ∧
      ((s.get_dentry srcdn).isSome = true → (s.get_dirfrag destdir).isSome = true →
        (destdn = some ⟨destdir, destname⟩ →
          (s.get_dentry ⟨destdir, destname⟩).isSome = true) →
        (s.get_dentry srcdn).bind (fun d => d.xlockedby) ≠ some req.id →
        (s.get_dentry ⟨destdir, destname⟩).bind (fun d => d.xlockedby) ≠ some req.id →
        A.head? = (Server.spec_rename_lock_order srcpath srcdn destpath ⟨destdir, destname⟩).head? ∧
        (A.head? = some srcdn ↔ srcpath < destpath ∨ srcdn = ⟨destdir, destname⟩))) ∧
    (∀ (p q : String) (a b : DnPtr), p < q →
      Server.spec_rename_lock_order p a q b = [a, b] ∧ Server.spec_rename_lock_order q b p a = [a, b]) ∧
    (∀ (x y z : String) (dx dy dz : DnPtr), x < z → y < z →
      Server.spec_rename_lock_order x dx z dz = [dx, dz] ∧
      Server.spec_rename_lock_order z dz y dy = [dy, dz]) := by
  have hord : Server.spec_rename_lock_order srcpath srcdn destpath ⟨destdir, destname⟩ =
      [if decide (srcpath < destpath) then srcdn else ⟨destdir, destname⟩,
       if !decide (srcpath < destpath) then srcdn else ⟨destdir, destname⟩] := by
    unfold Server.spec_rename_lock_order
    by_cases h : srcpath < destpath <;> simp [h]
  have hasymm : ∀ p q : String, p < q → ¬ q < p := fun p q h => lt_asymm h
  refine ⟨?_, ?_, ?_⟩
  · obtain ⟨A, hA, hsub, hhead⟩ := Server.rename_local_attempts env s req ref srcpath srcdn destpath
      destdir destdn destname hdest
    refine ⟨A, hA, by rw [hord]; exact hsub, ?_⟩
    intro a b c d e
    have hh := hhead a b c d e
    refine ⟨by rw [hord, hh]; rfl, ?_⟩
    rw [hh]
    by_cases h : srcpath < destpath
    · simp [h]
    · simp only [h, decide_False, Bool.false_eq_true, ↓reduceIte, Option.some.injEq, false_or]
      exact eq_comm
  · intro p q a b h
    unfold Server.spec_rename_lock_order
    simp [h, hasymm p q h]
  · intro x y z dx dy dz hx hy
    unfold Server.spec_rename_lock_order
    simp [hx, hasymm y z hy]

/-- Witness for C19: the rename of `a` to the new name `b` in the root of MDS0. -/
theorem rename_local_lock_order_witness :
    ∃ A : List DnPtr,
      (Server.handle_client_rename_local Sample.env Sample.mds0 (Sample.req .RENAME ["a"] {}) 1
        "a" ⟨⟨1, 0⟩, "a"⟩ "b" ⟨1, 0⟩ none "b").xlock_attempts =
        Sample.mds0.xlock_attempts ++ A ∧
      A.Sublist (Server.spec_rename_lock_order "a" ⟨⟨1, 0⟩, "a"⟩ "b" ⟨⟨1, 0⟩, "b"⟩) :=
  (rename_local_lock_order Sample.env Sample.mds0 (Sample.req .RENAME ["a"] {}) 1
    "a" ⟨⟨1, 0⟩, "a"⟩ "b" ⟨1, 0⟩ none "b" (Or.inl rfl)).1.imp (fun _ h => ⟨h.1, h.2.1⟩)

/-! ## Both xlocks before the rename -/

namespace MDS

@[simp] theorem file_renames_emit (s : MDS) (e : Effect) :
    (s.emit e).file_renames = s.file_renames ++ e.rename_pair.toList := by
  unfold file_renames emit
  simp only [List.filterMap_append]
  cases h : e.rename_pair <;> simp [List.filterMap_cons, h]

@[simp] theorem file_renames_add_dentry (s : MDS) (df : dirfrag_t) (n : String) :
    (s.add_dentry df n).file_renames = s.file_renames := rfl

@[simp] theorem file_renames_remove_dentry (s : MDS) (p : DnPtr) :
    (s.remove_dentry p).file_renames = s.file_renames := rfl

@[simp] theorem file_renames_dentry_xlock_start (env : Env) (s : MDS) (p : DnPtr) (r : ReqId)
    (ref : inodeno_t) : (s.dentry_xlock_start env p r ref).1.file_renames = s.file_renames := by
  unfold file_renames
  rw [log_dentry_xlock_start]
  simp [List.filterMap_append, Effect.rename_pair]

@[simp] theorem xlocked_by_emit (s : MDS) (e : Effect) (q : DnPtr) :
    (s.emit e).xlocked_by q = s.xlocked_by q := rfl

/-- A dentry that is there is still found after `add_dentry`. -/
theorem get_dentry_add_dentry_some (s : MDS) (df : dirfrag_t) (n : String) (q : DnPtr)
    (d : CDentry) (h : s.get_dentry q = some d) :
    (s.add_dentry df n).get_dentry q = some d := by
  unfold add_dentry get_dentry at *
  rw [get_dirfrag_modify_dir]
  swap
  · intro x; rfl
  cases hd : s.get_dirfrag q.dir with
  | none => rw [hd] at h; simp at h
  | some dir =>
    rw [hd] at h
    simp only [Option.some_bind] at h
    simp only [Option.map_some', Option.some_bind]
    split
    · unfold CDir.lookup at h ⊢
      simp only [List.find?_append, h]
      rfl
    · exact h

theorem xlocked_by_add_dentry (s : MDS) (df : dirfrag_t) (n : String) (q : DnPtr) (r : ReqId)
    (h : s.xlocked_by q = some r) : (s.add_dentry df n).xlocked_by q = some r := by
  unfold xlocked_by at *
  cases hd : s.get_dentry q with
  | none => rw [hd] at h; simp at h
  | some d =>
    rw [get_dentry_add_dentry_some s df n q d hd]
    rw [hd] at h
    exact h

/-- Granting an xlock to `r`: the dentry, if it is there, is held by `r`; what `r` held
before it still holds. -/
theorem xlocked_by_grant (s : MDS) (p q : DnPtr) (r : ReqId) :
    (s.modify_dentry p (fun d => { d with xlockedby := some r })).xlocked_by q =
      if q = p then (s.get_dentry p).map (fun _ => r) else s.xlocked_by q := by
  unfold xlocked_by
  rw [get_dentry_modify_dentry]
  swap
  · intro d; rfl
  by_cases h : q = p
  · subst h
    simp only [↓reduceIte]
    cases s.get_dentry q <;> rfl
  · simp only [h, ↓reduceIte]
    cases s.get_dentry q <;> rfl

theorem dentry_xlock_start_granted (env : Env) (s : MDS) (p : DnPtr) (r : ReqId)
    (ref : inodeno_t) (h : (s.dentry_xlock_start env p r ref).2 = true) (q : DnPtr) :
    (s.dentry_xlock_start env p r ref).1.xlocked_by q =
      if q = p then (s.get_dentry p).map (fun _ => r) else s.xlocked_by q := by
  unfold dentry_xlock_start at h ⊢
  simp only [] at h ⊢
  rw [h]
  simp only [↓reduceIte]
  rw [xlocked_by_grant]
  rfl

end MDS

namespace Server

theorem rename_lock_round_file_renames (env : Env) (s : MDS) (req : MClientRequest)
    (ref : inodeno_t) (dosrc sl dl : Bool) (srcdn : DnPtr) (destdir : dirfrag_t)
    (destdn : Option DnPtr) (destname : String) :
    (rename_lock_round env s req ref dosrc sl dl srcdn destdir destdn destname).1.file_renames =
      s.file_renames := by
  unfold rename_lock_round
  simp only []
  repeat' split
  all_goals simp_all [Effect.rename_pair]

/-- A source round that lets the loop go on leaves the source dentry xlocked by the request
and the destination pointer as it was. -/
theorem rename_lock_round_src_held (env : Env) (s : MDS) (req : MClientRequest)
    (ref : inodeno_t) (sl dl : Bool) (srcdn : DnPtr) (destdir : dirfrag_t)
    (destdn : Option DnPtr) (destname : String)
    (h : (rename_lock_round env s req ref true sl dl srcdn destdir destdn destname).2.2 = true) :
    (rename_lock_round env s req ref true sl dl srcdn destdir destdn destname).1.xlocked_by
        srcdn = some req.id ∧
    (rename_lock_round env s req ref true sl dl srcdn destdir destdn destname).2.1 = destdn := by
  unfold rename_lock_round at h ⊢
  simp only [↓reduceIte] at h ⊢
  cases hsd : s.get_dentry srcdn with
  | none => simp [hsd] at h
  | some sd =>
    simp only [hsd] at h ⊢
    cases sl
    · simp only [Bool.false_eq_true, ↓reduceIte] at h ⊢
      by_cases hx : sd.xlockedby = some req.id
      · simp [hx, MDS.xlocked_by, hsd]
      · simp [hx] at h
    · simp only [↓reduceIte] at h ⊢
      by_cases hme : sd.is_xlockedbyme req.id = true
      · simp only [hme, ↓reduceIte, and_true]
        unfold CDentry.is_xlockedbyme at hme
        simp only [MDS.xlocked_by, hsd, Option.some_bind]
        simpa using hme
      · simp only [hme, Bool.false_eq_true, ↓reduceIte, and_true] at h ⊢
        rw [MDS.dentry_xlock_start_granted env s srcdn req.id ref h srcdn]
        simp [hsd]

/-- A destination round that lets the loop go on leaves the destination dentry in place,
xlocked by the request. -/
theorem rename_lock_round_dest_held (env : Env) (s : MDS) (req : MClientRequest)
    (ref : inodeno_t) (sl dl : Bool) (srcdn : DnPtr) (destdir : dirfrag_t)
    (destdn : Option DnPtr) (destname : String)
    (h : (rename_lock_round env s req ref false sl dl srcdn destdir destdn destname).2.2 = true) :
    (rename_lock_round env s req ref false sl dl srcdn destdir destdn destname).2.1 =
        some (destdn.getD ⟨destdir, destname⟩) ∧
    (rename_lock_round env s req ref false sl dl srcdn destdir destdn destname).1.xlocked_by
        (destdn.getD ⟨destdir, destname⟩) = some req.id := by
  unfold rename_lock_round at h ⊢
  simp only [Bool.false_eq_true, ↓reduceIte] at h ⊢
  cases dl
  · simp only [Bool.false_eq_true, ↓reduceIte] at h ⊢
    cases hb : destdn.bind s.get_dentry with
    | none => simp [hb] at h
    | some dd =>
      simp only [hb] at h ⊢
      by_cases hx : dd.xlockedby = some req.id
      · cases hdn : destdn with
        | none => rw [hdn] at hb; simp at hb
        | some p =>
          rw [hdn] at hb
          simp only [Option.some_bind] at hb
          simp [hx, MDS.xlocked_by, hb]
      · simp [hx] at h
  · simp only [↓reduceIte] at h ⊢
    generalize (if destdn.isNone then s.add_dentry destdir destname else s) = s1 at h ⊢
    cases hdd : s1.get_dentry (destdn.getD ⟨destdir, destname⟩) with
    | none => simp [hdd] at h
    | some dd =>
      simp only [hdd] at h ⊢
      by_cases hme : dd.is_xlockedbyme req.id = true
      · simp only [hme, ↓reduceIte, true_and]
        unfold CDentry.is_xlockedbyme at hme
        simp only [MDS.xlocked_by, hdd, Option.some_bind]
        simpa using hme
      · simp only [hme, Bool.false_eq_true, ↓reduceIte] at h ⊢
        by_cases hg : (s1.dentry_xlock_start env (destdn.getD ⟨destdir, destname⟩) req.id
            ref).2 = true
        · simp only [hg, ↓reduceIte, true_and]
          rw [MDS.dentry_xlock_start_granted env s1 _ req.id ref hg]
          simp [hdd]
        · simp only [hg, Bool.false_eq_true, ↓reduceIte] at h
          split at h <;> simp at h

/-- A round that lets the loop go on takes no xlock away from the request. -/
theorem rename_lock_round_keeps (env : Env) (s : MDS) (req : MClientRequest)
    (ref : inodeno_t) (dosrc sl dl : Bool) (srcdn : DnPtr) (destdir : dirfrag_t)
    (destdn : Option DnPtr) (destname : String) (q : DnPtr)
    (hq : s.xlocked_by q = some req.id)
    (h : (rename_lock_round env s req ref dosrc sl dl srcdn destdir destdn destname).2.2 = true) :
    (rename_lock_round env s req ref dosrc sl dl srcdn destdir destdn destname).1.xlocked_by q =
      some req.id := by
  have hgrant : ∀ (st : MDS) (p : DnPtr), st.xlocked_by q = some req.id →
      (st.dentry_xlock_start env p req.id ref).2 = true →
      (st.dentry_xlock_start env p req.id ref).1.xlocked_by q = some req.id := by
    intro st p hst hg
    rw [MDS.dentry_xlock_start_granted env st p req.id ref hg q]
    split
    · rename_i hqp
      subst hqp
      unfold MDS.xlocked_by at hst
      cases hd : st.get_dentry q with
      | none => rw [hd] at hst; simp at hst
      | some d => rfl
    · exact hst
  unfold rename_lock_round at h ⊢
  cases dosrc
  · simp only [Bool.false_eq_true, ↓reduceIte] at h ⊢
    cases dl
    · simp only [Bool.false_eq_true, ↓reduceIte] at h ⊢
      split at h
      · simp at h
      · rename_i hh
        simp only [hh, ↓reduceIte]
        exact hq
    · simp only [↓reduceIte] at h ⊢
      have hq1 : (if destdn.isNone then s.add_dentry destdir destname else s).xlocked_by q =
          some req.id := by
        split
        · exact MDS.xlocked_by_add_dentry s destdir destname q req.id hq
        · exact hq
      generalize (if destdn.isNone then s.add_dentry destdir destname else s) = s1 at h hq1 ⊢
      cases hdd : s1.get_dentry (destdn.getD ⟨destdir, destname⟩) with
      | none => simp [hdd] at h
      | some dd =>
        simp only [hdd] at h ⊢
        by_cases hme : dd.is_xlockedbyme req.id = true
        · simp only [hme, ↓reduceIte]
          exact hq1
        · simp only [hme, Bool.false_eq_true, ↓reduceIte] at h ⊢
          by_cases hg : (s1.dentry_xlock_start env (destdn.getD ⟨destdir, destname⟩) req.id
              ref).2 = true
          · simp only [hg, ↓reduceIte]
            exact hgrant s1 _ hq1 hg
          · simp only [hg, Bool.false_eq_true, ↓reduceIte] at h
            split at h <;> simp at h
  · simp only [↓reduceIte] at h ⊢
    cases hsd : s.get_dentry srcdn with
    | none => simp [hsd] at h
    | some sd =>
      simp only [hsd] at h ⊢
      cases sl
      · simp only [Bool.false_eq_true, ↓reduceIte] at h ⊢
        split at h
        · simp at h
        · rename_i hh
          simp only [hh, ↓reduceIte]
          exact hq
      · simp only [↓reduceIte] at h ⊢
        by_cases hme : sd.is_xlockedbyme req.id = true
        · simp only [hme, ↓reduceIte]
          exact hq
        · simp only [hme, Bool.false_eq_true, ↓reduceIte] at h ⊢
          exact hgrant s srcdn hq h

/-- After two rounds that both let the loop go on, whichever came first, the request holds
the xlock of the source dentry and of the destination dentry the loop settled on. -/
theorem rename_lock_rounds_held (env : Env) (s : MDS) (req : MClientRequest) (ref : inodeno_t)
    (dosrc sl dl : Bool) (srcdn : DnPtr) (destdir : dirfrag_t) (destdn : Option DnPtr)
    (destname : String)
    (h1 : (rename_lock_round env s req ref dosrc sl dl srcdn destdir destdn destname).2.2 = true)
    (h2 : (rename_lock_round env
        (rename_lock_round env s req ref dosrc sl dl srcdn destdir destdn destname).1 req ref
        (!dosrc) sl dl srcdn destdir
        (rename_lock_round env s req ref dosrc sl dl srcdn destdir destdn destname).2.1
        destname).2.2 = true) :
    (rename_lock_round env
        (rename_lock_round env s req ref dosrc sl dl srcdn destdir destdn destname).1 req ref
        (!dosrc) sl dl srcdn destdir
        (rename_lock_round env s req ref dosrc sl dl srcdn destdir destdn destname).2.1
        destname).2.1 = some (destdn.getD ⟨destdir, destname⟩) ∧
    (rename_lock_round env
        (rename_lock_round env s req ref dosrc sl dl srcdn destdir destdn destname).1 req ref
        (!dosrc) sl dl srcdn destdir
        (rename_lock_round env s req ref dosrc sl dl srcdn destdir destdn destname).2.1
        destname).1.xlocked_by srcdn = some req.id ∧
    (rename_lock_round env
        (rename_lock_round env s req ref dosrc sl dl srcdn destdir destdn destname).1 req ref
        (!dosrc) sl dl srcdn destdir
        (rename_lock_round env s req ref dosrc sl dl srcdn destdir destdn destname).2.1
        destname).1.xlocked_by (destdn.getD ⟨destdir, destname⟩) = some req.id := by
  cases dosrc
  · have a := rename_lock_round_dest_held env s req ref sl dl srcdn destdir destdn destname h1
    simp only [Bool.not_false] at h2 ⊢
    have b := rename_lock_round_src_held env _ req ref sl dl srcdn destdir _ destname h2
    have c := rename_lock_round_keeps env _ req ref true sl dl srcdn destdir _ destname
      (destdn.getD ⟨destdir, destname⟩) a.2 h2
    exact ⟨by rw [b.2, a.1], b.1, c⟩
  · have a := rename_lock_round_src_held env s req ref sl dl srcdn destdir destdn destname h1
    simp only [Bool.not_true] at h2 ⊢
    rw [a.2] at h2 ⊢
    have b := rename_lock_round_dest_held env _ req ref sl dl srcdn destdir destdn destname h2
    have c := rename_lock_round_keeps env _ req ref false sl dl srcdn destdir destdn destname
      srcdn a.1 h2
    exact ⟨b.1, c, b.2⟩

end Server

/-- C20: `handle_client_rename_local` never replies, and it calls the rename executor at
most once, as its last step: when it does, the call is `file_rename` of the source dentry
and the destination dentry, the destination dentry exists, and both dentries are xlocked by
the request (a granted `dentry_xlock_start` records the request as holder).  So if on return
one of the two locks is not held by the request, `file_rename` was not called. -/
theorem file_rename_needs_both_xlocks (env : Env) (s : MDS) (req : MClientRequest)
    (ref : inodeno_t) (srcpath : String) (srcdn : DnPtr) (destpath : String)
    (destdir : dirfrag_t) (destdn : Option DnPtr) (destname : String) :
    (Server.handle_client_rename_local env s req ref srcpath srcdn destpath destdir destdn
      destname).nreplies = s.nreplies ∧
    ((Server.handle_client_rename_local env s req ref srcpath srcdn destpath destdir destdn
        destname).file_renames = s.file_renames ∨
      ((Server.handle_client_rename_local env s req ref srcpath srcdn destpath destdir destdn
          destname).file_renames =
          s.file_renames ++ [(srcdn, destdn.getD ⟨destdir, destname⟩)] ∧
        ((Server.handle_client_rename_local env s req ref srcpath srcdn destpath destdir destdn
          destname).get_dentry (destdn.getD ⟨destdir, destname⟩)).isSome = true ∧
        (Server.handle_client_rename_local env s req ref srcpath srcdn destpath destdir destdn
          destname).xlocked_by srcdn = some req.id ∧
        (Server.handle_client_rename_local env s req ref srcpath srcdn destpath destdir destdn
          destname).xlocked_by (destdn.getD ⟨destdir, destname⟩) = some req.id)) ∧
    (((Server.handle_client_rename_local env s req ref srcpath srcdn destpath destdir destdn
          destname).xlocked_by srcdn ≠ some req.id ∨
        (Server.handle_client_rename_local env s req ref srcpath srcdn destpath destdir destdn
          destname).xlocked_by (destdn.getD ⟨destdir, destname⟩) ≠ some req.id) →
      (Server.handle_client_rename_local env s req ref srcpath srcdn destpath destdir destdn
        destname).file_renames = s.file_renames) := by
  have hrep : (Server.handle_client_rename_local env s req ref srcpath srcdn destpath destdir destdn
      destname).nreplies = s.nreplies := by
    unfold MDS.nreplies
    exact (Server.handle_client_rename_local_same env s req ref srcpath srcdn destpath destdir destdn
      destname).1
  have hmain : (Server.handle_client_rename_local env s req ref srcpath srcdn destpath destdir destdn
        destname).file_renames = s.file_renames ∨
      ((Server.handle_client_rename_local env s req ref srcpath srcdn destpath destdir destdn
          destname).file_renames =
          s.file_renames ++ [(srcdn, destdn.getD ⟨destdir, destname⟩)] ∧
        ((Server.handle_client_rename_local env s req ref srcpath srcdn destpath destdir destdn
          destname).get_dentry (destdn.getD ⟨destdir, destname⟩)).isSome = true ∧
        (Server.handle_client_rename_local env s req ref srcpath srcdn destpath destdir destdn
          destname).xlocked_by srcdn = some req.id ∧
        (Server.handle_client_rename_local env s req ref srcpath srcdn destpath destdir destdn
          destname).xlocked_by (destdn.getD ⟨destdir, destname⟩) = some req.id) := by
    unfold Server.handle_client_rename_local
    generalize decide (srcpath < destpath) = dosrc
    cases hsd : s.get_dirfrag srcdn.dir with
    | none => left; simp [Effect.rename_pair]
    | some sdir =>
      cases hdd : s.get_dirfrag destdir with
      | none => left; simp [Effect.rename_pair]
      | some ddir =>
        simp only []
        have f1 := Server.rename_lock_round_file_renames env s req ref dosrc
          (sdir.authority == s.whoami) (ddir.authority == s.whoami) srcdn destdir destdn destname
        have hh := Server.rename_lock_rounds_held env s req ref dosrc (sdir.authority == s.whoami)
          (ddir.authority == s.whoami) srcdn destdir destdn destname
        generalize Server.rename_lock_round env s req ref dosrc (sdir.authority == s.whoami)
          (ddir.authority == s.whoami) srcdn destdir destdn destname = r1 at f1 hh ⊢
        have f2 := Server.rename_lock_round_file_renames env r1.1 req ref (!dosrc)
          (sdir.authority == s.whoami) (ddir.authority == s.whoami) srcdn destdir r1.2.1
          destname
        generalize Server.rename_lock_round env r1.1 req ref (!dosrc) (sdir.authority == s.whoami)
          (ddir.authority == s.whoami) srcdn destdir r1.2.1 destname = r2 at f2 hh ⊢
        cases hr1 : r1.2.2
        · left
          simp only [Bool.not_false, ↓reduceIte]
          exact f1
        · simp only [Bool.not_true, Bool.false_eq_true, ↓reduceIte]
          cases hr2 : r2.2.2
          · left
            simp only [Bool.not_false, ↓reduceIte]
            rw [f2, f1]
          · simp only [Bool.not_true, Bool.false_eq_true, ↓reduceIte]
            obtain ⟨hdp, hsrc, hdst⟩ := hh hr1 hr2
            have hdst2 := hdst
            have hsrc2 := hsrc
            unfold MDS.xlocked_by at hdst2 hsrc2
            cases hgd : r2.1.get_dentry (destdn.getD ⟨destdir, destname⟩) with
            | none => rw [hgd] at hdst2; simp at hdst2
            | some dd =>
              cases hgs : r2.1.get_dentry srcdn with
              | none => rw [hgs] at hsrc2; simp at hsrc2
              | some sd =>
                simp only [hdp, Option.some_bind, hgd]
                split
                · left
                  simp [Effect.rename_pair, f2, f1]
                · right
                  refine ⟨?_, ?_, ?_, ?_⟩
                  · simp [Effect.rename_pair, f2, f1]
                  · simp [hgd]
                  · simpa using hsrc
                  · simpa using hdst
  refine ⟨hrep, hmain, ?_⟩
  intro hnot
  rcases hmain with h | ⟨_, _, h1, h2⟩
  · exact h
  · rcases hnot with h | h
    · exact absurd h1 h
    · exact absurd h2 h

/-- The rename of `a` to the new name `b` in the root of MDS0, every lock granted: the handler
reaches the rename executor, with both dentries xlocked by request 7. -/
theorem rename_local_reaches_file_rename :
    (Server.handle_client_rename_local Sample.env Sample.mds0 (Sample.req .RENAME ["a"] {}) 1
      "a" ⟨⟨1, 0⟩, "a"⟩ "b" ⟨1, 0⟩ none "b").file_renames =
      [(⟨⟨1, 0⟩, "a"⟩, ⟨⟨1, 0⟩, "b"⟩)] ∧
    (Server.handle_client_rename_local Sample.env Sample.mds0 (Sample.req .RENAME ["a"] {}) 1
      "a" ⟨⟨1, 0⟩, "a"⟩ "b" ⟨1, 0⟩ none "b").xlocked_by ⟨⟨1, 0⟩, "a"⟩ = some 7 ∧
    (Server.handle_client_rename_local Sample.env Sample.mds0 (Sample.req .RENAME ["a"] {}) 1
      "a" ⟨⟨1, 0⟩, "a"⟩ "b" ⟨1, 0⟩ none "b").xlocked_by ⟨⟨1, 0⟩, "b"⟩ = some 7 := by
  unfold Server.handle_client_rename_local
  generalize decide ("a" < "b") = dosrc
  cases dosrc <;> decide

namespace Server

/-! ## Open of an inode that is not a regular file -/

/-- The type test of `handle_client_open` reads one bit of the mode: an inode whose mode
has no bit in common with `INODE_MODE_FILE` gets the EINVAL reply and nothing else. -/
theorem open_without_file_bit (env : Env) (s : MDS) (req : MClientRequest) (cur : inodeno_t)
    (ci : CInode) (hi : s.get_inode cur = some ci)
    (hb : ci.inode.mode &&& INODE_MODE_FILE = 0) :
    handle_client_open env s req cur = reply_request_r s req (-EINVAL) none := by
  unfold handle_client_open
  simp [hi, hb]

/-- A directory has no bit in common with `INODE_MODE_FILE`. -/
theorem dir_without_file_bit (ci : CInode) (h : ci.is_dir = true) :
    ci.inode.mode &&& INODE_MODE_FILE = 0 := by
  unfold CInode.is_dir at h
  have h1 : ci.inode.mode &&& INODE_TYPE_MASK = INODE_MODE_DIR := by simpa using h
  apply Nat.eq_of_testBit_eq
  intro k
  have h2 := congrArg (fun n => n.testBit k) h1
  simp only [Nat.testBit_land] at h2
  simp only [Nat.testBit_land, Nat.zero_testBit]
  by_cases hk : k = 15
  · subst hk
    have e1 : INODE_TYPE_MASK.testBit 15 = true := by decide
    have e2 : INODE_MODE_DIR.testBit 15 = false := by decide
    rw [e1, e2] at h2
    simp at h2
    simp [h2]
  · have e3 : INODE_MODE_FILE.testBit k = false := by
      have : INODE_MODE_FILE = 2 ^ 15 := by decide
      rw [this, Nat.testBit_two_pow]
      simp; omega
    simp [e3]

/-- Open of a directory: one EINVAL reply, no capability and no file-data-version. -/
theorem open_dir_einval (env : Env) (s : MDS) (req : MClientRequest) (cur : inodeno_t)
    (ci : CInode) (hi : s.get_inode cur = some ci) (hd : ci.is_dir = true) :
    handle_client_open env s req cur = reply_request_r s req (-EINVAL) none :=
  open_without_file_bit env s req cur ci hi (dir_without_file_bit ci hd)

end Server

/-- C21 (code defect, evaluated): open of a symbolic link is not refused.  The inode 43 of
`Sample.mds_symlink` has the type bits of a symbolic link, which differ from those of a
regular file; a read-mode OPEN of it asks for a file-data-version and a capability, and the
one reply carries result 0 and the capability. -/
theorem open_symlink_issues_caps :
    (∃ ci, Sample.mds_symlink.get_inode 43 = some ci ∧
      ci.inode.mode &&& INODE_TYPE_MASK = INODE_MODE_SYMLINK ∧
      ci.inode.mode &&& INODE_TYPE_MASK ≠ INODE_MODE_FILE) ∧
    (Server.handle_client_open Sample.env Sample.mds_symlink
        (Sample.req .OPEN ["l"] { open_mode := FILE_MODE_R }) 43).log =
      [.issue_file_data_version 43, .issue_new_caps 43 FILE_MODE_R 7 true,
       .hit_inode 43 .META_POP_IRD,
       .send_reply { req := 7, result := 0, trace := some 43, file_caps := 1,
                     file_caps_seq := 1, file_data_version := 1 } 3,
       .request_finish 7] := by
  refine ⟨⟨_, rfl, by decide, by decide⟩, by decide⟩

namespace Server

/-! ## Journal payload and in-memory inode of the attribute ops -/

/-- The journalling path of `handle_client_utime`: file-write lock granted, inode in the
cache.  The entry's inode payload is the inode with both times set to the requested mtime,
the clock's time as ctime and the reserved version; the finisher is registered with the
requested mtime and atime; the in-memory attributes are not touched yet. -/
theorem utime_stage (env : Env) (s : MDS) (req : MClientRequest) (cur : inodeno_t)
    (ci : CInode) (hl : env.lock_start s .inode_file_write cur none req.id = true)
    (hi : s.get_inode cur = some ci) :
    ∃ now : time_t,
      (handle_client_utime env s req cur).journal = s.journal ++
        [.EUpdate "utime" [.dir_context ci.get_parent_dir,
          .primary_dentry ci.parent true
            { ci.inode with mtime := req.args.modtime, atime := req.args.modtime,
                            ctime := now, version := ci.projected_version + 1 }]] ∧
      (handle_client_utime env s req cur).last_sync =
        some (.C_MDS_utime_finish req cur (ci.projected_version + 1) req.args.modtime
          req.args.actime) ∧
      ((handle_client_utime env s req cur).get_inode cur).map (fun c => c.inode) =
        some ci.inode := by
  have hv := MDS.inode_pre_dirty_version
    ((s.inode_lock_start env .inode_file_write cur req.id).1.emit
      (.hit_inode cur .META_POP_IWR)) cur ci hi
  have hg := MDS.get_inode_inode_pre_dirty
    ((s.inode_lock_start env .inode_file_write cur req.id).1.emit
      (.hit_inode cur .META_POP_IWR)) cur cur
  have hj : ((s.inode_lock_start env .inode_file_write cur req.id).1.emit
      (.hit_inode cur .META_POP_IWR)).journal = s.journal := by
    unfold MDS.journal MDS.inode_lock_start MDS.emit
    simp [List.filterMap_append]
  have hgi : ((s.inode_lock_start env .inode_file_write cur req.id).1.emit
      (.hit_inode cur .META_POP_IWR)).get_inode cur = some ci := hi
  unfold handle_client_utime
  simp only [MDS.inode_lock_start, hl, Bool.not_true, Bool.false_eq_true, ↓reduceIte] at hv hg hj hgi ⊢
  simp only [hgi]
  generalize MDS.emit (MDS.emit s (Effect.lock_start LockKind.inode_file_write cur none req.id true))
    (Effect.hit_inode cur MetaPop.META_POP_IWR) = s1 at hv hg hj hgi ⊢
  refine ⟨env.gettime (s1.inode_pre_dirty cur).1, ?_, ?_, ?_⟩
  · rw [(submit_and_wait _ _ _).1, hv, journal_of_log (MDS.log_inode_pre_dirty s1 cur), hj]
  · rw [(submit_and_wait _ _ _).2, hv]
  · simp only [MDS.get_inode_emit]
    rw [hg, hgi]; rfl

/-- The journalling path of `handle_client_chmod`: hard-write lock granted, inode in the
cache.  The entry's inode payload is the inode with the mode replaced by the requested mode
as it came, the clock's time as ctime and the reserved version; the in-memory attributes are
not touched yet. -/
theorem chmod_stage (env : Env) (s : MDS) (req : MClientRequest) (cur : inodeno_t)
    (ci : CInode) (hl : env.lock_start s .inode_hard_write cur none req.id = true)
    (hi : s.get_inode cur = some ci) :
    ∃ now : time_t,
      (handle_client_chmod env s req cur).journal = s.journal ++
        [.EUpdate "chmod" [.dir_context ci.get_parent_dir,
          .primary_dentry ci.parent true
            { ci.inode with mode := req.args.mode, version := ci.projected_version + 1,
                            ctime := now }]] ∧
      (handle_client_chmod env s req cur).last_sync =
        some (.C_MDS_chmod_finish req cur (ci.projected_version + 1) req.args.mode) ∧
      ((handle_client_chmod env s req cur).get_inode cur).map (fun c => c.inode) =
        some ci.inode := by
  have hv := MDS.inode_pre_dirty_version
    ((s.inode_lock_start env .inode_hard_write cur req.id).1.emit
      (.hit_inode cur .META_POP_IWR)) cur ci hi
  have hg := MDS.get_inode_inode_pre_dirty
    ((s.inode_lock_start env .inode_hard_write cur req.id).1.emit
      (.hit_inode cur .META_POP_IWR)) cur cur
  have hj : ((s.inode_lock_start env .inode_hard_write cur req.id).1.emit
      (.hit_inode cur .META_POP_IWR)).journal = s.journal := by
    unfold MDS.journal MDS.inode_lock_start MDS.emit
    simp [List.filterMap_append]
  have hgi : ((s.inode_lock_start env .inode_hard_write cur req.id).1.emit
      (.hit_inode cur .META_POP_IWR)).get_inode cur = some ci := hi
  unfold handle_client_chmod
  simp only [MDS.inode_lock_start, hl, Bool.not_true, Bool.false_eq_true, ↓reduceIte] at hv hg hj hgi ⊢
  simp only [hgi]
  generalize MDS.emit (MDS.emit s (Effect.lock_start LockKind.inode_hard_write cur none req.id true))
    (Effect.hit_inode cur MetaPop.META_POP_IWR) = s1 at hv hg hj hgi ⊢
  refine ⟨env.gettime (s1.inode_pre_dirty cur).1, ?_, ?_, ?_⟩
  · rw [(submit_and_wait _ _ _).1, hv, journal_of_log (MDS.log_inode_pre_dirty s1 cur), hj]
  · rw [(submit_and_wait _ _ _).2, hv]
  · simp only [MDS.get_inode_emit]
    rw [hg, hgi]; rfl

/-- The journalling path of `handle_client_chown`: hard-write lock granted, inode in the
cache.  The entry's inode payload is the inode with the owner and the group replaced (each
only when the requested value is not negative), the clock's time as ctime and the reserved
version; the in-memory attributes are not touched yet. -/
theorem chown_stage (env : Env) (s : MDS) (req : MClientRequest) (cur : inodeno_t)
    (ci : CInode) (hl : env.lock_start s .inode_hard_write cur none req.id = true)
    (hi : s.get_inode cur = some ci) :
    ∃ now : time_t,
      (handle_client_chown env s req cur).journal = s.journal ++
        [.EUpdate "chown" [.dir_context ci.get_parent_dir,
          .primary_dentry ci.parent true
            { ci.inode with
              uid := if req.args.uid >= 0 then req.args.uid else ci.inode.uid,
              gid := if req.args.gid >= 0 then req.args.gid else ci.inode.gid,
              version := ci.projected_version + 1, ctime := now }]] ∧
      (handle_client_chown env s req cur).last_sync =
        some (.C_MDS_chown_finish req cur (ci.projected_version + 1) req.args.uid
          req.args.gid) ∧
      ((handle_client_chown env s req cur).get_inode cur).map (fun c => c.inode) =
        some ci.inode := by
  have hv := MDS.inode_pre_dirty_version
    ((s.inode_lock_start env .inode_hard_write cur req.id).1.emit
      (.hit_inode cur .META_POP_IWR)) cur ci hi
  have hg := MDS.get_inode_inode_pre_dirty
    ((s.inode_lock_start env .inode_hard_write cur req.id).1.emit
      (.hit_inode cur .META_POP_IWR)) cur cur
  have hj : ((s.inode_lock_start env .inode_hard_write cur req.id).1.emit
      (.hit_inode cur .META_POP_IWR)).journal = s.journal := by
    unfold MDS.journal MDS.inode_lock_start MDS.emit
    simp [List.filterMap_append]
  have hgi : ((s.inode_lock_start env .inode_hard_write cur req.id).1.emit
      (.hit_inode cur .META_POP_IWR)).get_inode cur = some ci := hi
  unfold handle_client_chown
  simp only [MDS.inode_lock_start, hl, Bool.not_true, Bool.false_eq_true, ↓reduceIte] at hv hg hj hgi ⊢
  simp only [hgi]
  generalize MDS.emit (MDS.emit s (Effect.lock_start LockKind.inode_hard_write cur none req.id true))
    (Effect.hit_inode cur MetaPop.META_POP_IWR) = s1 at hv hg hj hgi ⊢
  refine ⟨env.gettime (s1.inode_pre_dirty cur).1, ?_, ?_, ?_⟩
  · rw [(submit_and_wait _ _ _).1, hv, journal_of_log (MDS.log_inode_pre_dirty s1 cur), hj]
  · rw [(submit_and_wait _ _ _).2, hv]
  · simp only [MDS.get_inode_emit]
    rw [hg, hgi]; rfl

/-- The utime finisher writes the two times it was given and the version; the ctime and
every other attribute stay. -/
theorem utime_finish_get_inode (s : MDS) (req : MClientRequest) (i : inodeno_t)
    (pv : version_t) (mtime atime : time_t) :
    (C_MDS_utime_finish_finish s req i pv mtime atime 0).get_inode i =
      (s.get_inode i).map (fun c =>
        { c with inode := { c.inode with mtime := mtime, atime := atime, version := pv },
                 dirty := true }) := by
  unfold C_MDS_utime_finish_finish
  simp only [bne_self_eq_false, Bool.false_eq_true, ↓reduceIte, get_inode_reply_request,
    MDS.inode_lock_finish, MDS.get_inode_emit]
  rw [MDS.get_inode_inode_mark_dirty, MDS.get_inode_modify_inode_self]
  · cases s.get_inode i <;> rfl
  · intro c; rfl

/-- The chown finisher writes the owner and group it was given (each only when not
negative) and the version; the ctime and every other attribute stay. -/
theorem chown_finish_get_inode (s : MDS) (req : MClientRequest) (i : inodeno_t)
    (pv : version_t) (uid gid : Int) :
    (C_MDS_chown_finish_finish s req i pv uid gid 0).get_inode i =
      (s.get_inode i).map (fun c =>
        { c with inode := { c.inode with
                   uid := if uid >= 0 then uid else c.inode.uid,
                   gid := if gid >= 0 then gid else c.inode.gid, version := pv },
                 dirty := true }) := by
  unfold C_MDS_chown_finish_finish
  simp only [bne_self_eq_false, Bool.false_eq_true, ↓reduceIte, get_inode_reply_request,
    MDS.inode_lock_finish, MDS.get_inode_emit]
  rw [MDS.get_inode_inode_mark_dirty, MDS.get_inode_modify_inode_self]
  · cases s.get_inode i <;> rfl
  · intro c; rfl

/-- None of the three attribute finishers changes the ctime of the inode. -/
theorem attr_finish_keeps_ctime (s : MDS) (req : MClientRequest) (i : inodeno_t)
    (pv : version_t) (mtime atime : time_t) (mode : Nat) (uid gid : Int) :
    ((C_MDS_utime_finish_finish s req i pv mtime atime 0).get_inode i).map
        (fun c => c.inode.ctime) = (s.get_inode i).map (fun c => c.inode.ctime) ∧
    ((C_MDS_chmod_finish_finish s req i pv mode 0).get_inode i).map
        (fun c => c.inode.ctime) = (s.get_inode i).map (fun c => c.inode.ctime) ∧
    ((C_MDS_chown_finish_finish s req i pv uid gid 0).get_inode i).map
        (fun c => c.inode.ctime) = (s.get_inode i).map (fun c => c.inode.ctime) := by
  rw [utime_finish_get_inode, chmod_finish_get_inode, chown_finish_get_inode]
  cases s.get_inode i <;> simp

end Server

/-- C22 (code defect, evaluated): utime journals the requested mtime as the atime.  For a
UTIME of the file 42 of `Sample.mds0` with mtime 5 and atime 9, the inode payload of the
journal entry has mtime 5 and atime 5, while the finisher, run at the journal sync, writes
mtime 5 and atime 9 to the in-memory inode. -/
theorem utime_journals_mtime_as_atime :
    ((Server.handle_client_utime Sample.env Sample.mds0
        (Sample.req .UTIME ["a"] { modtime := 5, actime := 9 }) 42).journal.map
      (fun le => le.inodes.map (fun pi => (pi.mtime, pi.atime)))) = [[(5, 5)]] ∧
    ((Server.sync Sample.env (Server.handle_client_utime Sample.env Sample.mds0
        (Sample.req .UTIME ["a"] { modtime := 5, actime := 9 }) 42)).get_inode 42).map
      (fun c => (c.inode.mtime, c.inode.atime)) = some (5, 9) := by
  decide

/-- C23 (code defect, evaluated): chmod journals the requested mode as it came, without the
file type bits.  For a CHMOD of the regular file 42 of `Sample.mds0` (mode 0100644) to
0600, the inode payload of the journal entry has mode 0600, while the finisher, run at the
journal sync, leaves 0100600 in the in-memory inode. -/
theorem chmod_journals_mode_without_type :
    ((Server.handle_client_chmod Sample.env Sample.mds0
        (Sample.req .CHMOD ["a"] { mode := 0o600 }) 42).journal.map
      (fun le => le.inodes.map (fun pi => pi.mode))) = [[0o600]] ∧
    ((Server.sync Sample.env (Server.handle_client_chmod Sample.env Sample.mds0
        (Sample.req .CHMOD ["a"] { mode := 0o600 }) 42)).get_inode 42).map
      (fun c => c.inode.mode) = some 0o100600 := by
  decide

/-- C24 (code defect, evaluated): no attribute finisher writes the ctime.  For a UTIME, a
CHMOD and a CHOWN of the file 42 of `Sample.mds0` (ctime 0) prepared at clock time 1000,
the journal entry records ctime 1000, and after the finisher ran at the journal sync the
in-memory inode still has ctime 0. -/
theorem attr_finishers_leave_ctime :
    ((Server.handle_client_utime Sample.env Sample.mds0
        (Sample.req .UTIME ["a"] { modtime := 5, actime := 9 }) 42).journal.map
      (fun le => le.inodes.map (fun pi => pi.ctime)) = [[1000]] ∧
     ((Server.sync Sample.env (Server.handle_client_utime Sample.env Sample.mds0
        (Sample.req .UTIME ["a"] { modtime := 5, actime := 9 }) 42)).get_inode 42).map
      (fun c => c.inode.ctime) = some 0) ∧
    ((Server.handle_client_chmod Sample.env Sample.mds0
        (Sample.req .CHMOD ["a"] { mode := 0o600 }) 42).journal.map
      (fun le => le.inodes.map (fun pi => pi.ctime)) = [[1000]] ∧
     ((Server.sync Sample.env (Server.handle_client_chmod Sample.env Sample.mds0
        (Sample.req .CHMOD ["a"] { mode := 0o600 }) 42)).get_inode 42).map
      (fun c => c.inode.ctime) = some 0) ∧
    ((Server.handle_client_chown Sample.env Sample.mds0
        (Sample.req .CHOWN ["a"] { uid := 7, gid := 8 }) 42).journal.map
      (fun le => le.inodes.map (fun pi => pi.ctime)) = [[1000]] ∧
     ((Server.sync Sample.env (Server.handle_client_chown Sample.env Sample.mds0
        (Sample.req .CHOWN ["a"] { uid := 7, gid := 8 }) 42)).get_inode 42).map
      (fun c => c.inode.ctime) = some 0) := by
  decide

namespace Server

/-! ## The version assertion of the mount finisher -/

theorem mount_handlers_submit (s : MDS) (c : Nat) :
    (handle_client_mount s c).submitted = s.submitted ++
        [.C_MDS_mount_finish (.client_mount c) true (s.clientmap.projected + 1)] ∧
    (handle_client_unmount s c).submitted = s.submitted ++
        [.C_MDS_mount_finish (.client_unmount c) false (s.clientmap.projected + 1)] ∧
    (handle_client_mount s c).naborts = s.naborts ∧
    (handle_client_unmount s c).naborts = s.naborts ∧
    (handle_client_mount s c).clientmap.projected = s.clientmap.projected + 1 ∧
    (handle_client_unmount s c).clientmap.projected = s.clientmap.projected + 1 ∧
    (handle_client_mount s c).clientmap.version = s.clientmap.version ∧
    (handle_client_unmount s c).clientmap.version = s.clientmap.version := by
  unfold handle_client_mount handle_client_unmount MDS.submitted MDS.naborts MDS.emit
  simp [List.filterMap_append, List.count_append]

/-- A mount finisher whose reserved version is the next version of the client map passes
its assertion: it advances the map version by one and hands nothing to the journal. -/
theorem mount_finish_next_version (env : Env) (s : MDS) (c : Nat) (mount : Bool) :
    (C_MDS_mount_finish_finish env s c mount (s.clientmap.version + 1) 0).naborts =
        s.naborts ∧
    (C_MDS_mount_finish_finish env s c mount (s.clientmap.version + 1) 0).submitted =
        s.submitted ∧
    (C_MDS_mount_finish_finish env s c mount (s.clientmap.version + 1) 0).clientmap.version =
        s.clientmap.version + 1 ∧
    (C_MDS_mount_finish_finish env s c mount (s.clientmap.version + 1) 0).clientmap.projected =
        s.clientmap.projected := by
  unfold C_MDS_mount_finish_finish MDS.submitted MDS.naborts MDS.emit
  cases mount <;>
    cases h : (env.mds_shutdown_on_last_unmount &&
      (List.filter (fun c_1 => c_1 != c) s.clientmap.mounts).isEmpty) <;>
    simp [h, List.filterMap_append, List.count_append]

/-- The invariant of the mount controller: the finishers not yet invoked are mount
finishers that reserved the versions following the map's version, one after the other, and
the projected version is the last of them. -/
theorem mount_step_invariant (env : Env) (n0 : Nat) (st : MDS × Nat) (ev : MountEvent)
    (ha : st.1.naborts = n0)
    (hl : (st.2 + st.1.clientmap.projected : Nat) =
      (st.1.submitted.length + st.1.clientmap.version : Nat))
    (hq : ∀ k c, st.1.submitted[st.2 + k]? = some c → ∃ cl,
      c = .C_MDS_mount_finish (.client_mount cl) true (st.1.clientmap.version + k + 1) ∨
      c = .C_MDS_mount_finish (.client_unmount cl) false (st.1.clientmap.version + k + 1)) :
    (mount_step env st ev).1.naborts = n0 ∧
    ((mount_step env st ev).2 + (mount_step env st ev).1.clientmap.projected : Nat) =
      ((mount_step env st ev).1.submitted.length +
        (mount_step env st ev).1.clientmap.version : Nat) ∧
    (∀ k c, (mount_step env st ev).1.submitted[(mount_step env st ev).2 + k]? = some c →
      ∃ cl,
      c = .C_MDS_mount_finish (.client_mount cl) true
            ((mount_step env st ev).1.clientmap.version + k + 1) ∨
      c = .C_MDS_mount_finish (.client_unmount cl) false
            ((mount_step env st ev).1.clientmap.version + k + 1)) := by
  obtain ⟨s, done⟩ := st
  simp only at ha hl hq
  cases ev with
  | mount c =>
    obtain ⟨h1, -, h3, -, h5, -, h7, -⟩ := mount_handlers_submit s c
    simp only [mount_step]
    rw [h1, h3, h5, h7]
    refine ⟨ha, ?_, ?_⟩
    · simp only [List.length_append, List.length_singleton]; omega
    · intro k x hx
      by_cases hk : done + k < s.submitted.length
      · rw [List.getElem?_append_left hk] at hx
        exact hq k x hx
      · rw [List.getElem?_append_right (by omega)] at hx
        have hz : done + k - s.submitted.length = 0 := by
          by_contra hne
          rw [List.getElem?_eq_none (by simp; omega)] at hx
          cases hx
        rw [hz] at hx
        simp only [List.getElem?_cons_zero, Option.some.injEq] at hx
        refine ⟨c, Or.inl ?_⟩
        rw [← hx]
        have : @Eq Nat (s.clientmap.projected + 1) (s.clientmap.version + k + 1) := by omega
        rw [this]
  | unmount c =>
    obtain ⟨-, h1, -, h3, -, h5, -, h7⟩ := mount_handlers_submit s c
    simp only [mount_step]
    rw [h1, h3, h5, h7]
    refine ⟨ha, ?_, ?_⟩
    · simp only [List.length_append, List.length_singleton]; omega
    · intro k x hx
      by_cases hk : done + k < s.submitted.length
      · rw [List.getElem?_append_left hk] at hx
        exact hq k x hx
      · rw [List.getElem?_append_right (by omega)] at hx
        have hz : done + k - s.submitted.length = 0 := by
          by_contra hne
          rw [List.getElem?_eq_none (by simp; omega)] at hx
          cases hx
        rw [hz] at hx
        simp only [List.getElem?_cons_zero, Option.some.injEq] at hx
        refine ⟨c, Or.inr ?_⟩
        rw [← hx]
        have : @Eq Nat (s.clientmap.projected + 1) (s.clientmap.version + k + 1) := by omega
        rw [this]
  | sync =>
    simp only [mount_step]
    cases hc : s.submitted[done]? with
    | none => exact ⟨ha, hl, hq⟩
    | some c =>
      have hlt : done < s.submitted.length := by
        by_contra hge
        rw [List.getElem?_eq_none (by omega)] at hc
        cases hc
      obtain ⟨cl, h | h⟩ := hq 0 c (by simpa using hc)
      · subst h
        obtain ⟨f1, f2, f3, f4⟩ := mount_finish_next_version env s cl true
        simp only [finish, Nat.add_zero]
        rw [f1, f2, f3, f4]
        refine ⟨ha, by simp only [version_t] at *; omega, ?_⟩
        intro k x hx
        have := hq (k + 1) x (by rw [← hx]; congr 1; omega)
        obtain ⟨cl2, h2⟩ := this
        refine ⟨cl2, ?_⟩
        have e : @Eq Nat (s.clientmap.version + (k + 1) + 1) (s.clientmap.version + 1 + k + 1) := by
          omega
        rw [e] at h2
        exact h2
      · subst h
        obtain ⟨f1, f2, f3, f4⟩ := mount_finish_next_version env s cl false
        simp only [finish, Nat.add_zero]
        rw [f1, f2, f3, f4]
        refine ⟨ha, by simp only [version_t] at *; omega, ?_⟩
        intro k x hx
        have := hq (k + 1) x (by rw [← hx]; congr 1; omega)
        obtain ⟨cl2, h2⟩ := this
        refine ⟨cl2, ?_⟩
        have e : @Eq Nat (s.clientmap.version + (k + 1) + 1) (s.clientmap.version + 1 + k + 1) := by
          omega
        rw [e] at h2
        exact h2

theorem mount_run_invariant (env : Env) (n0 : Nat) (evs : List MountEvent) :
    ∀ st : MDS × Nat, st.1.naborts = n0 →
      (st.2 + st.1.clientmap.projected : Nat) =
        (st.1.submitted.length + st.1.clientmap.version : Nat) →
      (∀ k c, st.1.submitted[st.2 + k]? = some c → ∃ cl,
        c = .C_MDS_mount_finish (.client_mount cl) true (st.1.clientmap.version + k + 1) ∨
        c = .C_MDS_mount_finish (.client_unmount cl) false (st.1.clientmap.version + k + 1)) →
      (mount_run env st evs).1.naborts = n0 ∧
      ((mount_run env st evs).2 + (mount_run env st evs).1.clientmap.projected : Nat) =
        ((mount_run env st evs).1.submitted.length +
          (mount_run env st evs).1.clientmap.version : Nat) := by
  induction evs with
  | nil => intro st ha hl _; exact ⟨ha, hl⟩
  | cons ev rest ih =>
    intro st ha hl hq
    obtain ⟨a, b, c⟩ := mount_step_invariant env n0 st ev ha hl hq
    exact ih (mount_step env st ev) a b c

end Server

/-- C25: start with a client map whose projected version equals its version and with no
finisher outstanding at the journal.  Whatever sequence of mount messages, unmount messages
and journal syncs follows, with the journal invoking the finishers in submit order, no
assertion fails: the version a mount finisher reserved at receipt equals the map's version
after its add or remove.  At the end the projected version is ahead of the version by the
number of finishers still outstanding. -/
theorem mount_finish_assertion_holds (env : Env) (s : MDS) (evs : List MountEvent)
    (h0 : (s.clientmap.projected : Nat) = s.clientmap.version) :
    (Server.mount_run env (s, s.submitted.length) evs).1.naborts = s.naborts ∧
    ((Server.mount_run env (s, s.submitted.length) evs).2 +
        (Server.mount_run env (s, s.submitted.length) evs).1.clientmap.projected : Nat) =
      ((Server.mount_run env (s, s.submitted.length) evs).1.submitted.length +
        (Server.mount_run env (s, s.submitted.length) evs).1.clientmap.version : Nat) := by
  apply Server.mount_run_invariant env s.naborts evs (s, s.submitted.length) rfl
  · simp only [version_t] at *; omega
  · intro k c hc
    rw [List.getElem?_eq_none (by simp)] at hc
    cases hc

/-- Witness for C25: three messages arrive at `Sample.mds0` before the journal syncs three
times; no assertion fails and the map ends at version 3 with client 4 mounted. -/
theorem mount_finish_assertion_holds_witness :
    Sample.mds0.clientmap.projected = Sample.mds0.clientmap.version ∧
    (Server.mount_run Sample.env (Sample.mds0, Sample.mds0.submitted.length)
        [.mount 3, .mount 4, .unmount 3, .sync, .sync, .sync]).1.naborts = 0 ∧
    (Server.mount_run Sample.env (Sample.mds0, Sample.mds0.submitted.length)
        [.mount 3, .mount 4, .unmount 3, .sync, .sync, .sync]).1.clientmap =
      { version := 3, projected := 3, mounts := [4] } :=
  ⟨rfl, (mount_finish_assertion_holds Sample.env Sample.mds0
      [.mount 3, .mount 4, .unmount 3, .sync, .sync, .sync] rfl).1, by decide⟩

namespace Server

/-! ## Anchoring of a link target -/

/-- Past the anchor test, the first call `link_local` makes is the start of the target's
hard-write lock, and it never asks for an anchor. -/
theorem link_local_locks (env : Env) (s : MDS) (req : MClientRequest) (diri : inodeno_t)
    (dn : DnPtr) (targeti : inodeno_t) (ti : CInode) (hi : s.get_inode targeti = some ti)
    (hskip : (ti.get_parent_dir == some dn.dir) = true ∨
      (ti.is_anchored = true ∧ ti.is_unanchoring = false)) :
    ((link_local env s req diri dn targeti).log.drop s.log.length).head? =
        some (.lock_start .inode_hard_write targeti none req.id
          (env.lock_start s .inode_hard_write targeti none req.id)) ∧
      ∀ i c, Effect.anchor_create i c ∉ (link_local env s req diri dn targeti).log.drop
        s.log.length := by
  have hc : (!(ti.get_parent_dir == some dn.dir) && !(ti.is_anchored && !ti.is_unanchoring))
      = false := by
    rcases hskip with h | ⟨h1, h2⟩
    · simp [h]
    · simp [h1, h2]
  unfold link_local
  simp only [hi, hc, Bool.false_eq_true, ↓reduceIte, MDS.inode_lock_start]
  cases hg : env.lock_start s .inode_hard_write targeti none req.id
  · simp
  · simp only [Bool.not_true, Bool.false_eq_true, ↓reduceIte]
    cases hp : ti.parent with
    | none =>
      simp only [MDS.log_emit, MDS.log_inode_pre_dirty, MDS.log_dentry_pre_dirty,
        List.append_assoc, List.drop_left]
      simp
    | some tparent =>
      simp only [MDS.log_emit, MDS.log_inode_pre_dirty, MDS.log_dentry_pre_dirty,
        List.append_assoc, List.drop_left]
      simp

end Server

/-- C26 (amended): `link_local` skips anchoring when the target's parent dirfrag is the
dirfrag of the new dentry, or when the target is anchored and its anchor is not being
removed: the first call it then makes is the start of the target's hard-write lock, and
among the calls it makes there is no request for an anchor.  In every other case it asks for an anchor of the target, with a
retry of the request as continuation, and does nothing else: nothing is locked, nothing is
journalled, the cache is as it was. -/
theorem link_local_anchoring (env : Env) (s : MDS) (req : MClientRequest) (diri : inodeno_t)
    (dn : DnPtr) (targeti : inodeno_t) (ti : CInode) (hi : s.get_inode targeti = some ti) :
    (((ti.get_parent_dir == some dn.dir) = true ∨
        (ti.is_anchored = true ∧ ti.is_unanchoring = false)) →
      ((Server.link_local env s req diri dn targeti).log.drop s.log.length).head? =
          some (.lock_start .inode_hard_write targeti none req.id
            (env.lock_start s .inode_hard_write targeti none req.id)) ∧
        ∀ i c, Effect.anchor_create i c ∉ (Server.link_local env s req diri dn targeti).log.drop
          s.log.length) ∧
    (¬ ((ti.get_parent_dir == some dn.dir) = true ∨
        (ti.is_anchored = true ∧ ti.is_unanchoring = false)) →
      Server.link_local env s req diri dn targeti =
        s.emit (.anchor_create targeti (.C_MDS_RetryRequest req diri))) := by
  refine ⟨Server.link_local_locks env s req diri dn targeti ti hi, ?_⟩
  intro hn
  have hc : (!(ti.get_parent_dir == some dn.dir) && !(ti.is_anchored && !ti.is_unanchoring))
      = true := by
    cases h1 : (ti.get_parent_dir == some dn.dir) <;> cases h2 : ti.is_anchored <;>
      cases h3 : ti.is_unanchoring <;> simp_all
  unfold Server.link_local
  simp only [hi, hc, ↓reduceIte]

/-- Witness for C26: in `Sample.mds_tree` the file `x` of the directory `d` is not anchored
and the new name `b` is in the root, so a link to it asks for an anchor and does nothing
else. -/
theorem link_local_anchoring_witness :
    Server.link_local Sample.env Sample.mds_tree (Sample.req .LINK ["b"] {}) 1 ⟨⟨1, 0⟩, "b"⟩ 51 =
      Sample.mds_tree.emit
        (.anchor_create 51 (.C_MDS_RetryRequest (Sample.req .LINK ["b"] {}) 1)) :=
  (link_local_anchoring Sample.env Sample.mds_tree (Sample.req .LINK ["b"] {}) 1
    ⟨⟨1, 0⟩, "b"⟩ 51 _ rfl).2 (by decide)

/-- C26 (counterexample): a target that is anchored is not always exempt.  In
`Sample.mds_unanchoring` the file `x` of the directory `d` is anchored while its anchor is
being removed; a link to it from the root asks for an anchor. -/
theorem link_local_anchors_unanchoring_target :
    (∃ ti, Sample.mds_unanchoring.get_inode 51 = some ti ∧ ti.is_anchored = true) ∧
    (Server.link_local Sample.env Sample.mds_unanchoring (Sample.req .LINK ["b"] {}) 1
        ⟨⟨1, 0⟩, "b"⟩ 51).log =
      [.anchor_create 51 (.C_MDS_RetryRequest (Sample.req .LINK ["b"] {}) 1)] := by
  refine ⟨⟨_, rfl, rfl⟩, by decide⟩

namespace Server

/-! ## What a successful `_verify_rmdir` has checked -/

/-- Opening a dirfrag leaves every dirfrag that was open as it was. -/
theorem get_or_open_dirfrag_keeps (s : MDS) (ci : CInode) (fg : frag_t) (df : dirfrag_t)
    (d : CDir) (h : s.get_dirfrag df = some d) :
    (s.get_or_open_dirfrag ci fg).get_dirfrag df = some d := by
  unfold MDS.get_or_open_dirfrag
  split
  · exact h
  · unfold MDS.get_dirfrag at h ⊢
    simp only [List.find?_append, h]
    rfl

/-- The loop of `_verify_rmdir`, when it runs to its end: the dirfrags open before are
unchanged, and every frag of the list is open, empty, complete and authoritative. -/
theorem _verify_rmdir_frags_true (req : MClientRequest) (ref : inodeno_t) (ci : CInode)
    (frags : List frag_t) :
    ∀ (s t : MDS), _verify_rmdir_frags s req ref ci frags = (t, true) →
      (∀ df d, s.get_dirfrag df = some d → t.get_dirfrag df = some d) ∧
      (∀ fg ∈ frags, ∃ d, t.get_dirfrag ⟨ci.inode.ino, fg⟩ = some d ∧ d.get_size = 0 ∧
        d.complete = true ∧ d.auth = true) := by
  induction frags with
  | nil =>
    intro s t h
    unfold _verify_rmdir_frags at h
    cases h
    exact ⟨fun _ _ h => h, by simp⟩
  | cons p ps ih =>
    intro s t h
    unfold _verify_rmdir_frags at h
    simp only at h
    cases hd : (s.get_or_open_dirfrag ci p).get_dirfrag ⟨ci.inode.ino, p⟩ with
    | none => simp [hd] at h
    | some dir =>
      simp only [hd] at h
      cases hauth : dir.auth <;> cases hcomp : dir.complete <;>
        by_cases hsz : dir.get_size = 0 <;>
        simp [hauth, hcomp, hsz] at h
      obtain ⟨hk, hall⟩ := ih _ _ h
      refine ⟨fun df d h0 => hk df d (get_or_open_dirfrag_keeps s ci p df d h0), ?_⟩
      intro fg hfg
      rcases List.mem_cons.mp hfg with h1 | h1
      · subst h1
        exact ⟨dir, hk _ _ hd, hsz, hcomp, hauth⟩
      · exact hall fg h1

end Server

/-- C27: when `_verify_rmdir` returns true for the inode `i`, the inode is in the cache and
authoritative, and in the state it returns every leaf frag of the inode's dirfragtree is
open with size 0, complete and authoritative.  It does not return true while a leaf frag
that is open holds an entry, is incomplete, or is not authoritative. -/
theorem verify_rmdir_true (s t : MDS) (req : MClientRequest) (ref i : inodeno_t)
    (h : Server._verify_rmdir s req ref i = (t, true)) :
    ∃ ci, s.get_inode i = some ci ∧ ci.auth = true ∧
      (∀ fg ∈ ci.dirfragtree, ∃ d, t.get_dirfrag ⟨i, fg⟩ = some d ∧ d.get_size = 0 ∧
        d.complete = true ∧ d.auth = true) ∧
      (∀ fg ∈ ci.dirfragtree, ∀ d, s.get_dirfrag ⟨i, fg⟩ = some d →
        d.get_size = 0 ∧ d.complete = true ∧ d.auth = true) := by
  unfold Server._verify_rmdir at h
  cases hi : s.get_inode i with
  | none => simp [hi] at h
  | some ci =>
    simp only [hi] at h
    cases hauth : ci.auth
    · simp [hauth] at h
    · simp only [hauth, Bool.not_true, Bool.false_eq_true, ↓reduceIte] at h
      obtain ⟨hk, hall⟩ := Server._verify_rmdir_frags_true req ref ci ci.dirfragtree s t h
      have hino : ci.inode.ino = i := MDS.get_inode_ino s i ci hi
      rw [hino] at hall
      refine ⟨ci, rfl, hauth, hall, ?_⟩
      intro fg hfg d hd
      obtain ⟨d2, hd2, h2⟩ := hall fg hfg
      rw [hk _ _ hd] at hd2
      cases hd2
      exact h2

/-- Witness for C27: the directory `d` of `Sample.mds_emptydir` passes the check, and its
one leaf frag is open, empty, complete and authoritative. -/
theorem verify_rmdir_true_witness :
    Server._verify_rmdir Sample.mds_emptydir (Sample.req .RMDIR ["d"] {}) 1 50 =
      (Sample.mds_emptydir, true) ∧
    ∃ ci, Sample.mds_emptydir.get_inode 50 = some ci ∧ ci.auth = true ∧
      (∀ fg ∈ ci.dirfragtree, ∃ d, Sample.mds_emptydir.get_dirfrag ⟨50, fg⟩ = some d ∧
        d.get_size = 0 ∧ d.complete = true ∧ d.auth = true) ∧
      (∀ fg ∈ ci.dirfragtree, ∀ d, Sample.mds_emptydir.get_dirfrag ⟨50, fg⟩ = some d →
        d.get_size = 0 ∧ d.complete = true ∧ d.auth = true) :=
  ⟨by decide, verify_rmdir_true Sample.mds_emptydir Sample.mds_emptydir
    (Sample.req .RMDIR ["d"] {}) 1 50 (by decide)⟩

namespace Server

/-! ## Destination of a rename -/

/-- The body of `handle_client_rename_2` below the assertions on the source inode and on
`d`, in terms of the trimmed trace. -/
theorem handle_client_rename_2_eq (env : Env) (s : MDS) (req : MClientRequest)
    (ref : inodeno_t) (srcdn : DnPtr) (destpath : filepath) (trace0 : List DnPtr) (r : Int)
    (srci d : CInode)
    (hsrc : (s.get_dentry srcdn).bind (fun x => x.inode.bind s.get_inode) = some srci)
    (hd : rename_2_tail s (rename_2_trace s trace0) = some d) :
    handle_client_rename_2 env s req ref srcdn destpath trace0 r =
      if d.is_dir && !d.auth && (s.get_dirfrag ⟨d.inode.ino, 0⟩).isNone then
        s.emit (.open_remote_dir d.inode.ino 0 (.C_MDS_RetryRequest req ref))
      else
        if ((rename_2_trace s trace0).length : Int) == to_size_t destpath.depth then
          if d.is_dir then
            match (try_open_dir s d.inode.ino (env.pick_dirfrag d.dirfragtree "") req).2 with
            | none => (try_open_dir s d.inode.ino (env.pick_dirfrag d.dirfragtree "") req).1
            | some destdir =>
              handle_client_rename_2_dest env
                (try_open_dir s d.inode.ino (env.pick_dirfrag d.dirfragtree "") req).1
                req ref srcdn srci
                (destpath.push_dentry req.filepath.last_dentry) destdir
                req.filepath.last_dentry
          else
            match (rename_2_trace s trace0).getLast? with
            | none => s.emit .abort
            | some last =>
              handle_client_rename_2_dest env s req ref srcdn srci destpath last.dir
                destpath.last_dentry
        else if ((rename_2_trace s trace0).length : Int) == to_size_t (destpath.depth - 1) then
          if d.is_dir then
            match (try_open_dir s d.inode.ino (env.pick_dirfrag d.dirfragtree "") req).2 with
            | none => (try_open_dir s d.inode.ino (env.pick_dirfrag d.dirfragtree "") req).1
            | some destdir =>
              handle_client_rename_2_dest env
                (try_open_dir s d.inode.ino (env.pick_dirfrag d.dirfragtree "") req).1
                req ref srcdn srci destpath destdir destpath.last_dentry
          else reply_request_r s req (-EINVAL) none
        else
          if !(((rename_2_trace s trace0).length : Int) < to_size_t (destpath.depth - 1)) then
            s.emit .abort
          else if r > 0 then s
          else if !(r < 0 || (rename_2_trace s trace0).length == 0) then s.emit .abort
          else reply_request_r s req (-EINVAL) none := by
  unfold handle_client_rename_2
  unfold rename_2_tail at hd
  unfold rename_2_trace at hd ⊢
  simp only [hsrc]
  cases h1 : trace0.getLast? with
  | none =>
    simp only [h1] at hd ⊢
    simp only [hd]
    try rfl
  | some dn =>
    simp only [h1] at hd ⊢
    by_cases hc : ((s.get_dentry dn).bind (fun d => d.inode)).isNone = true
    · simp only [hc, ↓reduceIte] at hd ⊢
      cases h2 : trace0.dropLast.getLast? with
      | none =>
        simp only [h2] at hd ⊢
        simp only [hd]
        try rfl
      | some dn2 =>
        simp only [h2] at hd ⊢
        simp only [hd]
        try rfl
    · simp only [hc, Bool.false_eq_true, ↓reduceIte, h1] at hd ⊢
      simp only [hd]
      try rfl

end Server

/-- C29 (code defect, evaluated): the destination frag is picked for the empty name.  In
`Sample.mds_frags` the directory `d` has the frags 0 and 1, and under `Sample.env_frags`
the name `a` belongs to frag 1, where `d` has a directory `a`.  For `mv a d` the handler
opens frag 0, the frag of the empty name, finds no `a` there and hands the rename executor
the new dentry `a` of frag 0.  Given the frag that owns the name, the same request is
answered with EISDIR. -/
theorem rename_2_picks_frag_of_empty_name :
    Sample.env_frags.pick_dirfrag [0, 1] "a" = 1 ∧
    (Server.handle_client_rename_2 Sample.env_frags Sample.mds_frags
        { Sample.req .RENAME ["a"] {} with sarg := "d" } 1 ⟨⟨1, 0⟩, "a"⟩ ⟨["d"]⟩
        [⟨⟨1, 0⟩, "d"⟩] 0).file_renames = [(⟨⟨1, 0⟩, "a"⟩, ⟨⟨50, 0⟩, "a"⟩)] ∧
    (Server.handle_client_rename_2_dest Sample.env_frags Sample.mds_frags
        { Sample.req .RENAME ["a"] {} with sarg := "d" } 1 ⟨⟨1, 0⟩, "a"⟩ Sample.file_inode
        ⟨["d", "a"]⟩ ⟨50, 1⟩ "a").log =
      [.send_reply { req := 7, result := -EISDIR } 3, .request_finish 7] := by
  refine ⟨by decide, ?_, by decide⟩
  have h1 : Server.handle_client_rename_2 Sample.env_frags Sample.mds_frags
      { Sample.req .RENAME ["a"] {} with sarg := "d" } 1 ⟨⟨1, 0⟩, "a"⟩ ⟨["d"]⟩
      [⟨⟨1, 0⟩, "d"⟩] 0 =
    Server.handle_client_rename_local Sample.env_frags Sample.mds_frags
      { Sample.req .RENAME ["a"] {} with sarg := "d" } 1 "a" ⟨⟨1, 0⟩, "a"⟩ "d/a" ⟨50, 0⟩
      none "a" := by
    rw [Server.handle_client_rename_2_eq Sample.env_frags Sample.mds_frags _ 1 ⟨⟨1, 0⟩, "a"⟩ ⟨["d"]⟩
      [⟨⟨1, 0⟩, "d"⟩] 0 Sample.file_inode
      { inode := { ino := 50, mode := 0o040755 }, parent := some ⟨⟨1, 0⟩, "d"⟩,
        dirfragtree := [0, 1] } (by decide) (by decide)]
    unfold Server.handle_client_rename_2_dest
    rfl
  rw [h1]
  unfold Server.handle_client_rename_local
  generalize decide ("a" < "d/a") = dosrc
  cases dosrc <;> decide

namespace MDS

/-! ## The final check of a rename -/

theorem naborts_of_log {s t : MDS} (h : t.log = s.log) : t.naborts = s.naborts := by
  unfold naborts; rw [h]

theorem naborts_emit (s : MDS) (e : Effect) (h : e ≠ .abort) :
    (s.emit e).naborts = s.naborts := by
  unfold naborts emit
  simp only [List.count_append, List.count_singleton]
  have : (e == Effect.abort) = false := by simpa using h
  simp [this]

theorem naborts_dentry_xlock_start (env : Env) (s : MDS) (p : DnPtr) (r : ReqId)
    (ref : inodeno_t) : (s.dentry_xlock_start env p r ref).1.naborts = s.naborts := by
  unfold dentry_xlock_start
  simp only []
  split
  · rw [naborts_of_log (log_modify_dentry _ _ _), naborts_emit _ _ (by simp)]
  · rw [naborts_emit _ _ (by simp)]

theorem naborts_reply_request_r (s : MDS) (req : MClientRequest) (r : Int)
    (t : Option inodeno_t) : (Server.reply_request_r s req r t).naborts = s.naborts := by
  unfold naborts
  simp [List.count_append]

@[simp] theorem dentry_link_emit (s : MDS) (e : Effect) (q : DnPtr) :
    (s.emit e).dentry_link q = s.dentry_link q := rfl

/-- The lookups after a `dentry_xlock_start`: the same dentries are found, linked to the
same inodes, and the same dirfrags are open. -/
theorem dentry_xlock_start_lookups (env : Env) (s : MDS) (p : DnPtr) (r : ReqId)
    (ref : inodeno_t) (q : DnPtr) (df : dirfrag_t) :
    (s.dentry_xlock_start env p r ref).1.dentry_link q = s.dentry_link q ∧
    ((s.dentry_xlock_start env p r ref).1.get_dentry q).isSome = (s.get_dentry q).isSome ∧
    ((s.dentry_xlock_start env p r ref).1.get_dirfrag df).isSome =
      (s.get_dirfrag df).isSome := by
  unfold dentry_xlock_start
  simp only []
  split
  · refine ⟨?_, ?_, ?_⟩
    · unfold dentry_link
      rw [get_dentry_modify_dentry]
      swap
      · intro d; rfl
      simp only [get_dentry_emit]
      cases s.get_dentry q with
      | none => rfl
      | some d => simp only [Option.map_some', Option.some_bind]; split <;> rfl
    · rw [get_dentry_modify_dentry]
      swap
      · intro d; rfl
      simp
    · unfold modify_dentry
      rw [get_dirfrag_modify_dir]
      swap
      · intro d; rfl
      simp
  · exact ⟨rfl, rfl, rfl⟩

/-- The lookups after `add_dentry`: dentries that were there are still found, every name
links to the inode it linked to, and the same dirfrags are open. -/
theorem add_dentry_lookups (s : MDS) (df0 : dirfrag_t) (n : String) (q : DnPtr)
    (df : dirfrag_t) :
    (s.add_dentry df0 n).dentry_link q = s.dentry_link q ∧
    ((s.get_dentry q).isSome = true → ((s.add_dentry df0 n).get_dentry q).isSome = true) ∧
    ((s.add_dentry df0 n).get_dirfrag df).isSome = (s.get_dirfrag df).isSome := by
  refine ⟨?_, ?_, ?_⟩
  · unfold dentry_link
    cases hq : s.get_dentry q with
    | some d => rw [get_dentry_add_dentry_some s df0 n q d hq]
    | none =>
      unfold add_dentry get_dentry at *
      rw [get_dirfrag_modify_dir]
      swap
      · intro x; rfl
      cases hd : s.get_dirfrag q.dir with
      | none => rfl
      | some dir =>
        rw [hd] at hq
        simp only [Option.some_bind] at hq
        simp only [Option.map_some', Option.some_bind]
        split
        · unfold CDir.lookup at hq ⊢
          simp only [List.find?_append, hq, Option.none_or]
          simp only [List.find?_cons, List.find?_nil]
          split <;> rfl
        · rw [hq]
  · intro h
    cases hq : s.get_dentry q with
    | none => rw [hq] at h; simp at h
    | some d => rw [get_dentry_add_dentry_some s df0 n q d hq]; rfl
  · unfold add_dentry
    rw [get_dirfrag_modify_dir]
    swap
    · intro d; rfl
    simp

end MDS

namespace Server

/-- Lock acquisition does not change which inode a dentry links to: a round of the lock loop
that lets the loop go on leaves every dentry link and the inode map as they were, keeps the
dentries that were there, and keeps the same dirfrags open. -/
theorem rename_lock_round_lookups (env : Env) (s : MDS) (req : MClientRequest)
    (ref : inodeno_t) (dosrc sl dl : Bool) (srcdn : DnPtr) (destdir : dirfrag_t)
    (destdn : Option DnPtr) (destname : String)
    (h : (rename_lock_round env s req ref dosrc sl dl srcdn destdir destdn destname).2.2 = true)
    (q : DnPtr) (df : dirfrag_t) :
    (rename_lock_round env s req ref dosrc sl dl srcdn destdir destdn destname).1.dentry_link q
        = s.dentry_link q ∧
    (rename_lock_round env s req ref dosrc sl dl srcdn destdir destdn destname).1.inode_map
        = s.inode_map ∧
    ((s.get_dentry q).isSome = true →
      ((rename_lock_round env s req ref dosrc sl dl srcdn destdir destdn destname).1.get_dentry
        q).isSome = true) ∧
    ((rename_lock_round env s req ref dosrc sl dl srcdn destdir destdn destname).1.get_dirfrag
        df).isSome = (s.get_dirfrag df).isSome := by
  unfold rename_lock_round at h ⊢
  cases dosrc
  · simp only [Bool.false_eq_true, ↓reduceIte] at h ⊢
    cases dl
    · simp only [Bool.false_eq_true, ↓reduceIte] at h ⊢
      split at h
      · simp at h
      · rename_i hh
        simp [hh]
    · simp only [↓reduceIte] at h ⊢
      generalize hs1 : (if destdn.isNone = true then s.add_dentry destdir destname else s) = s1
        at h ⊢
      have hs1f : s1.dentry_link q = s.dentry_link q ∧ s1.inode_map = s.inode_map ∧
          ((s.get_dentry q).isSome = true → (s1.get_dentry q).isSome = true) ∧
          (s1.get_dirfrag df).isSome = (s.get_dirfrag df).isSome := by
        rw [← hs1]
        split
        · have a := MDS.add_dentry_lookups s destdir destname q df
          exact ⟨a.1, MDS.inode_map_add_dentry _ _ _, a.2.1, a.2.2⟩
        · exact ⟨rfl, rfl, fun x => x, rfl⟩
      cases hd : s1.get_dentry (destdn.getD ⟨destdir, destname⟩) with
      | none => simp [hd] at h
      | some dd =>
        simp only [hd] at h ⊢
        by_cases hme : dd.is_xlockedbyme req.id = true
        · simp only [hme, ↓reduceIte]
          exact hs1f
        · simp only [hme, Bool.false_eq_true, ↓reduceIte] at h ⊢
          have x := MDS.dentry_xlock_start_lookups env s1 (destdn.getD ⟨destdir, destname⟩)
            req.id ref q df
          by_cases hg : (s1.dentry_xlock_start env (destdn.getD ⟨destdir, destname⟩) req.id
              ref).2 = true
          · simp only [hg, ↓reduceIte]
            refine ⟨by rw [x.1, hs1f.1], by rw [MDS.inode_map_dentry_xlock_start, hs1f.2.1],
              ?_, by rw [x.2.2, hs1f.2.2.2]⟩
            intro hq
            rw [x.2.1]
            exact hs1f.2.2.1 hq
          · simp only [hg, Bool.false_eq_true, ↓reduceIte] at h
            split at h <;> simp at h
  · simp only [↓reduceIte] at h ⊢
    cases hsd : s.get_dentry srcdn with
    | none => simp [hsd] at h
    | some sd =>
      simp only [hsd] at h ⊢
      cases sl
      · simp only [Bool.false_eq_true, ↓reduceIte] at h ⊢
        split at h
        · simp at h
        · rename_i hh
          simp [hh]
      · simp only [↓reduceIte] at h ⊢
        by_cases hme : sd.is_xlockedbyme req.id = true
        · simp [hme]
        · simp only [hme, Bool.false_eq_true, ↓reduceIte] at h ⊢
          have x := MDS.dentry_xlock_start_lookups env s srcdn req.id ref q df
          refine ⟨x.1, MDS.inode_map_dentry_xlock_start _ _ _ _ _, ?_, x.2.2⟩
          intro hq
          rw [x.2.1]
          exact hq

/-- A round of the lock loop whose dentry and dirfrag pointers are valid fails no
assertion. -/
theorem rename_lock_round_naborts (env : Env) (s : MDS) (req : MClientRequest)
    (ref : inodeno_t) (dosrc sl dl : Bool) (srcdn : DnPtr) (destdir : dirfrag_t)
    (destdn : Option DnPtr) (destname : String)
    (hsrc : dosrc = true → (s.get_dentry srcdn).isSome = true)
    (hdst : dosrc = false → (s.get_dirfrag destdir).isSome = true ∧
      (destdn = none ∨ (destdn = some ⟨destdir, destname⟩ ∧
        (s.get_dentry ⟨destdir, destname⟩).isSome = true))) :
    (rename_lock_round env s req ref dosrc sl dl srcdn destdir destdn destname).1.naborts =
      s.naborts := by
  unfold rename_lock_round
  cases dosrc
  · obtain ⟨hdir, hdn⟩ := hdst rfl
    simp only [Bool.false_eq_true, ↓reduceIte]
    cases dl
    · simp only [Bool.false_eq_true, ↓reduceIte]
      split
      · exact MDS.naborts_emit _ _ (by simp)
      · rfl
    · simp only [↓reduceIte]
      have hres : ∃ dd, (if destdn.isNone = true then s.add_dentry destdir destname
          else s).get_dentry (destdn.getD ⟨destdir, destname⟩) = some dd := by
        rcases hdn with h | ⟨h, hres⟩
        · subst h
          simp only [Option.isNone_none, ↓reduceIte, Option.getD_none]
          cases hd : s.get_dirfrag destdir with
          | none => rw [hd] at hdir; simp at hdir
          | some d => exact ⟨_, get_dentry_add_dentry s destdir destname d hd⟩
        · subst h
          simp only [Option.isNone_some, Bool.false_eq_true, ↓reduceIte, Option.getD_some]
          cases hd : s.get_dentry ⟨destdir, destname⟩ with
          | none => rw [hd] at hres; simp at hres
          | some d => exact ⟨d, rfl⟩
      have hs1 : (if destdn.isNone = true then s.add_dentry destdir destname
          else s).naborts = s.naborts := by
        split
        · exact MDS.naborts_of_log (MDS.log_add_dentry _ _ _)
        · rfl
      generalize (if destdn.isNone = true then s.add_dentry destdir destname else s) = s1
        at hres hs1 ⊢
      obtain ⟨dd, hdd⟩ := hres
      simp only [hdd]
      have hx := MDS.naborts_dentry_xlock_start env s1 (destdn.getD ⟨destdir, destname⟩)
        req.id ref
      repeat' split
      all_goals first
        | exact hs1
        | (rw [hx]; exact hs1)
        | (rw [MDS.naborts_of_log (MDS.log_remove_dentry _ _), hx]; exact hs1)
  · have hs := hsrc rfl
    simp only [↓reduceIte]
    cases hsd : s.get_dentry srcdn with
    | none => rw [hsd] at hs; simp at hs
    | some sd =>
      simp only []
      have hx := MDS.naborts_dentry_xlock_start env s srcdn req.id ref
      repeat' split
      all_goals first
        | rfl
        | exact hx
        | exact MDS.naborts_emit _ _ (by simp)

/-- The final check of `handle_client_rename_local` cannot fail when the check was made
before the locks were taken: with valid pointers, a destination dentry that is the one of
the name in `destdir`, and a destination that, if it links to an inode, links to one that is
no directory while the source inode is no directory either, the handler fails no
assertion. -/
theorem rename_local_naborts (env : Env) (s : MDS) (req : MClientRequest) (ref : inodeno_t)
    (srcpath : String) (srcdn : DnPtr) (destpath : String) (destdir : dirfrag_t)
    (destdn : Option DnPtr) (destname : String) (sd0 : CDentry) (srci : CInode)
    (hsd : s.get_dentry srcdn = some sd0) (hsi : sd0.inode.bind s.get_inode = some srci)
    (hdir : (s.get_dirfrag destdir).isSome = true)
    (hdn : destdn = (s.get_dentry ⟨destdir, destname⟩).map (fun _ => ⟨destdir, destname⟩))
    (hsafe : ∀ di, s.dentry_link ⟨destdir, destname⟩ = some di →
      ∃ dci, s.get_inode di = some dci ∧ dci.is_dir = false ∧ srci.is_dir = false) :
    (handle_client_rename_local env s req ref srcpath srcdn destpath destdir destdn
      destname).naborts = s.naborts := by
  have hsdir : (s.get_dirfrag srcdn.dir).isSome = true := by
    unfold MDS.get_dentry at hsd
    cases h : s.get_dirfrag srcdn.dir with
    | none => rw [h] at hsd; simp at hsd
    | some d => rfl
  have hsrc : (s.get_dentry srcdn).isSome = true := by rw [hsd]; rfl
  have hp : destdn.getD ⟨destdir, destname⟩ = ⟨destdir, destname⟩ := by
    rw [hdn]; cases s.get_dentry ⟨destdir, destname⟩ <;> rfl
  have hdn2 : destdn = none ∨ (destdn = some ⟨destdir, destname⟩ ∧
      (s.get_dentry ⟨destdir, destname⟩).isSome = true) := by
    rw [hdn]; cases s.get_dentry ⟨destdir, destname⟩ <;> simp
  unfold handle_client_rename_local
  generalize decide (srcpath < destpath) = dosrc
  cases hd1 : s.get_dirfrag srcdn.dir with
  | none => rw [hd1] at hsdir; simp at hsdir
  | some sdir =>
    cases hd2 : s.get_dirfrag destdir with
    | none => rw [hd2] at hdir; simp at hdir
    | some ddir =>
      simp only []
      generalize (sdir.authority == s.whoami) = sl
      generalize (ddir.authority == s.whoami) = dl
      -- the first round
      have n1 := rename_lock_round_naborts env s req ref dosrc sl dl srcdn destdir destdn
        destname (fun _ => hsrc) (fun _ => ⟨hdir, hdn2⟩)
      by_cases hg1 : (rename_lock_round env s req ref dosrc sl dl srcdn destdir destdn
          destname).2.2 = true
      swap
      · simp only [hg1, Bool.not_false, ↓reduceIte]
        exact n1
      simp only [hg1, Bool.not_true, Bool.false_eq_true, ↓reduceIte]
      have l1 := rename_lock_round_lookups env s req ref dosrc sl dl srcdn destdir destdn
        destname hg1
      have hd1' : (rename_lock_round env s req ref dosrc sl dl srcdn destdir destdn
          destname).2.1 = destdn ∨
          (rename_lock_round env s req ref dosrc sl dl srcdn destdir destdn
          destname).2.1 = some ⟨destdir, destname⟩ := by
        cases dosrc
        · right
          rw [(rename_lock_round_dest_held env s req ref sl dl srcdn destdir destdn destname
            hg1).1, hp]
        · left
          exact (rename_lock_round_src_held env s req ref sl dl srcdn destdir destdn destname
            hg1).2
      have hres1 : (rename_lock_round env s req ref dosrc sl dl srcdn destdir destdn
          destname).2.1 = some ⟨destdir, destname⟩ →
          ((rename_lock_round env s req ref dosrc sl dl srcdn destdir destdn
          destname).1.get_dentry ⟨destdir, destname⟩).isSome = true := by
        intro he
        cases dosrc
        · have a := (rename_lock_round_dest_held env s req ref sl dl srcdn destdir destdn
            destname hg1).2
          rw [hp] at a
          unfold MDS.xlocked_by at a
          cases hx : (rename_lock_round env s req ref false sl dl srcdn destdir destdn
            destname).1.get_dentry ⟨destdir, destname⟩ with
          | none => rw [hx] at a; simp at a
          | some d => rfl
        · rw [(rename_lock_round_src_held env s req ref sl dl srcdn destdir destdn destname
            hg1).2] at he
          rcases hdn2 with h | ⟨_, h⟩
          · rw [h] at he; cases he
          · exact (l1 ⟨destdir, destname⟩ destdir).2.2.1 h
      -- the second round
      have n2 := rename_lock_round_naborts env
        (rename_lock_round env s req ref dosrc sl dl srcdn destdir destdn destname).1 req ref
        (!dosrc) sl dl srcdn destdir
        (rename_lock_round env s req ref dosrc sl dl srcdn destdir destdn destname).2.1
        destname (fun _ => (l1 srcdn destdir).2.2.1 hsrc)
        (fun _ => ⟨by rw [(l1 srcdn destdir).2.2.2]; exact hdir, by
          rcases hd1' with h | h
          · rw [h]
            rcases hdn2 with h2 | ⟨h2, h3⟩
            · exact Or.inl h2
            · exact Or.inr ⟨h2, (l1 ⟨destdir, destname⟩ destdir).2.2.1 h3⟩
          · exact Or.inr ⟨h, hres1 h⟩⟩)
      have held := rename_lock_rounds_held env s req ref dosrc sl dl srcdn destdir destdn
        destname hg1
      by_cases hg2 : (rename_lock_round env
          (rename_lock_round env s req ref dosrc sl dl srcdn destdir destdn destname).1 req
          ref (!dosrc) sl dl srcdn destdir
          (rename_lock_round env s req ref dosrc sl dl srcdn destdir destdn destname).2.1
          destname).2.2 = true
      swap
      · simp only [hg2, Bool.not_false, ↓reduceIte]
        rw [n2, n1]
      simp only [hg2, Bool.not_true, Bool.false_eq_true, ↓reduceIte]
      have l2 := rename_lock_round_lookups env
        (rename_lock_round env s req ref dosrc sl dl srcdn destdir destdn destname).1 req ref
        (!dosrc) sl dl srcdn destdir
        (rename_lock_round env s req ref dosrc sl dl srcdn destdir destdn destname).2.1
        destname hg2
      obtain ⟨hfin, hxs, hxd⟩ := held hg2
      rw [hp] at hfin hxd
      generalize rename_lock_round env s req ref dosrc sl dl srcdn destdir destdn destname = r1
        at *
      generalize rename_lock_round env r1.1 req ref (!dosrc) sl dl srcdn destdir r1.2.1
        destname = r2 at *
      -- the state at the final check
      have hlink : ∀ q, r2.1.dentry_link q = s.dentry_link q := by
        intro q; rw [(l2 q destdir).1, (l1 q destdir).1]
      have hino : ∀ i, r2.1.get_inode i = s.get_inode i := by
        intro i
        exact get_inode_of_inode_map (by rw [(l2 srcdn destdir).2.1, (l1 srcdn destdir).2.1]) i
      have hnab : r2.1.naborts = s.naborts := by rw [n2, n1]
      simp only [hfin, Option.some_bind]
      cases hdd : r2.1.get_dentry ⟨destdir, destname⟩ with
      | none =>
        unfold MDS.xlocked_by at hxd
        rw [hdd] at hxd; simp at hxd
      | some dd =>
        cases hsd2 : r2.1.get_dentry srcdn with
        | none =>
          unfold MDS.xlocked_by at hxs
          rw [hsd2] at hxs; simp at hxs
        | some sd =>
          simp only []
          have hddl : dd.inode = s.dentry_link ⟨destdir, destname⟩ := by
            rw [← hlink]; unfold MDS.dentry_link; rw [hdd]; rfl
          have hsdl : sd.inode = sd0.inode := by
            have := hlink srcdn
            unfold MDS.dentry_link at this
            rw [hsd2, hsd] at this
            simpa using this
          have hs2 : (sd.inode.bind fun a => s.get_inode a) = some srci := by
            rw [hsdl]; exact hsi
          have hemit : (((r2.1.emit (.hit_dir srcdn.dir .META_POP_DWR)).emit
              (.hit_dir destdir .META_POP_DWR)).emit
              (.file_rename srcdn ⟨destdir, destname⟩
                (.C_MDS_CommitRequest req { req := req.id, result := 0 } sd.inode
                  (some (.EString "file rename fixme"))))).naborts = s.naborts := by
            rw [MDS.naborts_emit _ _ (by simp), MDS.naborts_emit _ _ (by simp),
              MDS.naborts_emit _ _ (by simp), hnab]
          cases hdi : dd.inode with
          | none =>
            simp only [Bool.false_eq_true, ↓reduceIte]
            exact hemit
          | some di =>
            obtain ⟨dci, h1, h2, h3⟩ := hsafe di (by rw [← hddl, hdi])
            simp only [hino, h1, hs2, h2, h3, Bool.or_self, Bool.false_eq_true, ↓reduceIte]
            exact hemit

end Server

/-- C30: the two assertions of the final check of `handle_client_rename_local` are not
reachable from `handle_client_rename_2`.  `handle_client_rename_2_dest` is the part of
`handle_client_rename_2` from the source-equals-destination test on: it makes the EISDIR
checks and enters `handle_client_rename_local`.  With the source inode `srci` that
`handle_client_rename_2` asserted, an open destination dirfrag and a destination dentry
whose inode pointer, if set, is valid, that part fails no assertion, whatever the locks
answer: a destination inode that is a directory, or a source directory over an existing
destination, was answered with EISDIR before, and the lock loop changes no link of a dentry
to its inode. -/
theorem rename_final_check_unreachable (env : Env) (s : MDS) (req : MClientRequest)
    (ref : inodeno_t) (srcdn : DnPtr) (srci : CInode) (destpath : filepath)
    (destdir : dirfrag_t) (destname : String)
    (hsrc : (s.get_dentry srcdn).bind (fun x => x.inode.bind s.get_inode) = some srci)
    (hdir : (s.get_dirfrag destdir).isSome = true)
    (hwf : ∀ di, s.dentry_link ⟨destdir, destname⟩ = some di →
      (s.get_inode di).isSome = true) :
    (Server.handle_client_rename_2_dest env s req ref srcdn srci destpath destdir destname).naborts =
      s.naborts := by
  unfold Server.handle_client_rename_2_dest
  simp only []
  split
  · exact MDS.naborts_reply_request_r _ _ _ _
  · cases hdd : s.get_dirfrag destdir with
    | none => rw [hdd] at hdir; simp at hdir
    | some dd =>
      simp only []
      have hget : s.get_dentry ⟨destdir, destname⟩ = dd.lookup destname := by
        unfold MDS.get_dentry
        simp only [hdd, Option.some_bind]
      split
      · exact MDS.naborts_reply_request_r _ _ _ _
      · rename_i hclash
        cases hsd : s.get_dentry srcdn with
        | none => rw [hsd] at hsrc; simp at hsrc
        | some sd0 =>
          rw [hsd] at hsrc
          simp only [Option.some_bind] at hsrc
          apply Server.rename_local_naborts env s req ref _ srcdn _ destdir _ destname sd0 srci hsd
            hsrc hdir
          · rw [hget]
          · intro di hdi
            have hw := hwf di hdi
            unfold MDS.dentry_link at hdi
            rw [hget] at hdi
            cases hci : s.get_inode di with
            | none => rw [hci] at hw; simp at hw
            | some dci =>
              refine ⟨dci, rfl, ?_⟩
              simp only [hdi, Option.some_bind, hci] at hclash
              cases h1 : dci.is_dir <;> cases h2 : srci.is_dir <;> simp_all

/-- Witness for C30: `mv a b` in `Sample.mds_two_files`, where both names are regular
files.  The handler passes the final check with the existing destination inode and calls the
rename executor; no assertion fails. -/
theorem rename_final_check_unreachable_witness :
    (Server.handle_client_rename_2_dest Sample.env Sample.mds_two_files
        { Sample.req .RENAME ["a"] {} with sarg := "b" } 1 ⟨⟨1, 0⟩, "a"⟩ Sample.file_inode
        ⟨["b"]⟩ ⟨1, 0⟩ "b").naborts = 0 ∧
    (Server.handle_client_rename_2_dest Sample.env Sample.mds_two_files
        { Sample.req .RENAME ["a"] {} with sarg := "b" } 1 ⟨⟨1, 0⟩, "a"⟩ Sample.file_inode
        ⟨["b"]⟩ ⟨1, 0⟩ "b").file_renames = [(⟨⟨1, 0⟩, "a"⟩, ⟨⟨1, 0⟩, "b"⟩)] := by
  refine ⟨rename_final_check_unreachable Sample.env Sample.mds_two_files
    { Sample.req .RENAME ["a"] {} with sarg := "b" } 1 ⟨⟨1, 0⟩, "a"⟩ Sample.file_inode
    ⟨["b"]⟩ ⟨1, 0⟩ "b" (by decide) (by decide) (by decide), ?_⟩
  have h1 : Server.handle_client_rename_2_dest Sample.env Sample.mds_two_files
      { Sample.req .RENAME ["a"] {} with sarg := "b" } 1 ⟨⟨1, 0⟩, "a"⟩ Sample.file_inode
      ⟨["b"]⟩ ⟨1, 0⟩ "b" =
    Server.handle_client_rename_local Sample.env Sample.mds_two_files
      { Sample.req .RENAME ["a"] {} with sarg := "b" } 1 "a" ⟨⟨1, 0⟩, "a"⟩ "b" ⟨1, 0⟩
      (some ⟨⟨1, 0⟩, "b"⟩) "b" := by
    unfold Server.handle_client_rename_2_dest
    rfl
  rw [h1]
  unfold Server.handle_client_rename_local
  generalize decide ("a" < "b") = dosrc
  cases dosrc <;> decide
